import Mathlib

/-!
# go-structs: records to flat string maps and back

A shallow embedding of `structs.go` (package `structs`): the tag parser `Tags`,
the introspection helpers `Value` and `Fields`, the coercion engine `decode`
with its per-kind workers, the formatter `format`, and the two marshallers
`FillMap` and `FillStruct`.

Conventions of the embedding.

* A `reflect.Value` is a `Val`: a tree that carries the dynamic type next to the
  payload.  The kind of a value is fixed by its constructor.  Distinct fields never
  alias each other.
* A Go `string` is a Lean `String`; `len(s)` is `s.utf8ByteSize`.
* Signed integers are mathematical integers together with their kind; the
  platform `int` is 64 bits wide.  Arithmetic that can overflow is reduced
  explicitly (`wrapInt64`).
* A Go `map[string]T` is an association list with unique keys (`GoMap`).
* A call ends in one of three ways: it returns a nil error, it returns an error,
  or it panics (`Outcome`, `Result`).  Mutations are returned as new states.
* Floating point lies outside the embedding: the four primitives that the code
  uses are fields of `FloatOps`, and everything is parametric in them.
-/

namespace Structs

/-! ## Results of calls -/

/-- The cause recorded in a `strconv.NumError`. -/
inductive NumError
  | ErrSyntax
  | ErrRange
deriving DecidableEq, Repr

/-- Result of a call that yields a value: a normal return, a returned error, or a panic. -/
inductive Result (ε α : Type)
  | ok (a : α)
  | error (e : ε)
  | panic (msg : String)
deriving DecidableEq, Repr

/-! ## reflect.Kind and types -/

/-- The constants of `reflect.Kind`, in declaration order. -/
inductive Kind
  | Invalid | Bool | Int | Int8 | Int16 | Int32 | Int64
  | Uint | Uint8 | Uint16 | Uint32 | Uint64 | Uintptr
  | Float32 | Float64 | Complex64 | Complex128
  | Array | Chan | Func | Interface | Map | Ptr | Slice | String | Struct | UnsafePointer
deriving DecidableEq, Repr

/-- Numeric value of a `reflect.Kind` constant (its position in the `iota` block). -/
def kindNum : Kind → Nat
  | .Invalid => 0 | .Bool => 1 | .Int => 2 | .Int8 => 3 | .Int16 => 4 | .Int32 => 5
  | .Int64 => 6 | .Uint => 7 | .Uint8 => 8 | .Uint16 => 9 | .Uint32 => 10 | .Uint64 => 11
  | .Uintptr => 12 | .Float32 => 13 | .Float64 => 14 | .Complex64 => 15 | .Complex128 => 16
  | .Array => 17 | .Chan => 18 | .Func => 19 | .Interface => 20 | .Map => 21 | .Ptr => 22
  | .Slice => 23 | .String => 24 | .Struct => 25 | .UnsafePointer => 26

/-- The five signed integer kinds. -/
inductive IntKind
  | int | int8 | int16 | int32 | int64
deriving DecidableEq, Repr

/-- The `reflect.Kind` of a signed integer kind. -/
def IntKind.toKind : IntKind → Kind
  | .int => .Int | .int8 => .Int8 | .int16 => .Int16 | .int32 => .Int32 | .int64 => .Int64

/-- Size in bits, `Type.Bits()`; the platform `int` has 64 bits. -/
def IntKind.Bits : IntKind → Nat
  | .int => 64 | .int8 => 8 | .int16 => 16 | .int32 => 32 | .int64 => 64

/-- Name and method set of a type.  The name is empty for a type literal; predeclared
types carry their own name (`string`, `bool`, `int64`, ...). -/
structure TName where
  name : String
  methods : List String
deriving DecidableEq, Repr

/-- A predeclared type: its name and no methods. -/
def predeclared (name : String) : TName := ⟨name, []⟩

/-- The predeclared type `string`. -/
def tString : TName := predeclared "string"

/-- The predeclared type `bool`. -/
def tBool : TName := predeclared "bool"

/-- Go types, as far as the package can tell them apart. -/
inductive Ty
  | bool (n : TName)
  | int (n : TName) (k : IntKind)
  | float (n : TName) (is64 : Bool)
  | string (n : TName)
  | ptr (elem : Ty)
  | iface (n : TName)
  | other (n : TName) (k : Kind) (lit : String)
deriving DecidableEq, Repr

/-- A `reflect.Value`.  `invalid` is the zero Value (also `reflect.ValueOf(nil)`);
`iface n held` is a slot of interface type holding `held` (`invalid` when the
interface is nil); `other` is a value of a kind the package never looks into. -/
inductive Val
  | invalid
  | bool (n : TName) (b : Bool)
  | int (n : TName) (k : IntKind) (i : Int)
  | float (n : TName) (is64 : Bool) (bits : Nat)
  | str (n : TName) (s : String)
  | nilptr (elem : Ty)
  | ptr (elem : Val)
  | iface (n : TName) (held : Val)
  | other (n : TName) (k : Kind) (lit : String) (isNil : Bool) (id : Nat)
deriving DecidableEq, Repr

/-- Errors returned by the package. -/
inductive GoError
  | mustBePointer
  | unsupportedType (name : String) (k : Kind)
  | cannotParse (name : String) (target : String) (cause : NumError)
  | unconvertible (name : String) (expected : Ty) (got : Ty) (value : Val)
  | expectedType (name : String) (expected : Ty) (got : Ty)
  | hook (msg : String)
deriving DecidableEq, Repr

/-- How a call that returns only an `error` ends. -/
inductive Outcome
  | nil
  | error (e : GoError)
  | panic (msg : String)
deriving DecidableEq, Repr

/-- The method `Value.Kind`. -/
def Val.kind : Val → Kind
  | .invalid => .Invalid
  | .bool _ _ => .Bool
  | .int _ k _ => k.toKind
  | .float _ is64 _ => if is64 then .Float64 else .Float32
  | .str _ _ => .String
  | .nilptr _ => .Ptr
  | .ptr _ => .Ptr
  | .iface _ _ => .Interface
  | .other _ k _ _ _ => k

/-- The method `Value.Type`; `none` stands for the panic on the zero Value. -/
def Val.Type : Val → Option Ty
  | .invalid => none
  | .bool n _ => some (.bool n)
  | .int n k _ => some (.int n k)
  | .float n is64 _ => some (.float n is64)
  | .str n _ => some (.string n)
  | .nilptr e => some (.ptr e)
  | .ptr e => (Val.Type e).map Ty.ptr
  | .iface n _ => some (.iface n)
  | .other n k lit _ _ => some (.other n k lit)

/-- The function `reflect.Zero` (and `reflect.New(t).Elem()`). -/
def Zero : Ty → Val
  | .bool n => .bool n false
  | .int n k => .int n k 0
  | .float n is64 => .float n is64 0
  | .string n => .str n ""
  | .ptr e => .nilptr e
  | .iface n => .iface n .invalid
  | .other n k lit => .other n k lit (k = .Chan ∨ k = .Func ∨ k = .Map ∨ k = .Slice) 0

/-- The method `Value.IsValid`. -/
def Val.IsValid (v : Val) : Bool := v ≠ .invalid

/-- The method `Value.IsNil`, for the kinds that may be nil. -/
def Val.IsNil : Val → Bool
  | .nilptr _ => true
  | .iface _ held => held = .invalid
  | .other _ _ _ isNil _ => isNil
  | _ => false

/-- The method `Value.Elem`, for pointers and interfaces (zero Value when nil). -/
def Val.Elem : Val → Val
  | .ptr e => e
  | .iface _ held => held
  | _ => .invalid

/-- The function `reflect.Indirect`: the pointee of a pointer, the value itself otherwise. -/
def Indirect : Val → Val
  | .ptr e => e
  | .nilptr _ => .invalid
  | v => v

/-- The pair `reflect.ValueOf(v.Interface())`: the dynamic value held by an interface
slot, the value itself for every other kind; `Interface` panics on the zero Value. -/
def Val.Interface : Val → Result GoError Val
  | .invalid => .panic "reflect: call of reflect.Value.Interface on zero Value"
  | .iface _ held => .ok held
  | v => .ok v

/-- Whether a type has a name (`abi.Type.HasName`). -/
def Ty.HasName : Ty → Bool
  | .ptr _ => false
  | .bool n | .int n _ | .float n _ | .string n | .iface n | .other n _ _ => n.name ≠ ""

/-- Method names of a type; a pointer type has at least the methods of its base type. -/
def Ty.methods : Ty → List String
  | .ptr e => Ty.methods e
  | .bool n | .int n _ | .float n _ | .string n | .iface n | .other n _ _ => n.methods

/-- The method `Type.AssignableTo`, following `reflect.directlyAssignable` and
`reflect.implements`: identical types; or the same kind and underlying type when not
both are named; or an interface target whose methods the source type has. -/
def assignable (T V : Ty) : Bool :=
  if T = V then true
  else match T, V with
    | .iface n, _ => n.methods.all (fun m => m ∈ V.methods)
    | .other n k lit, .other n2 k2 lit2 =>
        k = k2 ∧ lit = lit2 ∧ ¬ (n.name ≠ "" ∧ n2.name ≠ "")
    | _, _ => false

/-- The method `Value.Set` on a settable target: the new content of `to`, or the panic
of `reflect` when `x` is the zero Value or its type is not assignable to the type of `to`. -/
def Val.Set (to_ x : Val) : Result GoError Val :=
  match to_.Type, x.Type with
  | some T, some V =>
    if T = V then .ok x
    else if assignable T V then
      match to_, x with
      | .iface n _, .iface _ held => .ok (.iface n held)
      | .iface n _, _ => .ok (.iface n x)
      | .other n k lit _ _, .other _ _ _ isNil id => .ok (.other n k lit isNil id)
      | _, _ => .panic "reflect.Set: value is not assignable"
    else .panic "reflect.Set: value is not assignable"
  | _, _ => .panic "reflect: call of reflect.Value.Set on zero Value"

/-! ## Go maps -/

/-- A Go `map[string]T`: an association list in which every key occurs once. -/
abbrev GoMap (α : Type) := List (String × α)

/-- The lookup `v, ok := m[k]`. -/
def GoMap.lookup {α : Type} : GoMap α → String → Option α
  | [], _ => none
  | (k', v) :: m, k => if k' = k then some v else GoMap.lookup m k

/-- The assignment `m[k] = v`: replaces the entry of `k` or adds one. -/
def GoMap.insert {α : Type} : GoMap α → String → α → GoMap α
  | [], k, v => [(k, v)]
  | (k', v') :: m, k, v => if k' = k then (k', v) :: m else (k', v') :: GoMap.insert m k v

/-! ## package strings -/

/-- The call `strings.ContainsRune(s, r)`. -/
def ContainsRune (s : String) (r : Char) : Bool := s.data.contains r

/-- Pieces of a character list between the occurrences of `sep`; `cur` is the piece
being read, reversed. -/
def splitChars (sep : Char) : List Char → List Char → List String
  | [], cur => [String.mk cur.reverse]
  | c :: cs, cur =>
    if c = sep then String.mk cur.reverse :: splitChars sep cs []
    else splitChars sep cs (c :: cur)

/-- The call `strings.Split(s, sep)` for a one-byte separator: all pieces, one more than
the number of separators. -/
def Split (s : String) (sep : Char) : List String := splitChars sep s.data []

/-- The call `strings.SplitN(s, sep, 2)` for a one-byte separator: the text before the
first separator and the text after it, or `s` alone when there is no separator. -/
def SplitN2 (s : String) (sep : Char) : List String :=
  match s.data.span (fun c => c ≠ sep) with
  | (_, []) => [s]
  | (before, _ :: after) => [String.mk before, String.mk after]

/-! ## package strconv -/

/-- The call `strconv.ParseBool(str)`: the returned value and error. -/
def ParseBool (str : String) : Bool × Option NumError :=
  if str = "1" ∨ str = "t" ∨ str = "T" ∨ str = "true" ∨ str = "TRUE" ∨ str = "True" then
    (true, none)
  else if str = "0" ∨ str = "f" ∨ str = "F" ∨ str = "false" ∨ str = "FALSE"
      ∨ str = "False" then
    (false, none)
  else (false, some .ErrSyntax)

/-- The helper `lower(c)` of strconv: `c | ('x' - 'X')`. -/
def lower (c : Char) : Nat := c.toNat ||| 32

/-- The constant `maxUint64`. -/
def maxUint64 : Nat := 2 ^ 64 - 1

/-- Digit value of a byte in `ParseUint`: `c - '0'` for a decimal digit,
`lower(c) - 'a' + 10` for a letter, none for any other byte. -/
def digitOf (c : Char) : Option Nat :=
  if 48 ≤ c.toNat ∧ c.toNat ≤ 57 then some (c.toNat - 48)
  else if 97 ≤ lower c ∧ lower c ≤ 122 then some (lower c - 97 + 10)
  else none

/-- The digit loop of `strconv.ParseUint`.  Returns the value and whether an underscore
was seen, or the value and error with which `ParseUint` returns from inside the loop. -/
def parseUintLoop (base : Nat) (base0 : Bool) (cutoff maxVal : Nat) :
    List Char → Nat → Bool → Except (Nat × NumError) (Nat × Bool)
  | [], n, underscores => .ok (n, underscores)
  | c :: cs, n, underscores =>
    if c = '_' ∧ base0 then parseUintLoop base base0 cutoff maxVal cs n true
    else
      match digitOf c with
      | none => .error (0, .ErrSyntax)
      | some d =>
        if d ≥ base then .error (0, .ErrSyntax)
        else if n ≥ cutoff then .error (maxVal, .ErrRange)
        else
          let n := (n * base) % 2 ^ 64
          let n1 := (n + d) % 2 ^ 64
          if n1 < n ∨ n1 > maxVal then .error (maxVal, .ErrRange)
          else parseUintLoop base base0 cutoff maxVal cs n1 underscores

/-- The scan of `strconv.underscoreOK` over the number proper; `saw` is the last
character class seen. -/
def underscoreOKLoop (hex : Bool) : List Char → Char → Bool
  | [], saw => saw ≠ '_'
  | c :: cs, saw =>
    if (48 ≤ c.toNat ∧ c.toNat ≤ 57) ∨ (hex ∧ 97 ≤ lower c ∧ lower c ≤ 102) then
      underscoreOKLoop hex cs '0'
    else if c = '_' then
      if saw ≠ '0' then false else underscoreOKLoop hex cs '_'
    else if saw = '_' then false
    else underscoreOKLoop hex cs '!'

/-- The function `strconv.underscoreOK`: underscores only between digits, or between a
base prefix and a digit. -/
def underscoreOK (s : List Char) : Bool :=
  let s := match s with
    | c :: r => if c = '-' ∨ c = '+' then r else s
    | [] => s
  match s with
  | c0 :: c1 :: rest =>
    if c0 = '0' ∧ (lower c1 = 98 ∨ lower c1 = 111 ∨ lower c1 = 120) then
      underscoreOKLoop (lower c1 = 120) rest '0'
    else underscoreOKLoop false s '^'
  | _ => underscoreOKLoop false s '^'

/-- Base and remaining text chosen by `ParseUint` for `base == 0`: a `0b`, `0o` or `0x`
prefix (any case) in front of at least one more byte, a bare leading `0` for octal,
decimal otherwise. -/
def basePrefix (s : List Char) : Nat × List Char :=
  match s with
  | c0 :: rest =>
    if c0 = '0' then
      match rest with
      | c1 :: c2 :: tl =>
        if lower c1 = 98 then (2, c2 :: tl)
        else if lower c1 = 111 then (8, c2 :: tl)
        else if lower c1 = 120 then (16, c2 :: tl)
        else (8, rest)
      | _ => (8, rest)
    else (10, s)
  | [] => (10, s)

/-- The call `strconv.ParseUint(s, base, bitSize)` on the bytes `s`: the returned value
and error.  A `base` outside `0, 2..36` and a `bitSize` above 64 are the errors
`ErrSyntax` of this model (`strconv` has separate messages for them). -/
def ParseUint (s : List Char) (base bitSize : Nat) : Nat × Option NumError :=
  if s = [] then (0, some .ErrSyntax)
  else
    let base0 : Bool := base = 0
    if ¬ (base = 0 ∨ (2 ≤ base ∧ base ≤ 36)) then (0, some .ErrSyntax)
    else
      let (base, body) := if base = 0 then basePrefix s else (base, s)
      if bitSize > 64 then (0, some .ErrSyntax)
      else
        let bitSize := if bitSize = 0 then 64 else bitSize
        let cutoff := maxUint64 / base + 1
        let maxVal := 2 ^ bitSize - 1
        match parseUintLoop base base0 cutoff maxVal body 0 false with
        | .error (v, e) => (v, some e)
        | .ok (n, underscores) =>
          if underscores ∧ ¬ underscoreOK s then (0, some .ErrSyntax)
          else (n, none)

/-- The step "pick off leading sign" of `strconv.ParseInt`: whether the number is negative,
and the text after the sign. -/
def leadingSign (s : String) : Bool × List Char :=
  match s.data with
  | c :: r => if c = '+' then (false, r) else if c = '-' then (true, r) else (false, s.data)
  | [] => (false, [])

/-- The call `strconv.ParseInt(s, base, bitSize)`: the returned value and error. -/
def ParseInt (s : String) (base bitSize : Nat) : Int × Option NumError :=
  if s = "" then (0, some .ErrSyntax)
  else
    let neg := (leadingSign s).1
    let rest := (leadingSign s).2
    let un := (ParseUint rest base bitSize).1
    let err := (ParseUint rest base bitSize).2
    if err ≠ none ∧ err ≠ some .ErrRange then (0, err)
    else
      let bitSize := if bitSize = 0 then 64 else bitSize
      let cutoff : Nat := 2 ^ (bitSize - 1)
      if ¬ neg ∧ un ≥ cutoff then ((cutoff : Int) - 1, some .ErrRange)
      else if neg ∧ un > cutoff then (- (cutoff : Int), some .ErrRange)
      else (if neg then - (un : Int) else (un : Int), none)

/-- The call `strconv.FormatInt(i, base)` for `2 <= base <= 16`: a minus sign for a
negative number, then the digits of the magnitude, most significant first. -/
def FormatInt (i : Int) (base : Nat) : String :=
  if i < 0 then String.mk ('-' :: Nat.toDigits base (-i).toNat)
  else String.mk (Nat.toDigits base i.toNat)

/-- Floating-point primitives, which lie outside this development.  A `float32` or
`float64` value is identified by the bit pattern of its `float64` value. -/
structure FloatOps where
  /-- The call `strconv.FormatFloat(f, 'f', -1, 64)`. -/
  FormatFloat : Nat → String
  /-- The call `strconv.ParseFloat(s, bitSize)`. -/
  ParseFloat : String → Nat → Nat × Option NumError
  /-- The conversion `float64(i)` of an `int64`. -/
  ofInt : Int → Nat
  /-- The rounding `float64(float32(f))` done by `SetFloat` on a `float32` target. -/
  toFloat32 : Nat → Nat

/-! ## Reading and writing scalar values through reflect -/

/-- The method `Value.Bool` (on a value of kind Bool). -/
def Val.asBool : Val → Bool
  | .bool _ b => b
  | _ => false

/-- The method `Value.Int` (on a value of a signed integer kind). -/
def Val.asInt : Val → Int
  | .int _ _ i => i
  | _ => 0

/-- The method `Value.String` (on a value of kind String). -/
def Val.asString : Val → String
  | .str _ s => s
  | _ => ""

/-- The method `Value.Float` (on a value of a float kind). -/
def Val.asFloat : Val → Nat
  | .float _ _ bits => bits
  | _ => 0

/-- The call `to.Type().Bits()`. -/
def Val.Bits : Val → Nat
  | .int _ k _ => k.Bits
  | .float _ is64 _ => if is64 then 64 else 32
  | _ => 0

/-- Reduction of an integer to the signed range of `w` bits (two's complement). -/
def wrapInt (w : Nat) (x : Int) : Int :=
  (x + 2 ^ (w - 1)) % 2 ^ w - 2 ^ (w - 1)

/-- Reduction to `int64`. -/
def wrapInt64 (x : Int) : Int := wrapInt 64 x

/-- The method `Value.SetBool`. -/
def Val.SetBool (to_ : Val) (x : Bool) : Val × Outcome :=
  match to_ with
  | .bool n _ => (.bool n x, .nil)
  | _ => (to_, .panic "reflect: call of reflect.Value.SetBool on non-bool Value")

/-- The method `Value.SetInt`: stores `x` converted to the integer type of the target. -/
def Val.SetInt (to_ : Val) (x : Int) : Val × Outcome :=
  match to_ with
  | .int n k _ => (.int n k (wrapInt k.Bits x), .nil)
  | _ => (to_, .panic "reflect: call of reflect.Value.SetInt on non-int Value")

/-- The method `Value.SetString`. -/
def Val.SetString (to_ : Val) (x : String) : Val × Outcome :=
  match to_ with
  | .str n _ => (.str n x, .nil)
  | _ => (to_, .panic "reflect: call of reflect.Value.SetString on non-string Value")

/-- The method `Value.SetFloat`: a `float32` target stores the rounded value. -/
def Val.SetFloat (fl : FloatOps) (to_ : Val) (x : Nat) : Val × Outcome :=
  match to_ with
  | .float n is64 _ => (.float n is64 (if is64 then x else fl.toFloat32 x), .nil)
  | _ => (to_, .panic "reflect: call of reflect.Value.SetFloat on non-float Value")

/-! ## The coercion engine -/

/-- Normalized kind: `getKind` of structs.go. -/
def getKind (val : Val) : Kind :=
  let kind := val.kind
  if kindNum kind ≥ kindNum .Int ∧ kindNum kind ≤ kindNum .Int64 then .Int
  else if kindNum kind ≥ kindNum .Uint ∧ kindNum kind ≤ kindNum .Uint64 then .Uint
  else if kindNum kind ≥ kindNum .Float32 ∧ kindNum kind ≤ kindNum .Float64 then .Float32
  else kind

/-- The error of `getDecodeErr`; building it reads both types and the source value, which
panics on a zero Value. -/
def getDecodeErr (name : String) (from_ to_ : Val) : Outcome :=
  match to_.Type, from_.Type, from_.Interface with
  | some T, some V, .ok v => .error (.unconvertible name T V v)
  | _, _, _ => .panic "reflect: call of reflect.Value.Type on zero Value"

/-- Worker `decodeBool`: supports bool, int, string. -/
def decodeBool (name : String) (from_ to_ : Val) : Val × Outcome :=
  match getKind from_ with
  | .Bool => to_.SetBool from_.asBool
  | .Int => to_.SetBool (from_.asInt ≠ 0)
  | .String =>
    match ParseBool from_.asString with
    | (b, none) => to_.SetBool b
    | (_, some err) =>
      if from_.asString = "" then to_.SetBool false
      else (to_, .error (.cannotParse name "bool" err))
  | _ => (to_, getDecodeErr name from_ to_)

/-- Worker `decodeString`: supports string, bool, int, float32. -/
def decodeString (fl : FloatOps) (name : String) (from_ to_ : Val) : Val × Outcome :=
  match getKind from_ with
  | .String => to_.SetString from_.asString
  | .Bool => if from_.asBool then to_.SetString "1" else to_.SetString "0"
  | .Int => to_.SetString (FormatInt from_.asInt 10)
  | .Float32 => to_.SetString (fl.FormatFloat from_.asFloat)
  | _ => (to_, getDecodeErr name from_ to_)

/-- Worker `decodeInt`: supports int, bool, string. -/
def decodeInt (name : String) (from_ to_ : Val) : Val × Outcome :=
  match getKind from_ with
  | .Int => to_.SetInt from_.asInt
  | .Bool => if from_.asBool then to_.SetInt 1 else to_.SetInt 0
  | .String =>
    let s := from_.asString
    let s := if s = "" then "0" else s
    match ParseInt s 0 to_.Bits with
    | (i, none) => to_.SetInt i
    | (_, some err) => (to_, .error (.cannotParse name "int" err))
  | _ => (to_, getDecodeErr name from_ to_)

/-- Worker `decodeFloat`: supports float32, int, bool, string. -/
def decodeFloat (fl : FloatOps) (name : String) (from_ to_ : Val) : Val × Outcome :=
  match getKind from_ with
  | .Float32 => to_.SetFloat fl from_.asFloat
  | .Int => to_.SetFloat fl (fl.ofInt from_.asInt)
  | .Bool => if from_.asBool then to_.SetFloat fl 4607182418800017408 else to_.SetFloat fl 0
  | .String =>
    let s := from_.asString
    let s := if s = "" then "0" else s
    match fl.ParseFloat s to_.Bits with
    | (f, none) => to_.SetFloat fl f
    | (_, some err) => (to_, .error (.cannotParse name "float" err))
  | _ => (to_, getDecodeErr name from_ to_)

/-- Nesting depth of pointers and interfaces in a type. -/
def Ty.weight : Ty → Nat
  | .ptr e => Ty.weight e + 1
  | .iface _ => 2
  | _ => 0

/-- Nesting depth of pointers and interfaces in a value. -/
def Val.weight : Val → Nat
  | .ptr e => Val.weight e + 1
  | .nilptr t => t.weight + 1
  | .iface _ held => Val.weight held + 2
  | _ => 0

mutual

/-- Dispatcher `decode`: converts `from_` into the target `to_`, by the normalized kind
of the target.  Returns the target after the call and how the call ended.  `canSet` is
`to.CanSet()`. -/
def decode (fl : FloatOps) (name : String) (from_ to_ : Val) (canSet : Bool) :
    Val × Outcome :=
  match getKind to_ with
  | .Bool => decodeBool name from_ to_
  | .Interface => decodeBasic fl name from_ to_
  | .String => decodeString fl name from_ to_
  | .Int => decodeInt name from_ to_
  | .Float32 => decodeFloat fl name from_ to_
  | .Ptr => decodePtr fl name from_ to_ canSet
  | k => (to_, .error (.unsupportedType name k))
termination_by (to_.weight, 1)
decreasing_by
  all_goals exact Prod.Lex.right _ (by decide)

/-- Worker `decodePtr`: a nil source makes a settable target nil; otherwise the pointee
(a fresh one when the target is nil and settable) is decoded into. -/
def decodePtr (fl : FloatOps) (name : String) (from_ to_ : Val) (canSet : Bool) :
    Val × Outcome :=
  match from_.Interface with
  | .panic msg => (to_, .panic msg)
  | .error e => (to_, .error e)
  | .ok data =>
    let isNil : Bool :=
      if data = .invalid then true
      else
        let v := Indirect from_
        if v.kind = .Chan ∨ v.kind = .Func ∨ v.kind = .Interface ∨ v.kind = .Map
            ∨ v.kind = .Ptr ∨ v.kind = .Slice then v.IsNil
        else false
    if isNil then
      if ¬ to_.IsNil ∧ canSet then
        match to_.Type with
        | some T => (Zero T, .nil)
        | none => (to_, .panic "reflect: call of reflect.Value.Type on zero Value")
      else (to_, .nil)
    else
      match to_ with
      | .ptr e =>
        -- realVal is `to` itself, or `to` cannot be set: the pointee is decoded in place
        match decode fl name from_ e true with
        | (e', out) => (.ptr e', out)
      | .nilptr t =>
        if canSet then
          -- realVal = reflect.New(valElemType); stored in `to` only after a nil error
          match decode fl name from_ (Zero t) true with
          | (e', .nil) => (.ptr e', .nil)
          | (_, out) => (to_, out)
        else
          -- reflect.Indirect(to) of a nil pointer is the zero Value
          match decode fl name from_ .invalid true with
          | (_, out) => (to_, out)
      | _ => (to_, .panic "reflect: Elem of a type that is not a pointer")
termination_by (to_.weight, 0)
decreasing_by
  all_goals apply Prod.Lex.left
  · simp [Val.weight]
  · rename_i t _
    cases t <;> simp [Zero, Val.weight, Ty.weight]
  · simp [Val.weight]

/-- Worker `decodeBasic`: a non-nil interface target is decoded through a copy of the
value it holds, which is written back on success; a nil interface target takes the
source itself when its type is assignable. -/
def decodeBasic (fl : FloatOps) (name : String) (from_ to_ : Val) : Val × Outcome :=
  match from_.Interface with
  | .panic msg => (to_, .panic msg)
  | .error e => (to_, .error e)
  | .ok data =>
    match to_ with
    | .iface n held =>
      if held ≠ .invalid then
        -- elem := to.Elem() cannot be addressed: copy := reflect.New(elem.Type()),
        -- copy.Elem().Set(elem), elem = copy
        match decode fl name from_ (.ptr held) false with
        | (copy, .nil) =>
          match (Val.iface n held).Set copy.Elem with
          | .ok v => (v, .nil)
          | .error e => (to_, .error e)
          | .panic msg => (to_, .panic msg)
        | (_, out) => (to_, out)
      else
        let dataVal := data
        let dataVal :=
          if dataVal.kind = .Ptr ∧ dataVal.Type = some (.ptr (.iface n)) then Indirect dataVal
          else dataVal
        let dataVal := if ¬ dataVal.IsValid then Zero (.iface n) else dataVal
        match dataVal.Type with
        | some dataValType =>
          if ¬ assignable (.iface n) dataValType then
            (to_, .error (.expectedType name (.iface n) dataValType))
          else
            match (Val.iface n held).Set dataVal with
            | .ok v => (v, .nil)
            | .error e => (to_, .error e)
            | .panic msg => (to_, .panic msg)
        | none => (to_, .panic "reflect: call of reflect.Value.Type on zero Value")
    | _ => (to_, .panic "reflect: call of reflect.Value.Elem on a non-interface Value")
termination_by (to_.weight, 0)
decreasing_by
  all_goals apply Prod.Lex.left
  all_goals simp [Val.weight]

end

/-! ## Records and introspection -/

/-- A `reflect.StructField`, as far as the package reads it: the field name, the package
path (empty exactly for an exported field), and the struct tag as the list of its
`key:"value"` pairs. -/
structure StructField where
  Name : String
  PkgPath : String
  Tag : List (String × String)
deriving DecidableEq, Repr

/-- The method `StructTag.Get`: the value of the first pair with this key, or the empty
string. -/
def StructField.TagGet (field : StructField) (key : String) : String :=
  match field.Tag.find? (fun kv => kv.1 = key) with
  | some kv => kv.2
  | none => ""

/-- A struct value: its fields in declaration order, each with its current value. -/
structure Record where
  fields : List (StructField × Val)
deriving DecidableEq, Repr

/-- The method `Value.FieldByName` on a struct: the value of the first field with this
name (the zero Value when there is none). -/
def Record.FieldByName (r : Record) (name : String) : Val :=
  match r.fields.find? (fun fv => fv.1.Name = name) with
  | some fv => fv.2
  | none => .invalid

/-- Stores `v` in the first element of the list whose field is called `name`. -/
def setFieldIn (name : String) (v : Val) : List (StructField × Val) → List (StructField × Val)
  | [] => []
  | fv :: rest =>
    if fv.1.Name = name then (fv.1, v) :: rest else fv :: setFieldIn name v rest

/-- The record after a write through the Value returned by `FieldByName(name)`. -/
def Record.setField (r : Record) (name : String) (v : Val) : Record :=
  ⟨setFieldIn name v r.fields⟩

/-- What a caller may pass where the package takes an `interface{}` that should be a
record: nil, a struct, a pointer to such an argument, a nil pointer, or any other value. -/
inductive Arg
  | nil
  | struct (r : Record)
  | ptr (a : Arg)
  | nilPtr
  | scalar (v : Val)
deriving DecidableEq, Repr

/-- Function `Value`: follows pointers and panics unless a struct is reached. -/
def Value : Arg → Result GoError Record
  | .ptr a => Value a
  | .struct r => .ok r
  | _ => .panic "not a struct"

/-- The argument with the struct at the end of its pointer chain replaced. -/
def Arg.withStruct : Arg → Record → Arg
  | .ptr a, r => .ptr (Arg.withStruct a r)
  | .struct _, r => .struct r
  | a, _ => a

/-- Function `Fields`: the exported fields, in declaration order. -/
def Fields (s : Arg) : Result GoError (List StructField) :=
  match Value s with
  | .ok r => .ok ((r.fields.map (fun fv => fv.1)).filter (fun field => field.PkgPath = ""))
  | .error e => .error e
  | .panic msg => .panic msg

/-- The loop over the parts of one annotation in `Tags`: a part without `=` is stored with
the value "true", any other part is split once at its first `=`. -/
def tagParts (m : GoMap String) : List String → GoMap String
  | [] => m
  | tagPart :: rest =>
    if ¬ ContainsRune tagPart '=' then tagParts (GoMap.insert m tagPart "true") rest
    else
      let kv := SplitN2 tagPart '='
      tagParts (GoMap.insert m (kv.getD 0 "") (kv.getD 1 "")) rest

/-- The loop over the fields in `Tags`. -/
def tagsLoop (key : String) (tags : GoMap (GoMap String)) :
    List StructField → GoMap (GoMap String)
  | [] => tags
  | field :: rest =>
    let tag := field.TagGet key
    if tag ≠ "" then
      let tags := match GoMap.lookup tags field.Name with
        | some _ => tags
        | none => GoMap.insert tags field.Name []
      let inner := tagParts ((GoMap.lookup tags field.Name).getD []) (Split tag ',')
      tagsLoop key (GoMap.insert tags field.Name inner) rest
    else tagsLoop key tags rest

/-- Function `Tags`: for every exported field with a non-empty annotation under `key`, the
parsed options of that annotation. -/
def Tags (s : Arg) (key : String) : Result GoError (GoMap (GoMap String)) :=
  match Fields s with
  | .ok fields => .ok (tagsLoop key [] fields)
  | .error e => .error e
  | .panic msg => .panic msg

/-- Function `isPtr`: the argument must be a non-nil pointer. -/
def isPtr (i : Arg) : Outcome :=
  match i with
  | .ptr _ => .nil
  | _ => .error .mustBePointer

/-! ## The formatter -/

/-- The closure `fieldLen` of `format`: the tag `len`, or else `end + 1 - start`; panics
when a tag it needs is missing or is not a decimal `int`. -/
def fieldLen (name : String) (t : GoMap String) : Result GoError Int :=
  match GoMap.lookup t "len" with
  | some v =>
    match ParseInt v 10 0 with
    | (len, none) => .ok len
    | (_, some _) => .panic "strconv.ParseInt: parsing len"
  | none =>
    match GoMap.lookup t "start" with
    | none => .panic ("cannot format field " ++ name ++ " without start and end OR len tag")
    | some v =>
      match ParseInt v 10 0 with
      | (_, some _) => .panic "strconv.ParseInt: parsing start"
      | (start, none) =>
        match GoMap.lookup t "end" with
        | none => .panic ("cannot format field " ++ name ++ " without start and end OR len tag")
        | some v =>
          match ParseInt v 10 0 with
          | (_, some _) => .panic "strconv.ParseInt: parsing end"
          | (end_, none) => .ok (wrapInt64 (end_ + 1 - start))

/-- The closure `padWith` of `format`: the pad unit. -/
def padWith (s : String) : String :=
  if s = "true" ∨ s.utf8ByteSize ≠ 1 then " " else s

/-- The loop `for len(s) < fieldLen(tags)` of `format`, with the length already computed:
`val` is put in front of `s` (`left`) or behind it until the length is reached.  The first
argument bounds the number of rounds. -/
def padLoop (left : Bool) (val : String) (fieldLen : Int) : Nat → String → String
  | 0, s => s
  | fuel + 1, s =>
    if (s.utf8ByteSize : Int) < fieldLen then
      padLoop left val fieldLen fuel (if left then val ++ s else s ++ val)
    else s

/-- One padding branch of `format`: `fieldLen` is evaluated in the loop condition, so a
panic in it is raised before the length of `s` is looked at.  Every round adds the one
byte of the pad unit, so `fieldLen - len(s)` rounds reach the length. -/
def pad (left : Bool) (name : String) (val : String) (s : String) (tags : GoMap String) :
    Result GoError Val :=
  match fieldLen name tags with
  | .ok n =>
    .ok (.str tString
      (padLoop left (padWith val) n (n - (s.utf8ByteSize : Int)).toNat s))
  | .error e => .error e
  | .panic msg => .panic msg

/-- Function `format`: the string form of `from_`, padded as the tags say; the value
itself when it has no string form or no padding tag is present.  The parameter `to_` is
not used by the source either. -/
def format (fl : FloatOps) (name : String) (from_ _to : Val) (tags : GoMap String) :
    Result GoError Val :=
  match decodeString fl name from_ (.str tString "") with
  | (_, .panic msg) => .panic msg
  | (_, .error _) => from_.Interface
  | (sv, .nil) =>
    let s := sv.asString
    match GoMap.lookup tags "padleft" with
    | some val => pad true name val s tags
    | none =>
      match GoMap.lookup tags "padright" with
      | some val => pad false name val s tags
      | none => from_.Interface

/-! ## The marshallers -/

/-- A caller-supplied hook `func(reflect.Value, reflect.Value, map[string]string)
(interface{}, error)`, as a function of its three arguments: it returns a value, returns
an error, or panics.  The returned `Val` is `reflect.ValueOf` of the returned interface
(`invalid` for nil).  A hook that writes through its second argument is not modelled. -/
abbrev Hook := Val → Val → GoMap String → Result GoError Val

/-- The loop over the fields in `FillMap`; the state is the target map. -/
def fillMapLoop (fl : FloatOps) (tags : GoMap (GoMap String)) (fromVal : Record)
    (decoder : Option Hook) : List StructField → GoMap String → GoMap String × Outcome
  | [], to_ => (to_, .nil)
  | field :: rest, to_ =>
    let val := fromVal.FieldByName field.Name
    let oVal := Val.ptr (.str tString "")
    let t := (GoMap.lookup tags field.Name).getD []
    let hooked : Result GoError Val := match decoder with
      | some d => d val oVal t
      | none => .ok val
    match hooked with
    | .error e => (to_, .error e)
    | .panic msg => (to_, .panic msg)
    | .ok val =>
      match format fl field.Name val oVal t with
      | .error e => (to_, .error e)
      | .panic msg => (to_, .panic msg)
      | .ok val =>
        match decode fl field.Name val oVal false with
        | (oVal, .nil) =>
          fillMapLoop fl tags fromVal decoder rest
            (GoMap.insert to_ field.Name oVal.Elem.asString)
        | (_, out) => (to_, out)

/-- Function `FillMap`: the target map after the call and how the call ended. -/
def FillMap (fl : FloatOps) (from_ : Arg) (to_ : GoMap String) (tagName : String)
    (decoder : Option Hook) : GoMap String × Outcome :=
  if from_ = .nil then (to_, .nil)
  else
    match Tags from_ tagName, Value from_, Fields from_ with
    | .ok tags, .ok fromVal, .ok fields => fillMapLoop fl tags fromVal decoder fields to_
    | _, _, _ => (to_, .panic "not a struct")

/-- The loop over the fields in `FillStruct`; the state is the target record. -/
def fillStructLoop (fl : FloatOps) (from_ : GoMap String) (tags : GoMap (GoMap String))
    (decoder : Option Hook) : List StructField → Record → Record × Outcome
  | [], toVal => (toVal, .nil)
  | field :: rest, toVal =>
    match GoMap.lookup from_ field.Name with
    | none => fillStructLoop fl from_ tags decoder rest toVal
    | some v =>
      let inVal := Val.str tString v
      let f := toVal.FieldByName field.Name
      -- If the fields have the same type, set and exit early.
      if inVal.kind = f.kind then
        match f.Set inVal with
        | .ok f => fillStructLoop fl from_ tags decoder rest (toVal.setField field.Name f)
        | .error e => (toVal, .error e)
        | .panic msg => (toVal, .panic msg)
      else
        -- Run user's decoder, if provided.
        let hooked : Result GoError Val := match decoder with
          | some d =>
            match d inVal f ((GoMap.lookup tags field.Name).getD []) with
            | .ok v => f.Set v
            | .error e => .error e
            | .panic msg => .panic msg
          | none => .ok f
        match hooked with
        | .error e => (toVal, .error e)
        | .panic msg => (toVal, .panic msg)
        | .ok f =>
          match decode fl field.Name inVal f true with
          | (f, .nil) => fillStructLoop fl from_ tags decoder rest (toVal.setField field.Name f)
          | (f, out) => (toVal.setField field.Name f, out)

/-- Function `FillStruct`: the target after the call and how the call ended. -/
def FillStruct (fl : FloatOps) (from_ : GoMap String) (to_ : Arg) (tagName : String)
    (decoder : Option Hook) : Arg × Outcome :=
  match isPtr to_ with
  | .error e => (to_, .error e)
  | .panic msg => (to_, .panic msg)
  | .nil =>
    match Tags to_ tagName, Value to_, Fields to_ with
    | .ok tags, .ok toVal, .ok fields =>
      match fillStructLoop fl from_ tags decoder fields toVal with
      | (r, out) => (to_.withStruct r, out)
    | _, _, _ => (to_, .panic "not a struct")

/-! ## Definitions used to state the properties -/

/-- The call `strings.Repeat(s, count)`. -/
def Repeat (s : String) : Nat → String
  | 0 => ""
  | count + 1 => s ++ Repeat s count

/-- A float library for the examples, none of which contains a float. -/
def noFloat : FloatOps := ⟨fun _ => "", fun _ _ => (0, some .ErrSyntax), fun _ => 0, id⟩

/-- An exported field with the given name and struct tag. -/
def exported (name : String) (tag : List (String × String)) : StructField :=
  ⟨name, "", tag⟩

/-- Whether a value is of String, Bool or signed integer kind. -/
def Val.isBSI : Val → Bool
  | .str _ _ => true
  | .bool _ _ => true
  | .int _ _ _ => true
  | _ => false

/-- The string that the String row of the coercion table (spec 4.3) gives for a value of
String, Bool or signed integer kind: the string itself, "1" or "0", the decimal numeral
(the `toString` of Lean). -/
def render : Val → String
  | .str _ s => s
  | .bool _ b => if b then "1" else "0"
  | .int _ _ i => toString i
  | _ => ""

/-- Relation between a field before and after `FillStruct`: same descriptor, and the same
value unless the name is a key of the source map. -/
def Untouched (from_ : GoMap String) (a b : StructField × Val) : Prop :=
  a.1 = b.1 ∧ (GoMap.lookup from_ a.1.Name = none → a.2 = b.2)

/-- The option that one part of an annotation denotes, following the words of the tag
parser contract (spec 4.1), not the code: a part without `=` is the flag
`part -> "true"`; any other part is split once, at its first `=`, into key and value. -/
def specOption (part : String) : String × String :=
  if '=' ∈ part.data then
    (String.mk (part.data.takeWhile (fun c => c ≠ '=')),
      String.mk ((part.data.dropWhile (fun c => c ≠ '=')).drop 1))
  else (part, "true")

/-- The tag parser contract `parse(tagString)` (spec 4.1), not the code: split the
annotation on `,` (the library `List.splitOn`) and store the option of every part, from
left to right, so that a later duplicate key overwrites an earlier one. -/
def specParse (tagString : String) : GoMap String :=
  ((tagString.data.splitOn ',').map String.mk).foldl
    (fun m part => GoMap.insert m (specOption part).1 (specOption part).2) []

/-- The number that a digit string denotes in a base, without any bound: every character
is a digit below `base`; underscores are skipped when `sep` holds.  The result is `none`
for a string with any other character. -/
def digitsValue (base : Nat) (sep : Bool) : List Char → Nat → Option Nat
  | [], n => some n
  | c :: cs, n =>
    if c = '_' ∧ sep then digitsValue base sep cs n
    else
      match digitOf c with
      | some d => if d < base then digitsValue base sep cs (n * base + d) else none
      | none => none

/-- The integer that a string denotes in the base-flexible syntax, the reference against
which the parser is checked: an optional sign, then a `0b`, `0o`, `0x` or `0` prefix that
chooses the base (decimal without prefix), then the digits, with underscores only as
separators.  There is no bound on the value and no machine arithmetic. -/
def intLiteral (s : String) : Option Int :=
  let neg := (leadingSign s).1
  let rest := (leadingSign s).2
  if rest = [] then none
  else
    match digitsValue (basePrefix rest).1 true (basePrefix rest).2 0 with
    | none => none
    | some v =>
      if '_' ∈ (basePrefix rest).2 ∧ ¬ underscoreOK rest then none
      else some (if neg then - (v : Int) else (v : Int))

/-- The field values for which the round trip through a map is stated: a Bool, a string of
the predeclared type `string`, or a signed integer that fits its kind. -/
def Val.roundTrips : Val → Bool
  | .bool _ _ => true
  | .str n _ => n = tString
  | .int _ k i => decide (-(2 ^ (k.Bits - 1) : Int) ≤ i ∧ i < (2 ^ (k.Bits - 1) : Int))
  | _ => false

/-- The record of `TestFormatting`, with the given values of the string fields and of
`PadLeftInt`. -/
def testFormatting (s : String) (n : Int) : Record :=
  ⟨[(exported "PadLeft" [("mytag", "start=0,end=9,padleft")], .str tString s),
    (exported "PadLeftCustom" [("mytag", "start=0,end=9,padleft=0")], .str tString s),
    (exported "PadRight" [("mytag", "start=0,end=9,padright")], .str tString s),
    (exported "PadRightCustom" [("mytag", "start=0,end=9,padright=0")], .str tString s),
    (exported "PadLeftInt" [("mytag", "start=0,end=9,padleft=0")],
      .int (predeclared "int64") .int64 n)]⟩

/-! ## The marshallers, with the calls of the hook recorded -/

/-- One call of the hook: the field in whose round of the loop it is made, and the three
arguments. -/
structure HookCall where
  field : String
  from_ : Val
  to_ : Val
  tags : GoMap String
deriving DecidableEq, Repr

/-- The body of the loop of `FillMap` for the field `name`: the string `output` that is
stored under the name, or the error or panic with which `FillMap` returns. -/
def fillMapField (fl : FloatOps) (tags : GoMap (GoMap String)) (fromVal : Record)
    (decoder : Option Hook) (name : String) : Result GoError String :=
  let val := fromVal.FieldByName name
  let oVal := Val.ptr (.str tString "")
  let t := (GoMap.lookup tags name).getD []
  let hooked : Result GoError Val := match decoder with
    | some d => d val oVal t
    | none => .ok val
  match hooked with
  | .error e => .error e
  | .panic msg => .panic msg
  | .ok val =>
    match format fl name val oVal t with
    | .error e => .error e
    | .panic msg => .panic msg
    | .ok val =>
      match decode fl name val oVal false with
      | (oVal, .nil) => .ok oVal.Elem.asString
      | (_, .error e) => .error e
      | (_, .panic msg) => .panic msg

/-- The loop of `FillMap` with a hook `d`, returning also the calls of `d` in the order
in which they are made. -/
def fillMapLoopT (fl : FloatOps) (tags : GoMap (GoMap String)) (fromVal : Record)
    (d : Hook) : List StructField → GoMap String → (GoMap String × Outcome) × List HookCall
  | [], to_ => ((to_, .nil), [])
  | field :: rest, to_ =>
    let val := fromVal.FieldByName field.Name
    let oVal := Val.ptr (.str tString "")
    let t := (GoMap.lookup tags field.Name).getD []
    let call : HookCall := ⟨field.Name, val, oVal, t⟩
    match d val oVal t with
    | .error e => ((to_, .error e), [call])
    | .panic msg => ((to_, .panic msg), [call])
    | .ok val =>
      match format fl field.Name val oVal t with
      | .error e => ((to_, .error e), [call])
      | .panic msg => ((to_, .panic msg), [call])
      | .ok val =>
        match decode fl field.Name val oVal false with
        | (oVal, .nil) =>
          match fillMapLoopT fl tags fromVal d rest
            (GoMap.insert to_ field.Name oVal.Elem.asString) with
          | (res, calls) => (res, call :: calls)
        | (_, out) => ((to_, out), [call])

/-- Function `FillMap` with a hook `d`, returning also the calls of `d`. -/
def FillMapT (fl : FloatOps) (from_ : Arg) (to_ : GoMap String) (tagName : String)
    (d : Hook) : (GoMap String × Outcome) × List HookCall :=
  if from_ = .nil then ((to_, .nil), [])
  else
    match Tags from_ tagName, Value from_, Fields from_ with
    | .ok tags, .ok fromVal, .ok fields => fillMapLoopT fl tags fromVal d fields to_
    | _, _, _ => ((to_, .panic "not a struct"), [])

/-- The loop of `FillStruct` with a hook `d`, returning also the calls of `d` in the order
in which they are made. -/
def fillStructLoopT (fl : FloatOps) (from_ : GoMap String) (tags : GoMap (GoMap String))
    (d : Hook) : List StructField → Record → (Record × Outcome) × List HookCall
  | [], toVal => ((toVal, .nil), [])
  | field :: rest, toVal =>
    match GoMap.lookup from_ field.Name with
    | none => fillStructLoopT fl from_ tags d rest toVal
    | some v =>
      let inVal := Val.str tString v
      let f := toVal.FieldByName field.Name
      -- If the fields have the same type, set and exit early.
      if inVal.kind = f.kind then
        match f.Set inVal with
        | .ok f => fillStructLoopT fl from_ tags d rest (toVal.setField field.Name f)
        | .error e => ((toVal, .error e), [])
        | .panic msg => ((toVal, .panic msg), [])
      else
        let t := (GoMap.lookup tags field.Name).getD []
        let call : HookCall := ⟨field.Name, inVal, f, t⟩
        let hooked : Result GoError Val :=
          match d inVal f t with
          | .ok v => f.Set v
          | .error e => .error e
          | .panic msg => .panic msg
        match hooked with
        | .error e => ((toVal, .error e), [call])
        | .panic msg => ((toVal, .panic msg), [call])
        | .ok f =>
          match decode fl field.Name inVal f true with
          | (f, .nil) =>
            match fillStructLoopT fl from_ tags d rest (toVal.setField field.Name f) with
            | (res, calls) => (res, call :: calls)
          | (f, out) => ((toVal.setField field.Name f, out), [call])

/-- Function `FillStruct` with a hook `d`, returning also the calls of `d`. -/
def FillStructT (fl : FloatOps) (from_ : GoMap String) (to_ : Arg) (tagName : String)
    (d : Hook) : (Arg × Outcome) × List HookCall :=
  match isPtr to_ with
  | .error e => ((to_, .error e), [])
  | .panic msg => ((to_, .panic msg), [])
  | .nil =>
    match Tags to_ tagName, Value to_, Fields to_ with
    | .ok tags, .ok toVal, .ok fields =>
      match fillStructLoopT fl from_ tags d fields toVal with
      | ((r, out), calls) => ((to_.withStruct r, out), calls)
    | _, _, _ => ((to_, .panic "not a struct"), [])

/-! ## More definitions used to state the properties -/

/-- Whether a type is of Bool, signed integer or String kind. -/
def Ty.isBSI : Ty → Bool
  | .bool _ => true
  | .int _ _ => true
  | .string _ => true
  | _ => false

/-- Whether a value is a pointer, nil or not, to a Bool, a signed integer or a String. -/
def Val.isPtrToBSI : Val → Bool
  | .ptr e => e.isBSI
  | .nilptr t => t.isBSI
  | _ => false

/-- The slot that a pointer target is decoded through: its pointee, or the zero value
of a fresh allocation when the pointer is nil. -/
def Val.slot : Val → Val
  | .ptr e => e
  | .nilptr t => Zero t
  | v => v

/-- The exported fields of a record, in declaration order. -/
def exportedFields (r : Record) : List StructField :=
  (r.fields.map (fun fv => fv.1)).filter (fun field => field.PkgPath = "")

/-- The names of the exported fields of a record, in declaration order. -/
def exportedNames (r : Record) : List String :=
  (exportedFields r).map (fun field => field.Name)

/-- All the writes `m[k] = v` of a list, from left to right. -/
def GoMap.insertAll {α : Type} (m : GoMap α) : List (String × α) → GoMap α
  | [] => m
  | (k, v) :: rest => GoMap.insertAll (GoMap.insert m k v) rest

/-- The record of `TestFillStruct`, with the given values of its three fields. -/
def testFillStruct (s : String) (b : Bool) (p : Val) : Record :=
  ⟨[(exported "TestString" [], .str tString s),
    (exported "TestBool" [], .bool tBool b),
    (exported "TestBoolPtr" [], p)]⟩

/-- The string that the round of the field `name` in `FillMap` stores under the name; the
empty string when the round fails. -/
def fillMapString (fl : FloatOps) (tags : GoMap (GoMap String)) (fromVal : Record)
    (decoder : Option Hook) (name : String) : String :=
  match fillMapField fl tags fromVal decoder name with
  | .ok s => s
  | _ => ""

/-- The hook of `TestFillMapWithDecoder`: a Bool becomes the string "1" or "0", any other
value is returned as it is. -/
def boolToStringHook : Hook := fun v _ _ =>
  if v.kind = .Bool then .ok (.str tString (if v.asBool then "1" else "0"))
  else v.Interface

/-- Whether a value is a nil chan, func, interface, map, pointer or slice: the test that
`decodePtr` makes on the indirected source. -/
def Val.isNilRef (v : Val) : Bool :=
  (v.kind = .Chan ∨ v.kind = .Func ∨ v.kind = .Interface ∨ v.kind = .Map ∨ v.kind = .Ptr
    ∨ v.kind = .Slice) ∧ v.IsNil

/-- A nil slice of type `[]int`. -/
def nilSlice : Val := .other ⟨"", []⟩ .Slice "[]int" true 0

/-- Whether the round of `FillStruct` for a field reaches the hook: the name of the field
is a key of the source map and the field is not of String kind. -/
def hookField (from_ : GoMap String) (toVal : Record) (field : StructField) : Bool :=
  (GoMap.lookup from_ field.Name).isSome ∧ (toVal.FieldByName field.Name).kind ≠ .String

/-- A hook that returns the current value of the target field, `to.Interface()`. -/
def keepHook : Hook := fun _ to_ _ => to_.Interface

/-! ## Strings and maps -/

theorem utf8ByteSize_append (a b : String) :
    (a ++ b).utf8ByteSize = a.utf8ByteSize + b.utf8ByteSize := by
  have h : (a ++ b).data = a.data ++ b.data := String.data_append a b
  rw [show a ++ b = ⟨(a ++ b).data⟩ from rfl, h]
  simp only [String.utf8ByteSize_mk, String.utf8Len_append]
  rfl

theorem str_append_assoc (a b c : String) : (a ++ b) ++ c = a ++ (b ++ c) := by
  apply String.ext
  simp [String.data_append]

theorem str_empty_append (a : String) : "" ++ a = a := by
  apply String.ext
  simp [String.data_append]

theorem str_append_empty (a : String) : a ++ "" = a := by
  apply String.ext
  simp [String.data_append]

theorem Repeat_succ_right (p : String) (k : Nat) : Repeat p (k + 1) = Repeat p k ++ p := by
  induction k with
  | zero => simp [Repeat, str_empty_append, str_append_empty]
  | succ k ih =>
    calc Repeat p (k + 1 + 1) = p ++ Repeat p (k + 1) := rfl
      _ = p ++ (Repeat p k ++ p) := by rw [ih]
      _ = (p ++ Repeat p k) ++ p := (str_append_assoc _ _ _).symm
      _ = Repeat p (k + 1) ++ p := rfl

theorem utf8ByteSize_Repeat (p : String) (k : Nat) (hp : p.utf8ByteSize = 1) :
    (Repeat p k).utf8ByteSize = k := by
  induction k with
  | zero => rfl
  | succ k ih =>
    show (p ++ Repeat p k).utf8ByteSize = k + 1
    rw [utf8ByteSize_append, ih, hp]; omega

theorem padWith_size (v : String) : (padWith v).utf8ByteSize = 1 := by
  unfold padWith
  split
  · rfl
  · rename_i h
    simp only [not_or, ne_eq, not_not] at h
    exact h.2

theorem padWith_eq (v : String) : padWith v = if v.utf8ByteSize = 1 then v else " " := by
  unfold padWith
  by_cases h : v.utf8ByteSize = 1
  · have : v ≠ "true" := by
      intro hv; rw [hv] at h; revert h; decide
    simp [h, this]
  · simp [h]

theorem padLoop_left (p : String) (n : Int) (hp : p.utf8ByteSize = 1) :
    ∀ (fuel : Nat) (s : String), fuel = (n - (s.utf8ByteSize : Int)).toNat →
      padLoop true p n fuel s = Repeat p fuel ++ s := by
  intro fuel
  induction fuel with
  | zero => intro s _; simp [padLoop, Repeat, str_empty_append]
  | succ k ih =>
    intro s hk
    have hlt : (s.utf8ByteSize : Int) < n := by omega
    have hk2 : k = (n - ((p ++ s).utf8ByteSize : Int)).toNat := by
      rw [utf8ByteSize_append, hp]; push_cast; omega
    simp only [padLoop, hlt, if_true]
    rw [ih (p ++ s) hk2, Repeat_succ_right, str_append_assoc]

theorem padLoop_right (p : String) (n : Int) (hp : p.utf8ByteSize = 1) :
    ∀ (fuel : Nat) (s : String), fuel = (n - (s.utf8ByteSize : Int)).toNat →
      padLoop false p n fuel s = s ++ Repeat p fuel := by
  intro fuel
  induction fuel with
  | zero => intro s _; simp [padLoop, Repeat, str_append_empty]
  | succ k ih =>
    intro s hk
    have hlt : (s.utf8ByteSize : Int) < n := by omega
    have hk2 : k = (n - ((s ++ p).utf8ByteSize : Int)).toNat := by
      rw [utf8ByteSize_append, hp]; push_cast; omega
    simp only [padLoop, hlt, if_true, Bool.false_eq_true, if_false]
    rw [ih (s ++ p) hk2, str_append_assoc]
    rfl

/-! ## The formatter: padding and target length -/

theorem format_of_padleft (fl : FloatOps) (name : String) (from_ to_ : Val)
    (tags : GoMap String) (s v : String)
    (hs : decodeString fl name from_ (.str tString "") = (.str tString s, .nil))
    (hv : GoMap.lookup tags "padleft" = some v) :
    format fl name from_ to_ tags = pad true name v s tags := by
  simp [format, hs, hv, Val.asString]

theorem format_of_padright (fl : FloatOps) (name : String) (from_ to_ : Val)
    (tags : GoMap String) (s v : String)
    (hs : decodeString fl name from_ (.str tString "") = (.str tString s, .nil))
    (hl : GoMap.lookup tags "padleft" = none)
    (hv : GoMap.lookup tags "padright" = some v) :
    format fl name from_ to_ tags = pad false name v s tags := by
  simp [format, hs, hl, hv, Val.asString]

theorem pad_left_eq (name v s : String) (tags : GoMap String) (n : Int)
    (hn : fieldLen name tags = .ok n) :
    pad true name v s tags = .ok (.str tString
      (Repeat (if v.utf8ByteSize = 1 then v else " ") (n - (s.utf8ByteSize : Int)).toNat
        ++ s)) := by
  simp only [pad, hn]
  rw [padLoop_left (padWith v) n (padWith_size v) _ s rfl, padWith_eq]

theorem pad_right_eq (name v s : String) (tags : GoMap String) (n : Int)
    (hn : fieldLen name tags = .ok n) :
    pad false name v s tags = .ok (.str tString
      (s ++ Repeat (if v.utf8ByteSize = 1 then v else " ")
        (n - (s.utf8ByteSize : Int)).toNat)) := by
  simp only [pad, hn]
  rw [padLoop_right (padWith v) n (padWith_size v) _ s rfl, padWith_eq]

theorem padUnit_size (v : String) :
    (if v.utf8ByteSize = 1 then v else " ").utf8ByteSize = 1 := by
  rw [← padWith_eq]; exact padWith_size v

theorem padded_left_size (v s : String) (n : Int) :
    (((Repeat (if v.utf8ByteSize = 1 then v else " ") (n - (s.utf8ByteSize : Int)).toNat
      ++ s).utf8ByteSize : Nat) : Int) = max (s.utf8ByteSize : Int) n := by
  rw [utf8ByteSize_append, utf8ByteSize_Repeat _ _ (padUnit_size v)]
  push_cast
  omega

theorem padded_right_size (v s : String) (n : Int) :
    (((s ++ Repeat (if v.utf8ByteSize = 1 then v else " ")
      (n - (s.utf8ByteSize : Int)).toNat).utf8ByteSize : Nat) : Int)
      = max (s.utf8ByteSize : Int) n := by
  rw [utf8ByteSize_append, utf8ByteSize_Repeat _ _ (padUnit_size v)]
  push_cast
  omega

/-- C4 (padding exactness): for a value with string form `s` and tags that resolve to
the target length `n`, `format` returns, when `padleft` is present, the pad unit repeated
`max(0, n - len(s))` times followed by `s`, and, when only `padright` is present, `s`
followed by that many pad units; the pad unit is the value of the padding tag when that
is one byte long and a single space otherwise; the result has byte length
`max(len(s), n)`, so `s` is never truncated, and `padleft` wins over `padright`. -/
theorem format_padding_exact (fl : FloatOps) (name : String) (from_ to_ : Val)
    (tags : GoMap String) (s : String) (n : Int)
    (hs : decodeString fl name from_ (.str tString "") = (.str tString s, .nil))
    (hn : fieldLen name tags = .ok n) :
    (∀ v, GoMap.lookup tags "padleft" = some v →
      format fl name from_ to_ tags = .ok (.str tString
        (Repeat (if v.utf8ByteSize = 1 then v else " ") (n - (s.utf8ByteSize : Int)).toNat
          ++ s))
      ∧ (((Repeat (if v.utf8ByteSize = 1 then v else " ")
            (n - (s.utf8ByteSize : Int)).toNat ++ s).utf8ByteSize : Nat) : Int)
          = max (s.utf8ByteSize : Int) n)
    ∧ (GoMap.lookup tags "padleft" = none → ∀ v, GoMap.lookup tags "padright" = some v →
      format fl name from_ to_ tags = .ok (.str tString
        (s ++ Repeat (if v.utf8ByteSize = 1 then v else " ")
          (n - (s.utf8ByteSize : Int)).toNat))
      ∧ (((s ++ Repeat (if v.utf8ByteSize = 1 then v else " ")
            (n - (s.utf8ByteSize : Int)).toNat).utf8ByteSize : Nat) : Int)
          = max (s.utf8ByteSize : Int) n) := by
  refine ⟨fun v hv => ⟨?_, padded_left_size v s n⟩, fun hl v hv => ⟨?_, padded_right_size v s n⟩⟩
  · rw [format_of_padleft fl name from_ to_ tags s v hs hv, pad_left_eq name v s tags n hn]
  · rw [format_of_padright fl name from_ to_ tags s v hs hl hv, pad_right_eq name v s tags n hn]

/-- Witness of C4, the five fields of `TestFormatting`: "abc" with `start=0,end=9` and
`padleft`, `padleft=0`, `padright`, `padright=0`, and the `int64` 10 with `padleft=0`. -/
theorem format_padding_exact_witness :
    format noFloat "PadLeft" (.str tString "abc") .invalid
        [("start", "0"), ("end", "9"), ("padleft", "true")]
      = .ok (.str tString "       abc")
    ∧ format noFloat "PadLeftCustom" (.str tString "abc") .invalid
        [("start", "0"), ("end", "9"), ("padleft", "0")]
      = .ok (.str tString "0000000abc")
    ∧ format noFloat "PadRight" (.str tString "abc") .invalid
        [("start", "0"), ("end", "9"), ("padright", "true")]
      = .ok (.str tString "abc       ")
    ∧ format noFloat "PadRightCustom" (.str tString "abc") .invalid
        [("start", "0"), ("end", "9"), ("padright", "0")]
      = .ok (.str tString "abc0000000")
    ∧ format noFloat "PadLeftInt" (.int (predeclared "int64") .int64 10) .invalid
        [("start", "0"), ("end", "9"), ("padleft", "0")]
      = .ok (.str tString "0000000010") :=
  ⟨((format_padding_exact noFloat "PadLeft" (.str tString "abc") .invalid
      [("start", "0"), ("end", "9"), ("padleft", "true")] "abc" 10
      (by decide) (by decide)).1 "true" (by decide)).1,
    ((format_padding_exact noFloat "PadLeftCustom" (.str tString "abc") .invalid
      [("start", "0"), ("end", "9"), ("padleft", "0")] "abc" 10
      (by decide) (by decide)).1 "0" (by decide)).1,
    ((format_padding_exact noFloat "PadRight" (.str tString "abc") .invalid
      [("start", "0"), ("end", "9"), ("padright", "true")] "abc" 10
      (by decide) (by decide)).2 (by decide) "true" (by decide)).1,
    ((format_padding_exact noFloat "PadRightCustom" (.str tString "abc") .invalid
      [("start", "0"), ("end", "9"), ("padright", "0")] "abc" 10
      (by decide) (by decide)).2 (by decide) "0" (by decide)).1,
    ((format_padding_exact noFloat "PadLeftInt" (.int (predeclared "int64") .int64 10)
      .invalid [("start", "0"), ("end", "9"), ("padleft", "0")] "10" 10
      (by decide) (by decide)).1 "0" (by decide)).1⟩

theorem wrapInt64_of_range (x : Int) (h1 : -2 ^ 63 ≤ x) (h2 : x < 2 ^ 63) :
    wrapInt64 x = x := by
  unfold wrapInt64 wrapInt
  norm_num at h1 h2 ⊢
  omega

theorem fieldLen_missing (name : String) (tags : GoMap String)
    (hlen : GoMap.lookup tags "len" = none)
    (h : GoMap.lookup tags "start" = none ∨ GoMap.lookup tags "end" = none) :
    ∃ msg, fieldLen name tags = .panic msg := by
  unfold fieldLen
  rw [hlen]
  cases hstart : GoMap.lookup tags "start" with
  | none => exact ⟨_, rfl⟩
  | some a =>
    have hend : GoMap.lookup tags "end" = none := by
      rcases h with h | h
      · rw [hstart] at h; cases h
      · exact h
    simp only [hend]
    split
    · exact ⟨_, rfl⟩
    · exact ⟨_, rfl⟩

/-- C9 (target length resolution): for a value with string form `s` and tags with
`padleft` or `padright`, the target length is the decimal value of `len` when `len` is
present, whatever `start` and `end` are; without `len` it is `end - start + 1` (an `int`:
reduced to 64 bits, and exactly `end - start + 1` whenever that fits); and when `len` is
absent and `start` or `end` is absent, `format` panics for every `s`, however long. -/
theorem format_target_length (fl : FloatOps) (name : String) (from_ to_ : Val)
    (tags : GoMap String) (s : String)
    (hs : decodeString fl name from_ (.str tString "") = (.str tString s, .nil))
    (hpad : GoMap.lookup tags "padleft" ≠ none ∨ GoMap.lookup tags "padright" ≠ none) :
    (∀ v n, GoMap.lookup tags "len" = some v → ParseInt v 10 0 = (n, none) →
      fieldLen name tags = .ok n
      ∧ ∃ out, format fl name from_ to_ tags = .ok (.str tString out)
          ∧ ((out.utf8ByteSize : Nat) : Int) = max (s.utf8ByteSize : Int) n)
    ∧ (GoMap.lookup tags "len" = none → ∀ a b start end_,
        GoMap.lookup tags "start" = some a → GoMap.lookup tags "end" = some b →
        ParseInt a 10 0 = (start, none) → ParseInt b 10 0 = (end_, none) →
        fieldLen name tags = .ok (wrapInt64 (end_ - start + 1))
        ∧ (-2 ^ 63 ≤ end_ - start + 1 → end_ - start + 1 < 2 ^ 63 →
            fieldLen name tags = .ok (end_ - start + 1))
        ∧ ∃ out, format fl name from_ to_ tags = .ok (.str tString out)
            ∧ ((out.utf8ByteSize : Nat) : Int)
              = max (s.utf8ByteSize : Int) (wrapInt64 (end_ - start + 1)))
    ∧ (GoMap.lookup tags "len" = none →
        (GoMap.lookup tags "start" = none ∨ GoMap.lookup tags "end" = none) →
        ∃ msg, format fl name from_ to_ tags = .panic msg) := by
  have hfmt : ∀ n, fieldLen name tags = .ok n →
      ∃ out, format fl name from_ to_ tags = .ok (.str tString out)
        ∧ ((out.utf8ByteSize : Nat) : Int) = max (s.utf8ByteSize : Int) n := by
    intro n hn
    cases hl : GoMap.lookup tags "padleft" with
    | some v =>
      exact ⟨_, by rw [format_of_padleft fl name from_ to_ tags s v hs hl,
        pad_left_eq name v s tags n hn], padded_left_size v s n⟩
    | none =>
      cases hr : GoMap.lookup tags "padright" with
      | some v =>
        exact ⟨_, by rw [format_of_padright fl name from_ to_ tags s v hs hl hr,
          pad_right_eq name v s tags n hn], padded_right_size v s n⟩
      | none => rw [hl, hr] at hpad; simp at hpad
  refine ⟨?_, ?_, ?_⟩
  · intro v n hv hp
    have hn : fieldLen name tags = .ok n := by simp [fieldLen, hv, hp]
    exact ⟨hn, hfmt n hn⟩
  · intro hlen a b start end_ ha hb hpa hpb
    have hn : fieldLen name tags = .ok (wrapInt64 (end_ - start + 1)) := by
      simp only [fieldLen, hlen, ha, hb, hpa, hpb]
      congr 2; ring
    refine ⟨hn, ?_, hfmt _ hn⟩
    intro h1 h2
    rw [hn, wrapInt64_of_range _ h1 h2]
  · intro hlen hmiss
    obtain ⟨msg, hmsg⟩ := fieldLen_missing name tags hlen hmiss
    cases hl : GoMap.lookup tags "padleft" with
    | some v =>
      refine ⟨msg, ?_⟩
      rw [format_of_padleft fl name from_ to_ tags s v hs hl]
      simp [pad, hmsg]
    | none =>
      cases hr : GoMap.lookup tags "padright" with
      | some v =>
        refine ⟨msg, ?_⟩
        rw [format_of_padright fl name from_ to_ tags s v hs hl hr]
        simp [pad, hmsg]
      | none => rw [hl, hr] at hpad; simp at hpad

/-- Witness of C9: with `padleft` and `end` but neither `len` nor `start`, formatting a
string that is already 12 bytes long panics. -/
theorem format_target_length_witness :
    ∃ msg, format noFloat "F" (.str tString "abcdefghijkl") .invalid
      [("end", "9"), ("padleft", "0")] = .panic msg :=
  (format_target_length noFloat "F" (.str tString "abcdefghijkl") .invalid
    [("end", "9"), ("padleft", "0")] "abcdefghijkl" (by decide) (by decide)).2.2
    (by decide) (by decide)

/-! ## The coercion engine: booleans and unsupported kinds -/

/-- C6 (boolean coercion boundary): decoding the string `s` into a Bool target sets it to
false when `s` is empty, to the value of the literal when `s` is one of the twelve boolean
literals, and otherwise returns an error and leaves the target as it was; `FillStruct`
with the map of `TestFillStruct` sets `TestBool` to true. -/
theorem decode_bool_from_string (fl : FloatOps) (name : String) (tn n : TName)
    (s : String) (b canSet : Bool) :
    decode fl name (.str tn s) (.bool n b) canSet =
      (if s = "" then (.bool n false, .nil)
      else if s ∈ ["1", "t", "T", "true", "TRUE", "True"] then (.bool n true, .nil)
      else if s ∈ ["0", "f", "F", "false", "FALSE", "False"] then (.bool n false, .nil)
      else (.bool n b, .error (.cannotParse name "bool" .ErrSyntax)))
    ∧ FillStruct fl [("TestString", "abc"), ("TestBool", "true"), ("TestBoolPtr", "1")]
        (.ptr (.struct ⟨[(exported "TestString" [], .str tString ""),
          (exported "TestBool" [], .bool tBool false),
          (exported "TestBoolPtr" [], .nilptr (.bool tBool))]⟩)) "tag_name" none
      = (.ptr (.struct ⟨[(exported "TestString" [], .str tString "abc"),
          (exported "TestBool" [], .bool tBool true),
          (exported "TestBoolPtr" [], .ptr (.bool tBool true))]⟩), .nil) := by
  constructor
  · rw [decode]
    simp only [getKind, Val.kind, kindNum, decodeBool, Val.asString, ParseBool]
    by_cases h0 : s = ""
    · subst h0; simp [Val.SetBool]
    · by_cases h1 : s = "1" ∨ s = "t" ∨ s = "T" ∨ s = "true" ∨ s = "TRUE" ∨ s = "True"
      · simp [h0, h1, Val.SetBool]
      · by_cases h2 : s = "0" ∨ s = "f" ∨ s = "F" ∨ s = "false" ∨ s = "FALSE"
            ∨ s = "False"
        · simp [h0, h1, h2, Val.SetBool]
        · simp [h0, h1, h2, Val.SetBool]
  · simp [FillStruct, isPtr, Tags, Fields, Value, exported, tagsLoop, StructField.TagGet,
      fillStructLoop, GoMap.lookup, Record.FieldByName, Val.kind, Val.Set, Val.Type,
      Record.setField, setFieldIn, decode, decodePtr, getKind, kindNum, decodeBool,
      ParseBool, Val.asString, Val.SetBool, Val.Interface, Indirect, Zero, Arg.withStruct,
      tString, tBool, predeclared]

/-- C10 (unsupported kind): when the normalized kind of the target is none of Bool,
String, Int, Float32, Ptr and Interface, `decode` returns the error "unsupported type" and
the target is exactly as before; the unsigned integer kinds are normalized to Uint, not
to Int, and are such targets, like slices, maps and structs. -/
theorem decode_unsupported_kind (fl : FloatOps) (name : String) (from_ to_ : Val)
    (canSet : Bool)
    (h : getKind to_ ≠ .Bool ∧ getKind to_ ≠ .String ∧ getKind to_ ≠ .Int
      ∧ getKind to_ ≠ .Float32 ∧ getKind to_ ≠ .Ptr ∧ getKind to_ ≠ .Interface) :
    decode fl name from_ to_ canSet = (to_, .error (.unsupportedType name (getKind to_)))
    ∧ (∀ n k lit isNil id, k ∈ [Kind.Uint, .Uint8, .Uint16, .Uint32, .Uint64] →
        getKind (.other n k lit isNil id) = .Uint)
    ∧ (∀ n k lit isNil id, k ∈ [Kind.Slice, .Map, .Struct, .Array, .Chan, .Func] →
        getKind (.other n k lit isNil id) = k) := by
  obtain ⟨h1, h2, h3, h4, h5, h6⟩ := h
  refine ⟨?_, ?_, ?_⟩
  · rw [decode]
    split <;> simp_all
  · intro n k lit isNil id hk
    simp only [List.mem_cons, List.mem_singleton, List.not_mem_nil, or_false] at hk
    rcases hk with rfl | rfl | rfl | rfl | rfl <;> rfl
  · intro n k lit isNil id hk
    simp only [List.mem_cons, List.mem_singleton, List.not_mem_nil, or_false] at hk
    rcases hk with rfl | rfl | rfl | rfl | rfl | rfl <;> rfl

/-- Witness of C10: decoding the string "7" into a `uint8` target is an error and the
target keeps its value. -/
theorem decode_unsupported_kind_witness :
    decode noFloat "N" (.str tString "7") (.other (predeclared "uint8") .Uint8 "" false 3)
      true
      = (.other (predeclared "uint8") .Uint8 "" false 3,
          .error (.unsupportedType "N" .Uint)) :=
  (decode_unsupported_kind noFloat "N" (.str tString "7")
    (.other (predeclared "uint8") .Uint8 "" false 3) true (by decide)).1

/-! ## FillMap on scalar records -/

theorem lookup_insert_self {α : Type} (m : GoMap α) (k : String) (v : α) :
    GoMap.lookup (GoMap.insert m k v) k = some v := by
  induction m with
  | nil => simp [GoMap.insert, GoMap.lookup]
  | cons a m ih =>
    obtain ⟨k', v'⟩ := a
    by_cases h : k' = k
    · simp [GoMap.insert, GoMap.lookup, h]
    · simp [GoMap.insert, GoMap.lookup, h, ih]

theorem lookup_insert_ne {α : Type} (m : GoMap α) (k k2 : String) (v : α) (hne : k2 ≠ k) :
    GoMap.lookup (GoMap.insert m k v) k2 = GoMap.lookup m k2 := by
  induction m with
  | nil => simp [GoMap.insert, GoMap.lookup, Ne.symm hne]
  | cons a m ih =>
    obtain ⟨k', v'⟩ := a
    by_cases h : k' = k
    · subst h
      simp [GoMap.insert, GoMap.lookup, Ne.symm hne]
    · by_cases h2 : k' = k2
      · subst h2
        simp [GoMap.insert, GoMap.lookup, h]
      · simp [GoMap.insert, GoMap.lookup, h, h2, ih]

theorem FormatInt_ten (i : Int) : FormatInt i 10 = toString i := by
  cases i with
  | ofNat m =>
    have : ¬ ((Int.ofNat m) < 0) := by simp
    simp only [FormatInt, this, if_false]
    rfl
  | negSucc m =>
    have h : (Int.negSucc m) < 0 := Int.negSucc_lt_zero m
    simp only [FormatInt, h, if_true]
    rfl

theorem decodeString_scalar (fl : FloatOps) (name : String) (v : Val) (hv : v.isBSI = true)
    (n : TName) (old : String) :
    decodeString fl name v (.str n old) = (.str n (render v), .nil) := by
  cases v <;> simp [Val.isBSI] at hv
  · rename_i n b
    cases b <;> simp [decodeString, getKind, Val.kind, kindNum, Val.asBool, Val.SetString, render]
  · rename_i n k i
    cases k <;> simp [decodeString, getKind, Val.kind, kindNum, IntKind.toKind, Val.asInt,
      Val.SetString, render, FormatInt_ten]
  · simp [decodeString, getKind, Val.kind, kindNum, Val.asString, Val.SetString, render]

theorem Interface_scalar (v : Val) (hv : v.isBSI = true) : v.Interface = .ok v := by
  cases v <;> simp [Val.isBSI] at hv <;> rfl

theorem format_scalar_nopad (fl : FloatOps) (name : String) (v to_ : Val)
    (t : GoMap String) (hv : v.isBSI = true)
    (hl : GoMap.lookup t "padleft" = none) (hr : GoMap.lookup t "padright" = none) :
    format fl name v to_ t = .ok v := by
  simp [format, decodeString_scalar fl name v hv, hl, hr, Interface_scalar v hv]

theorem decode_scalar_output (fl : FloatOps) (name : String) (v : Val)
    (hv : v.isBSI = true) :
    decode fl name v (.ptr (.str tString "")) false
      = (.ptr (.str tString (render v)), .nil) := by
  rw [decode]
  simp only [getKind, Val.kind, kindNum]
  rw [decodePtr]
  have hI := Interface_scalar v hv
  have hnil : v ≠ .invalid := by intro h; rw [h] at hv; simp [Val.isBSI] at hv
  have hind : Indirect v = v := by cases v <;> simp [Val.isBSI] at hv <;> rfl
  have hk : ¬ (v.kind = .Chan ∨ v.kind = .Func ∨ v.kind = .Interface ∨ v.kind = .Map
      ∨ v.kind = .Ptr ∨ v.kind = .Slice) := by
    cases v <;> simp [Val.isBSI] at hv <;> simp [Val.kind]
    rename_i n k i
    cases k <;> simp [IntKind.toKind]
  simp only [hI, hnil, hind, hk, if_false]
  rw [decode]
  simp [getKind, Val.kind, kindNum, decodeString_scalar fl name v hv]


theorem fillMapLoop_scalars (fl : FloatOps) (tags : GoMap (GoMap String)) (r : Record) :
    ∀ (fields : List StructField) (m : GoMap String),
      (∀ f ∈ fields, (r.FieldByName f.Name).isBSI = true
        ∧ GoMap.lookup ((GoMap.lookup tags f.Name).getD []) "padleft" = none
        ∧ GoMap.lookup ((GoMap.lookup tags f.Name).getD []) "padright" = none) →
      ∃ m', fillMapLoop fl tags r none fields m = (m', .nil)
        ∧ (∀ name, name ∉ fields.map (fun f => f.Name) →
            GoMap.lookup m' name = GoMap.lookup m name)
        ∧ (∀ f ∈ fields, GoMap.lookup m' f.Name = some (render (r.FieldByName f.Name))) := by
  intro fields
  induction fields with
  | nil =>
    intro m _
    exact ⟨m, rfl, fun _ _ => rfl, fun f hf => by cases hf⟩
  | cons field rest ih =>
    intro m h
    obtain ⟨hk, hl, hr⟩ := h field (List.mem_cons_self _ _)
    obtain ⟨m', hm', hother, hmine⟩ :=
      ih (GoMap.insert m field.Name (render (r.FieldByName field.Name)))
        (fun f hf => h f (List.mem_cons_of_mem _ hf))
    refine ⟨m', ?_, ?_, ?_⟩
    · unfold fillMapLoop
      simp only [format_scalar_nopad fl field.Name _ _ _ hk hl hr,
        decode_scalar_output fl field.Name _ hk, Val.Elem, Val.asString]
      exact hm'
    · intro name hname
      simp only [List.map_cons, List.mem_cons, not_or] at hname
      rw [hother name hname.2, lookup_insert_ne _ _ _ _ hname.1]
    · intro f hf
      by_cases hin : f.Name ∈ rest.map (fun f => f.Name)
      · obtain ⟨g, hg, hgn⟩ := List.mem_map.mp hin
        have := hmine g hg
        rw [hgn] at this
        exact this
      · rcases List.mem_cons.mp hf with rfl | hf'
        · rw [hother _ hin, lookup_insert_self]
        · exact absurd (List.mem_map_of_mem (fun f => f.Name) hf') hin

theorem FieldByName_of_mem (r : Record) (fv : StructField × Val) (hmem : fv ∈ r.fields)
    (hnodup : (r.fields.map (fun fv => fv.1.Name)).Nodup) :
    r.FieldByName fv.1.Name = fv.2 := by
  obtain ⟨l⟩ := r
  simp only at hmem hnodup
  unfold Record.FieldByName
  simp only
  induction l with
  | nil => cases hmem
  | cons a l ih =>
    simp only [List.map_cons, List.nodup_cons] at hnodup
    rcases List.mem_cons.mp hmem with rfl | hmem'
    · simp [List.find?]
    · have hne : ¬ a.1.Name = fv.1.Name := by
        intro heq
        exact hnodup.1 (heq ▸ List.mem_map_of_mem (fun fv => fv.1.Name) hmem')
      simp only [List.find?, hne, decide_False]
      exact ih hmem' hnodup.2

theorem mem_Fields (s : Arg) (r : Record) (hr : Value s = .ok r) :
    ∃ fields, Fields s = .ok fields ∧ ∀ f, f ∈ fields ↔
      (f.PkgPath = "" ∧ ∃ v, (f, v) ∈ r.fields) := by
  refine ⟨(r.fields.map (fun fv => fv.1)).filter (fun field => field.PkgPath = ""),
    by simp only [Fields, hr], ?_⟩
  intro f
  simp only [List.mem_filter, List.mem_map, decide_eq_true_eq]
  constructor
  · rintro ⟨⟨fv, hfv, rfl⟩, hp⟩
    exact ⟨hp, fv.2, hfv⟩
  · rintro ⟨hp, v, hv⟩
    exact ⟨⟨(f, v), hv, rfl⟩, hp⟩

/-- C3 (FillMap on scalar records): for a record whose exported fields are of String,
Bool or signed integer kind (named types included), whose tags contain no padding tag, and
without a hook, `FillMap` returns nil and the map then holds under each exported field
name the string itself, "1" or "0", or the decimal numeral of the field. -/
theorem FillMap_scalar_fields (fl : FloatOps) (from_ : Arg) (to_ : GoMap String)
    (tagName : String) (r : Record) (hr : Value from_ = .ok r)
    (hnodup : (r.fields.map (fun fv => fv.1.Name)).Nodup)
    (hkind : ∀ fv ∈ r.fields, fv.1.PkgPath = "" → fv.2.isBSI = true)
    (hnopad : ∀ tags, Tags from_ tagName = .ok tags → ∀ name t,
      GoMap.lookup tags name = some t →
        GoMap.lookup t "padleft" = none ∧ GoMap.lookup t "padright" = none) :
    ∃ m', FillMap fl from_ to_ tagName none = (m', .nil)
      ∧ ∀ fv ∈ r.fields, fv.1.PkgPath = "" →
          GoMap.lookup m' fv.1.Name = some (render fv.2) := by
  obtain ⟨fields, hfields, hmem⟩ := mem_Fields from_ r hr
  have htags : Tags from_ tagName = .ok (tagsLoop tagName [] fields) := by
    simp only [Tags, hfields]
  have hnil : from_ ≠ .nil := by
    intro h; rw [h] at hr; simp [Value] at hr
  have hpre : ∀ f ∈ fields, (r.FieldByName f.Name).isBSI = true
      ∧ GoMap.lookup ((GoMap.lookup (tagsLoop tagName [] fields) f.Name).getD []) "padleft"
          = none
      ∧ GoMap.lookup ((GoMap.lookup (tagsLoop tagName [] fields) f.Name).getD []) "padright"
          = none := by
    intro f hf
    obtain ⟨hp, v, hv⟩ := (hmem f).mp hf
    have hF := FieldByName_of_mem r (f, v) hv hnodup
    simp only at hF
    refine ⟨by rw [hF]; exact hkind (f, v) hv hp, ?_⟩
    cases ht : GoMap.lookup (tagsLoop tagName [] fields) f.Name with
    | none => exact ⟨rfl, rfl⟩
    | some t => exact hnopad _ htags f.Name t ht
  obtain ⟨m', hm', _, hmine⟩ := fillMapLoop_scalars fl _ r fields to_ hpre
  refine ⟨m', ?_, ?_⟩
  · simp only [FillMap, hnil, if_false, htags, hr, hfields]
    exact hm'
  · intro fv hfv hp
    have hf : fv.1 ∈ fields := (hmem fv.1).mpr ⟨hp, fv.2, hfv⟩
    rw [hmine fv.1 hf, FieldByName_of_mem r fv hfv hnodup]

/-- Witness of C3, the record of `TestFillMap`: {"xyz", true, MyType(42)} gives "xyz", "1"
and "42". -/
theorem FillMap_scalar_fields_witness :
    ∃ m', FillMap noFloat (.struct ⟨[(exported "TestString" [], .str tString "xyz"),
        (exported "TestBool" [], .bool tBool true),
        (exported "TestType" [], .int ⟨"MyType", []⟩ .int 42)]⟩) [] "tag_name" none = (m', .nil)
      ∧ GoMap.lookup m' "TestString" = some "xyz" ∧ GoMap.lookup m' "TestBool" = some "1"
      ∧ GoMap.lookup m' "TestType" = some "42" := by
  obtain ⟨m', h, hall⟩ := FillMap_scalar_fields noFloat
    (.struct ⟨[(exported "TestString" [], .str tString "xyz"),
      (exported "TestBool" [], .bool tBool true),
      (exported "TestType" [], .int ⟨"MyType", []⟩ .int 42)]⟩) [] "tag_name" _ rfl
    (by decide) (by decide)
    (by
      intro tags htags name t ht
      have : tags = [] := by
        have h2 : Tags (.struct ⟨[(exported "TestString" [], .str tString "xyz"),
          (exported "TestBool" [], .bool tBool true),
          (exported "TestType" [], .int ⟨"MyType", []⟩ .int 42)]⟩) "tag_name" = .ok [] := by
          decide
        rw [h2] at htags
        cases htags
        rfl
      rw [this] at ht
      cases ht)
  refine ⟨m', h, ?_, ?_, ?_⟩
  · exact hall (exported "TestString" [], .str tString "xyz") (by simp) rfl
  · exact hall (exported "TestBool" [], .bool tBool true) (by simp) rfl
  · exact hall (exported "TestType" [], .int ⟨"MyType", []⟩ .int 42) (by simp) rfl

/-! ## FillStruct: fields without a key -/

theorem untouched_refl (from_ : GoMap String) (l : List (StructField × Val)) :
    List.Forall₂ (Untouched from_) l l := by
  induction l with
  | nil => exact List.Forall₂.nil
  | cons a l ih => exact List.Forall₂.cons ⟨rfl, fun _ => rfl⟩ ih

theorem untouched_trans (from_ : GoMap String) {l1 l2 l3 : List (StructField × Val)}
    (h12 : List.Forall₂ (Untouched from_) l1 l2) (h23 : List.Forall₂ (Untouched from_) l2 l3) :
    List.Forall₂ (Untouched from_) l1 l3 := by
  induction h12 generalizing l3 with
  | nil => cases h23; exact List.Forall₂.nil
  | cons hab _ ih =>
    cases h23 with
    | cons hbc htl =>
      refine List.Forall₂.cons ⟨hab.1.trans hbc.1, fun hn => ?_⟩ (ih htl)
      rw [hab.2 hn]
      exact hbc.2 (by rw [← hab.1]; exact hn)

theorem untouched_setFieldIn (from_ : GoMap String) (name : String) (v : Val)
    (hname : GoMap.lookup from_ name ≠ none) (l : List (StructField × Val)) :
    List.Forall₂ (Untouched from_) l (setFieldIn name v l) := by
  induction l with
  | nil => exact List.Forall₂.nil
  | cons a l ih =>
    unfold setFieldIn
    split
    · rename_i h
      refine List.Forall₂.cons ⟨rfl, fun hn => ?_⟩ (untouched_refl from_ l)
      rw [h] at hn; exact absurd hn hname
    · exact List.Forall₂.cons ⟨rfl, fun _ => rfl⟩ ih

theorem fillStructLoop_untouched (fl : FloatOps) (from_ : GoMap String)
    (tags : GoMap (GoMap String)) (decoder : Option Hook) :
    ∀ (fields : List StructField) (toVal : Record),
      List.Forall₂ (Untouched from_) toVal.fields
        (fillStructLoop fl from_ tags decoder fields toVal).1.fields := by
  intro fields
  induction fields with
  | nil => intro toVal; exact untouched_refl from_ _
  | cons field rest ih =>
    intro toVal
    unfold fillStructLoop
    cases hv : GoMap.lookup from_ field.Name with
    | none => exact ih toVal
    | some v =>
      have hne : GoMap.lookup from_ field.Name ≠ none := by rw [hv]; simp
      have hset : ∀ x, List.Forall₂ (Untouched from_) toVal.fields
          (toVal.setField field.Name x).fields :=
        fun x => untouched_setFieldIn from_ field.Name x hne toVal.fields
      simp only []
      split
      · split
        · exact untouched_trans from_ (hset _) (ih _)
        · exact untouched_refl from_ _
        · exact untouched_refl from_ _
      · split
        · exact untouched_refl from_ _
        · exact untouched_refl from_ _
        · split
          · exact untouched_trans from_ (hset _) (ih _)
          · exact hset _

theorem Value_withStruct (to_ : Arg) (r r' : Record) (h : Value to_ = .ok r) :
    Value (to_.withStruct r') = .ok r' := by
  induction to_ with
  | ptr a ih => simp only [Value, Arg.withStruct] at h ⊢; exact ih h
  | struct _ => rfl
  | nil => simp [Value] at h
  | nilPtr => simp [Value] at h
  | scalar v => simp [Value] at h

theorem FieldByName_untouched (from_ : GoMap String) (name : String)
    (hname : GoMap.lookup from_ name = none) {l1 l2 : List (StructField × Val)}
    (h : List.Forall₂ (Untouched from_) l1 l2) :
    (Record.mk l1).FieldByName name = (Record.mk l2).FieldByName name := by
  induction h with
  | nil => rfl
  | @cons a b l1 l2 hab _ ih =>
    unfold Record.FieldByName at ih ⊢
    by_cases hn : a.1.Name = name
    · have hb : b.1.Name = name := by rw [← hab.1]; exact hn
      simp only [List.find?, hn, hb, decide_True]
      exact hab.2 (by rw [hn]; exact hname)
    · have hb : ¬ b.1.Name = name := by rw [← hab.1]; exact hn
      simp only [List.find?, hn, hb, decide_False]
      exact ih

/-- C2 (missing-key skip): whatever the source map, the record and the hook, and however
`FillStruct` ends, every field whose name is not a key of the source map has the same
value after the call as before it (and no field changes its descriptor). -/
theorem FillStruct_missing_key_skip (fl : FloatOps) (from_ : GoMap String) (to_ : Arg)
    (tagName : String) (decoder : Option Hook) (r : Record) (hr : Value to_ = .ok r) :
    ∃ r', Value (FillStruct fl from_ to_ tagName decoder).1 = .ok r'
      ∧ List.Forall₂ (fun a b => a.1 = b.1 ∧ (GoMap.lookup from_ a.1.Name = none → a.2 = b.2))
          r.fields r'.fields
      ∧ ∀ name, GoMap.lookup from_ name = none → r'.FieldByName name = r.FieldByName name := by
  have key : ∃ r', Value (FillStruct fl from_ to_ tagName decoder).1 = .ok r'
      ∧ List.Forall₂ (Untouched from_) r.fields r'.fields := by
    unfold FillStruct
    split
    · exact ⟨r, hr, untouched_refl from_ _⟩
    · exact ⟨r, hr, untouched_refl from_ _⟩
    · split
      · rename_i tags toVal fields h1 h2 h3
        rw [hr] at h2
        cases h2
        exact ⟨_, Value_withStruct to_ r _ hr, fillStructLoop_untouched fl from_ tags decoder fields r⟩
      · exact ⟨r, hr, untouched_refl from_ _⟩
  obtain ⟨r', h1, h2⟩ := key
  exact ⟨r', h1, h2, fun name hn => (FieldByName_untouched from_ name hn h2).symm⟩

/-- Witness of C2: with the map {"A": "y"} and a hook that fails, field `B` keeps its
value. -/
theorem FillStruct_missing_key_skip_witness :
    ∃ r', Value (FillStruct noFloat [("A", "1")]
        (.ptr (.struct ⟨[(exported "A" [], .bool tBool false),
          (exported "B" [], .str tString "keep")]⟩)) "t"
        (some (fun _ _ _ => .error (.hook "no")))).1 = .ok r'
      ∧ r'.FieldByName "B" = .str tString "keep" := by
  obtain ⟨r', h1, _, h3⟩ := FillStruct_missing_key_skip noFloat [("A", "1")]
    (.ptr (.struct ⟨[(exported "A" [], .bool tBool false),
      (exported "B" [], .str tString "keep")]⟩)) "t"
    (some (fun _ _ _ => .error (.hook "no"))) _ rfl
  exact ⟨r', h1, (h3 "B" (by decide)).trans (by decide)⟩

/-! ## Tags -/


theorem splitChars_eq (sep : Char) (cs cur : List Char) :
    splitChars sep cs cur = (List.splitOnP.go (fun c => c == sep) cs cur).map String.mk := by
  induction cs generalizing cur with
  | nil => simp [splitChars, List.splitOnP.go]
  | cons c cs ih =>
    by_cases h : c = sep
    · simp [splitChars, List.splitOnP.go, h, ih]
    · simp [splitChars, List.splitOnP.go, h, ih]

theorem Split_eq (s : String) (sep : Char) :
    Split s sep = (s.data.splitOn sep).map String.mk := by
  simp [Split, splitChars_eq, List.splitOn, List.splitOnP]

theorem dropWhile_ne_of_mem (sep : Char) (l : List Char) (h : sep ∈ l) :
    ∃ tl, l.dropWhile (fun c => c ≠ sep) = sep :: tl := by
  induction l with
  | nil => cases h
  | cons a l ih =>
    by_cases ha : a = sep
    · subst ha
      exact ⟨l, by simp [List.dropWhile]⟩
    · have hl : sep ∈ l := by
        rcases List.mem_cons.mp h with h | h
        · exact absurd h.symm ha
        · exact h
      obtain ⟨tl, htl⟩ := ih hl
      refine ⟨tl, ?_⟩
      rw [List.dropWhile_cons, if_pos (by simpa using ha)]
      exact htl

theorem tagPart_option (tagPart : String) :
    (if ¬ ContainsRune tagPart '=' then (tagPart, "true")
      else ((SplitN2 tagPart '=').getD 0 "", (SplitN2 tagPart '=').getD 1 ""))
      = specOption tagPart := by
  unfold specOption ContainsRune SplitN2
  by_cases h : '=' ∈ tagPart.data
  · obtain ⟨tl, htl⟩ := dropWhile_ne_of_mem '=' tagPart.data h
    rw [List.span_eq_take_drop, htl]
    simp [h]
  · simp [h]

theorem tagParts_eq_foldl (parts : List String) (m : GoMap String) :
    tagParts m parts
      = parts.foldl (fun m part => GoMap.insert m (specOption part).1 (specOption part).2) m := by
  induction parts generalizing m with
  | nil => rfl
  | cons p ps ih =>
    have hp := tagPart_option p
    unfold tagParts
    rw [List.foldl_cons, ← hp]
    by_cases h : ContainsRune p '=' = true
    · simp only [h, not_true_eq_false, if_false]
      exact ih _
    · simp only [h, not_false_eq_true, if_true]
      exact ih _

theorem tagParts_Split (tag : String) : tagParts [] (Split tag ',') = specParse tag := by
  rw [tagParts_eq_foldl, Split_eq]
  rfl

theorem lookup_append_none {α : Type} (m : GoMap α) (k k2 : String) (v : α)
    (h : GoMap.lookup m k2 = none) (hne : k ≠ k2) :
    GoMap.lookup (m ++ [(k, v)]) k2 = none := by
  induction m with
  | nil => simp [GoMap.lookup, hne]
  | cons a m ih =>
    obtain ⟨k', v'⟩ := a
    by_cases hk : k' = k2
    · simp [GoMap.lookup, hk] at h
    · simp only [GoMap.lookup, hk, if_false] at h
      simp only [List.cons_append, GoMap.lookup, hk, if_false]
      exact ih h

theorem insert_of_lookup_none {α : Type} (m : GoMap α) (k : String) (v : α)
    (h : GoMap.lookup m k = none) : GoMap.insert m k v = m ++ [(k, v)] := by
  induction m with
  | nil => rfl
  | cons a m ih =>
    obtain ⟨k', v'⟩ := a
    by_cases hk : k' = k
    · simp [GoMap.lookup, hk] at h
    · simp only [GoMap.lookup, hk, if_false] at h
      simp only [GoMap.insert, hk, if_false, List.cons_append, ih h]

theorem insert_append_same {α : Type} (m : GoMap α) (k : String) (v w : α)
    (h : GoMap.lookup m k = none) :
    GoMap.insert (m ++ [(k, v)]) k w = m ++ [(k, w)] := by
  induction m with
  | nil => simp [GoMap.insert]
  | cons a m ih =>
    obtain ⟨k', v'⟩ := a
    by_cases hk : k' = k
    · simp [GoMap.lookup, hk] at h
    · simp only [GoMap.lookup, hk, if_false] at h
      have := ih h
      show GoMap.insert ((k', v') :: (m ++ [(k, v)])) k w = (k', v') :: (m ++ [(k, w)])
      simp only [GoMap.insert, hk, if_false, this]

theorem lookup_append_same {α : Type} (m : GoMap α) (k : String) (v : α)
    (h : GoMap.lookup m k = none) : GoMap.lookup (m ++ [(k, v)]) k = some v := by
  induction m with
  | nil => simp [GoMap.lookup]
  | cons a m ih =>
    obtain ⟨k', v'⟩ := a
    by_cases hk : k' = k
    · simp [GoMap.lookup, hk] at h
    · simp only [GoMap.lookup, hk, if_false] at h
      have := ih h
      show GoMap.lookup ((k', v') :: (m ++ [(k, v)])) k = some v
      simp only [GoMap.lookup, hk, if_false, this]

theorem tagsLoop_eq (key : String) :
    ∀ (fields : List StructField) (acc : GoMap (GoMap String)),
      (∀ f ∈ fields, GoMap.lookup acc f.Name = none) →
      (fields.map (fun f => f.Name)).Nodup →
      tagsLoop key acc fields
        = acc ++ (fields.filter (fun f => f.TagGet key ≠ "")).map
            (fun f => (f.Name, specParse (f.TagGet key))) := by
  intro fields
  induction fields with
  | nil => intro acc _ _; simp [tagsLoop]
  | cons field rest ih =>
    intro acc hacc hnodup
    have hnone := hacc field (List.mem_cons_self _ _)
    simp only [List.map_cons, List.nodup_cons] at hnodup
    unfold tagsLoop
    by_cases htag : field.TagGet key = ""
    · simp only [htag, ne_eq, not_true_eq_false, if_false]
      rw [ih acc (fun f hf => hacc f (List.mem_cons_of_mem _ hf)) hnodup.2]
      simp [List.filter, htag]
    · simp only [ne_eq, htag, not_false_eq_true, if_true, hnone]
      rw [insert_of_lookup_none acc field.Name [] hnone,
        lookup_append_same acc field.Name [] hnone, Option.getD_some,
        insert_append_same acc field.Name _ _ hnone, tagParts_Split]
      rw [ih]
      · simp [List.filter, htag]
      · intro f hf
        apply lookup_append_none _ _ _ _ (hacc f (List.mem_cons_of_mem _ hf))
        intro heq
        exact hnodup.1 (heq ▸ List.mem_map_of_mem (fun f => f.Name) hf)
      · exact hnodup.2

/-- C5 (tag parsing): `Tags` returns one entry for every exported field with a non-empty
annotation under the tag name, and no other entry; the entry is the annotation split on
`,` with every part stored from left to right, a part without `=` as `part -> "true"` and
any other part split at its first `=` only; so a later duplicate key overwrites an earlier
one and an empty part gives the key "". -/
theorem Tags_parse (s : Arg) (key : String) (r : Record) (hr : Value s = .ok r)
    (hnodup : (r.fields.map (fun fv => fv.1.Name)).Nodup) :
    Tags s key = .ok (((r.fields.map (fun fv => fv.1)).filter
        (fun f => f.PkgPath = "" ∧ f.TagGet key ≠ "")).map
          (fun f => (f.Name, specParse (f.TagGet key))))
    ∧ specParse "asdf" = [("asdf", "true")]
    ∧ specParse "a=1,b=2" = [("a", "1"), ("b", "2")]
    ∧ specParse "a=b=c" = [("a", "b=c")]
    ∧ specParse "a=1,a=2" = [("a", "2")]
    ∧ specParse "a,,b" = [("a", "true"), ("", "true"), ("b", "true")] := by
  refine ⟨?_, by decide, by decide, by decide, by decide, by decide⟩
  have hnd : (((r.fields.map (fun fv => fv.1)).filter
      (fun field => field.PkgPath = "")).map (fun f => f.Name)).Nodup := by
    have hsub : List.Sublist (((r.fields.map (fun fv => fv.1)).filter
        (fun field => field.PkgPath = "")).map (fun f => f.Name))
        ((r.fields.map (fun fv => fv.1)).map (fun f => f.Name)) :=
      List.Sublist.map _ (List.filter_sublist _)
    apply List.Nodup.sublist hsub
    simpa [List.map_map] using hnodup
  simp only [Tags, Fields, hr]
  rw [tagsLoop_eq key _ [] (fun _ _ => rfl) hnd]
  simp only [List.nil_append, List.filter_filter]
  congr 3
  funext f
  simp [Bool.and_comm]

/-- Witness of C5, the record of `TestTags`: only the annotated field has an entry, and
"asdf" is parsed to the flag `asdf -> "true"`. -/
theorem Tags_parse_witness :
    Tags (.struct ⟨[(exported "TestString" [("foobar", "asdf")], .str tString ""),
        (exported "TestBool" [], .bool tBool false)]⟩) "foobar"
      = .ok [("TestString", [("asdf", "true")])] :=
  (Tags_parse (.struct ⟨[(exported "TestString" [("foobar", "asdf")], .str tString ""),
    (exported "TestBool" [], .bool tBool false)]⟩) "foobar" _ rfl (by decide)).1

/-! ## FillStruct with a hook -/

/-- C8 (hook path of FillStruct, evaluated): the value returned by the hook is assigned,
and then the built-in coercion of the map string still runs on the same field.  With an
`int` field holding 5, a hook returning 7 and the map string "3" the field ends as 3, not
7; with the map string "x" the call returns the parse error of the built-in rule. -/
theorem FillStruct_hook_then_decode :
    FillStruct noFloat [("Count", "3")]
        (.ptr (.struct ⟨[(exported "Count" [], .int (predeclared "int") .int 5)]⟩)) "tag_name"
        (some (fun _ _ _ => .ok (.int (predeclared "int") .int 7)))
      = (.ptr (.struct ⟨[(exported "Count" [], .int (predeclared "int") .int 3)]⟩), .nil)
    ∧ FillStruct noFloat [("Count", "x")]
        (.ptr (.struct ⟨[(exported "Count" [], .int (predeclared "int") .int 5)]⟩)) "tag_name"
        (some (fun _ _ _ => .ok (.int (predeclared "int") .int 7)))
      = (.ptr (.struct ⟨[(exported "Count" [], .int (predeclared "int") .int 7)]⟩),
          .error (.cannotParse "Count" "int" .ErrSyntax)) := by
  constructor
  · simp [FillStruct, isPtr, Tags, Fields, Value, exported, tagsLoop, StructField.TagGet,
      fillStructLoop, GoMap.lookup, Record.FieldByName, Val.kind, Val.Set, Val.Type,
      Record.setField, setFieldIn, decode, getKind, kindNum, decodeInt, IntKind.toKind,
      Val.asString, Val.SetInt, Val.Bits, IntKind.Bits, Arg.withStruct, tString, predeclared]
    decide
  · simp [FillStruct, isPtr, Tags, Fields, Value, exported, tagsLoop, StructField.TagGet,
      fillStructLoop, GoMap.lookup, Record.FieldByName, Val.kind, Val.Set, Val.Type,
      Record.setField, setFieldIn, decode, getKind, kindNum, decodeInt, IntKind.toKind,
      Val.asString, Val.SetInt, Val.Bits, IntKind.Bits, Arg.withStruct, tString, predeclared]
    decide

/-! ## Integers from strings -/

theorem digitsValue_ge (base : Nat) (sep : Bool) (hb : 1 ≤ base) :
    ∀ (cs : List Char) (n v : Nat), digitsValue base sep cs n = some v → n ≤ v := by
  intro cs
  induction cs with
  | nil => intro n v h; simp [digitsValue] at h; omega
  | cons c cs ih =>
    intro n v h
    unfold digitsValue at h
    split at h
    · exact ih n v h
    · split at h
      · rename_i d _
        split at h
        · have := ih _ v h
          have : n ≤ n * base := Nat.le_mul_of_pos_right n hb
          omega
        · cases h
      · cases h

theorem lt_cutoff_iff (base n : Nat) (hb : 1 ≤ base) :
    n < maxUint64 / base + 1 ↔ n * base ≤ maxUint64 := by
  rw [Nat.lt_succ_iff, Nat.le_div_iff_mul_le (by omega)]

theorem parseUintLoop_ok (base : Nat) (base0 : Bool) (maxVal : Nat)
    (hb : 2 ≤ base) (hb2 : base ≤ 36) (hmax : maxVal ≤ maxUint64) :
    ∀ (cs : List Char) (n v : Nat) (u : Bool),
      digitsValue base base0 cs n = some v → v ≤ maxVal →
      parseUintLoop base base0 (maxUint64 / base + 1) maxVal cs n u
        = .ok (v, u || (base0 && decide ('_' ∈ cs))) := by
  intro cs
  induction cs with
  | nil => intro n v u h _; simp [digitsValue] at h; simp [parseUintLoop, h]
  | cons c cs ih =>
    intro n v u h hv
    unfold digitsValue at h
    unfold parseUintLoop
    by_cases hc : c = '_' ∧ base0 = true
    · obtain ⟨hc1, hc2⟩ := hc
      subst hc1 hc2
      simp only [and_self, if_true] at h ⊢
      rw [ih n v true h hv]
      simp
    · simp only [hc, if_false] at h ⊢
      cases hd : digitOf c with
      | none => simp [hd] at h
      | some d =>
        simp only [hd] at h ⊢
        by_cases hdb : d < base
        · simp only [hdb, if_true] at h
          have hge := digitsValue_ge base base0 (by omega) cs _ v h
          have h1 : n * base + d ≤ maxUint64 := by omega
          have h2 : ¬ (n ≥ maxUint64 / base + 1) := by
            rw [ge_iff_le, not_le, lt_cutoff_iff base n (by omega)]; omega
          have h3 : (n * base) % 2 ^ 64 = n * base := by
            apply Nat.mod_eq_of_lt; unfold maxUint64 at h1; omega
          have h4 : (n * base + d) % 2 ^ 64 = n * base + d := by
            apply Nat.mod_eq_of_lt; unfold maxUint64 at h1; omega
          have h5 : ¬ (d ≥ base) := by omega
          simp only [h5, h2, if_false, h3, h4]
          have h6 : ¬ (n * base + d < n * base ∨ n * base + d > maxVal) := by omega
          simp only [h6, if_false]
          rw [ih _ v u h hv]
          have hcne : ¬ (c = '_' ∧ base0 = true) := hc
          by_cases hb0 : base0 = true
          · have : c ≠ '_' := fun hh => hcne ⟨hh, hb0⟩
            simp [hb0, List.mem_cons, Ne.symm this]
          · simp [hb0]
        · simp [hdb] at h

theorem parseUintLoop_err (base : Nat) (base0 : Bool) (maxVal : Nat)
    (hb : 2 ≤ base) (hb2 : base ≤ 36) :
    ∀ (cs : List Char) (n : Nat) (u : Bool), n ≤ maxVal →
      (digitsValue base base0 cs n = none
        ∨ ∃ v, digitsValue base base0 cs n = some v ∧ maxVal < v) →
      parseUintLoop base base0 (maxUint64 / base + 1) maxVal cs n u
          = .error (0, .ErrSyntax)
        ∨ parseUintLoop base base0 (maxUint64 / base + 1) maxVal cs n u
          = .error (maxVal, .ErrRange) := by
  intro cs
  induction cs with
  | nil =>
    intro n u hn h
    rcases h with h | ⟨v, h, hv⟩
    · simp [digitsValue] at h
    · simp [digitsValue] at h; omega
  | cons c cs ih =>
    intro n u hn h
    unfold digitsValue at h
    unfold parseUintLoop
    by_cases hc : c = '_' ∧ base0 = true
    · obtain ⟨hc1, hc2⟩ := hc
      subst hc1 hc2
      simp only [and_self, if_true] at h ⊢
      exact ih n true hn h
    · simp only [hc, if_false] at h ⊢
      cases hd : digitOf c with
      | none => left; rfl
      | some d =>
        simp only [hd] at h ⊢
        by_cases hdb : d < base
        · simp only [hdb, if_true] at h
          have h5 : ¬ (d ≥ base) := by omega
          simp only [h5, if_false]
          by_cases h2 : n ≥ maxUint64 / base + 1
          · right; simp [h2]
          · simp only [h2, if_false]
            have h1 : n * base ≤ maxUint64 := by
              rw [← lt_cutoff_iff base n (by omega)]; omega
            have h3 : (n * base) % 2 ^ 64 = n * base := by
              apply Nat.mod_eq_of_lt; unfold maxUint64 at h1; omega
            simp only [h3]
            by_cases hw : n * base + d < 2 ^ 64
            · have h4 : (n * base + d) % 2 ^ 64 = n * base + d := Nat.mod_eq_of_lt hw
              simp only [h4]
              by_cases h6 : n * base + d > maxVal
              · right; simp [h6]
              · have h7 : ¬ (n * base + d < n * base ∨ n * base + d > maxVal) := by omega
                simp only [h7, if_false]
                exact ih _ u (by omega) h
            · have h4 : (n * base + d) % 2 ^ 64 < n * base := by
                have : (n * base + d) % 2 ^ 64 = n * base + d - 2 ^ 64 := by
                  rw [Nat.mod_eq_sub_mod (by omega)]
                  apply Nat.mod_eq_of_lt
                  unfold maxUint64 at h1; omega
                omega
              right
              rw [if_pos (Or.inl h4)]
        · left; simp [hdb]

theorem basePrefix_base (s : List Char) :
    (basePrefix s).1 = 2 ∨ (basePrefix s).1 = 8 ∨ (basePrefix s).1 = 10
      ∨ (basePrefix s).1 = 16 := by
  unfold basePrefix
  split
  · split
    · split
      · split
        · simp
        · split
          · simp
          · split <;> simp
      · simp
    · simp
  · simp

theorem ParseUint_ok (s : List Char) (w v : Nat) (hs : s ≠ []) (hw1 : 1 ≤ w) (hw2 : w ≤ 64)
    (hd : digitsValue (basePrefix s).1 true (basePrefix s).2 0 = some v)
    (hv : v ≤ 2 ^ w - 1)
    (hu : ¬ ('_' ∈ (basePrefix s).2 ∧ ¬ underscoreOK s)) :
    ParseUint s 0 w = (v, none) := by
  have hb := basePrefix_base s
  have hmax : 2 ^ w - 1 ≤ maxUint64 := by
    unfold maxUint64
    have : 2 ^ w ≤ 2 ^ 64 := Nat.pow_le_pow_right (by omega) hw2
    omega
  have hloop := parseUintLoop_ok (basePrefix s).1 true (2 ^ w - 1) (by omega) (by omega) hmax
    (basePrefix s).2 0 v false hd hv
  have hw0 : ¬ (w = 0) := by omega
  have hw64 : ¬ (w > 64) := by omega
  simp only [ParseUint, hs, if_false, true_or, not_true_eq_false, if_true, hw64, hw0,
    decide_True, hloop]
  by_cases hmem : '_' ∈ (basePrefix s).2
  · have hok : underscoreOK s = true := by
      by_contra hne
      exact hu ⟨hmem, hne⟩
    simp [hok]
  · simp [hmem]

theorem ParseUint_badsep (s : List Char) (w v : Nat) (hs : s ≠ []) (hw1 : 1 ≤ w)
    (hw2 : w ≤ 64)
    (hd : digitsValue (basePrefix s).1 true (basePrefix s).2 0 = some v)
    (hv : v ≤ 2 ^ w - 1)
    (hu : '_' ∈ (basePrefix s).2 ∧ ¬ underscoreOK s) :
    ParseUint s 0 w = (0, some .ErrSyntax) := by
  have hb := basePrefix_base s
  have hmax : 2 ^ w - 1 ≤ maxUint64 := by
    unfold maxUint64
    have : 2 ^ w ≤ 2 ^ 64 := Nat.pow_le_pow_right (by omega) hw2
    omega
  have hloop := parseUintLoop_ok (basePrefix s).1 true (2 ^ w - 1) (by omega) (by omega) hmax
    (basePrefix s).2 0 v false hd hv
  have hw0 : ¬ (w = 0) := by omega
  have hw64 : ¬ (w > 64) := by omega
  simp only [ParseUint, hs, if_false, true_or, not_true_eq_false, if_true, hw64, hw0,
    decide_True, hloop]
  simp [hu.1, hu.2]

theorem ParseUint_err (s : List Char) (w : Nat) (hw1 : 1 ≤ w) (hw2 : w ≤ 64)
    (hd : digitsValue (basePrefix s).1 true (basePrefix s).2 0 = none
      ∨ ∃ v, digitsValue (basePrefix s).1 true (basePrefix s).2 0 = some v ∧ 2 ^ w - 1 < v) :
    ParseUint s 0 w = (0, some .ErrSyntax) ∨ ParseUint s 0 w = (2 ^ w - 1, some .ErrRange) := by
  by_cases hs : s = []
  · left; simp [ParseUint, hs]
  · have hb := basePrefix_base s
    have hmax : 2 ^ w - 1 ≤ maxUint64 := by
      unfold maxUint64
      have : 2 ^ w ≤ 2 ^ 64 := Nat.pow_le_pow_right (by omega) hw2
      omega
    have hloop := parseUintLoop_err (basePrefix s).1 true (2 ^ w - 1) (by omega) (by omega)
      (basePrefix s).2 0 false (by omega) hd
    have hw0 : ¬ (w = 0) := by omega
    have hw64 : ¬ (w > 64) := by omega
    simp only [ParseUint, hs, if_false, true_or, not_true_eq_false, if_true, hw64, hw0,
      decide_True]
    rcases hloop with h | h
    · left; simp only [h]
    · right; simp only [h]

theorem pow_pred_le (w : Nat) (hw : 2 ≤ w) : 2 ^ (w - 1) + 1 ≤ 2 ^ w - 1 := by
  obtain ⟨k, rfl⟩ : ∃ k, w = k + 2 := ⟨w - 2, by omega⟩
  have h1 : 2 ^ (k + 2) = 2 * 2 ^ (k + 1) := by rw [pow_succ]; ring
  have h2 : 2 ^ (k + 1) = 2 * 2 ^ k := by rw [pow_succ]; ring
  have h3 : 1 ≤ 2 ^ k := Nat.one_le_two_pow
  have h4 : k + 2 - 1 = k + 1 := by omega
  rw [h4]
  omega

theorem leadingSign_nil (s : String) (hs : s = "") : leadingSign s = (false, []) := by
  subst hs; rfl

theorem ParseInt_ok (s : String) (w : Nat) (hw1 : 2 ≤ w) (hw2 : w ≤ 64) (n : Int)
    (hlit : intLiteral s = some n) (hlo : -(2 ^ (w - 1) : Int) ≤ n)
    (hhi : n < (2 ^ (w - 1) : Int)) :
    ParseInt s 0 w = (n, none) := by
  have hp := pow_pred_le w hw1
  unfold intLiteral at hlit
  by_cases hrest : (leadingSign s).2 = []
  · simp [hrest] at hlit
  · simp only [hrest, if_false] at hlit
    cases hd : digitsValue (basePrefix (leadingSign s).2).1 true
        (basePrefix (leadingSign s).2).2 0 with
    | none => simp [hd] at hlit
    | some v =>
      simp only [hd] at hlit
      by_cases hu : '_' ∈ (basePrefix (leadingSign s).2).2 ∧ ¬ underscoreOK (leadingSign s).2
      · simp [hu] at hlit
      · simp only [hu, if_false, Option.some.injEq] at hlit
        have hs : s ≠ "" := by
          intro h; rw [leadingSign_nil s h] at hrest; exact hrest rfl
        have hw0 : ¬ (w = 0) := by omega
        cases hneg : (leadingSign s).1 with
        | false =>
          simp only [hneg, Bool.false_eq_true, if_false] at hlit
          subst hlit
          have hv : v < 2 ^ (w - 1) := by exact_mod_cast hhi
          have hU := ParseUint_ok (leadingSign s).2 w v hrest (by omega) hw2 hd (by omega) hu
          simp only [ParseInt, hs, if_false, hU, hneg, hw0]
          have : ¬ (v ≥ 2 ^ (w - 1)) := by omega
          simp [this]
        | true =>
          simp only [hneg, if_true] at hlit
          subst hlit
          have hv : v ≤ 2 ^ (w - 1) := by
            have : -(2 ^ (w - 1) : Int) ≤ -(v : Int) := hlo
            have h2 : (v : Int) ≤ (2 ^ (w - 1) : Int) := by omega
            exact_mod_cast h2
          have hU := ParseUint_ok (leadingSign s).2 w v hrest (by omega) hw2 hd (by omega) hu
          simp only [ParseInt, hs, if_false, hU, hneg, hw0]
          have : ¬ (v > 2 ^ (w - 1)) := by omega
          simp [this]

theorem ParseInt_err (s : String) (w : Nat) (hw1 : 2 ≤ w) (hw2 : w ≤ 64)
    (hlit : intLiteral s = none ∨ ∃ n, intLiteral s = some n
      ∧ ¬ (-(2 ^ (w - 1) : Int) ≤ n ∧ n < (2 ^ (w - 1) : Int))) :
    ∃ v e, ParseInt s 0 w = (v, some e) := by
  have hp := pow_pred_le w hw1
  have hw0 : ¬ (w = 0) := by omega
  by_cases hs : s = ""
  · exact ⟨0, .ErrSyntax, by simp [ParseInt, hs]⟩
  -- what the unsigned parser returns decides the rest
  have hsyn : ParseUint (leadingSign s).2 0 w = (0, some .ErrSyntax) →
      ∃ v e, ParseInt s 0 w = (v, some e) := by
    intro hU
    exact ⟨0, .ErrSyntax, by simp [ParseInt, hs, hU]⟩
  have hrange : ParseUint (leadingSign s).2 0 w = (2 ^ w - 1, some .ErrRange) →
      ∃ v e, ParseInt s 0 w = (v, some e) := by
    intro hU
    cases hneg : (leadingSign s).1 with
    | false =>
      refine ⟨(2 ^ (w - 1) : Nat) - 1, .ErrRange, ?_⟩
      have : 2 ^ w - 1 ≥ 2 ^ (w - 1) := by omega
      simp [ParseInt, hs, hU, hneg, hw0, this]
    | true =>
      refine ⟨-((2 ^ (w - 1) : Nat) : Int), .ErrRange, ?_⟩
      have : 2 ^ w - 1 > 2 ^ (w - 1) := by omega
      simp [ParseInt, hs, hU, hneg, hw0, this]
  by_cases hrest : (leadingSign s).2 = []
  · exact hsyn (by simp [ParseUint, hrest])
  cases hd : digitsValue (basePrefix (leadingSign s).2).1 true
      (basePrefix (leadingSign s).2).2 0 with
  | none =>
    rcases ParseUint_err (leadingSign s).2 w (by omega) hw2 (Or.inl hd) with h | h
    · exact hsyn h
    · exact hrange h
  | some v =>
    by_cases hvmax : v ≤ 2 ^ w - 1
    · by_cases hu : '_' ∈ (basePrefix (leadingSign s).2).2 ∧ ¬ underscoreOK (leadingSign s).2
      · exact hsyn (ParseUint_badsep (leadingSign s).2 w v hrest (by omega) hw2 hd hvmax hu)
      · have hU := ParseUint_ok (leadingSign s).2 w v hrest (by omega) hw2 hd hvmax hu
        have hval : intLiteral s = some (if (leadingSign s).1 then -(v : Int) else (v : Int)) := by
          simp only [intLiteral, hrest, if_false, hd, hu]
        rcases hlit with hlit | ⟨n, hlit, hout⟩
        · rw [hval] at hlit; cases hlit
        · rw [hval] at hlit
          simp only [Option.some.injEq] at hlit
          cases hneg : (leadingSign s).1 with
          | false =>
            simp only [hneg, Bool.false_eq_true, if_false] at hlit
            subst hlit
            have hge : v ≥ 2 ^ (w - 1) := by
              by_contra hlt
              apply hout
              constructor
              · have : (0 : Int) ≤ (2 ^ (w - 1) : Int) := by positivity
                omega
              · exact_mod_cast (not_le.mp hlt)
            refine ⟨(2 ^ (w - 1) : Nat) - 1, .ErrRange, ?_⟩
            simp [ParseInt, hs, hU, hneg, hw0, hge]
          | true =>
            simp only [hneg, if_true] at hlit
            subst hlit
            have hgt : v > 2 ^ (w - 1) := by
              by_contra hle
              apply hout
              have h2 : (v : Int) ≤ (2 ^ (w - 1) : Int) := by exact_mod_cast (not_lt.mp hle)
              have h3 : (0 : Int) < (2 ^ (w - 1) : Int) := by positivity
              constructor <;> omega
            refine ⟨-((2 ^ (w - 1) : Nat) : Int), .ErrRange, ?_⟩
            simp [ParseInt, hs, hU, hneg, hw0, hgt]
    · rcases ParseUint_err (leadingSign s).2 w (by omega) hw2
        (Or.inr ⟨v, hd, by omega⟩) with h | h
      · exact hsyn h
      · exact hrange h

theorem wrapInt_of_range (w : Nat) (hw : 1 ≤ w) (x : Int)
    (hlo : -(2 ^ (w - 1) : Int) ≤ x) (hhi : x < (2 ^ (w - 1) : Int)) : wrapInt w x = x := by
  obtain ⟨k, rfl⟩ : ∃ k, w = k + 1 := ⟨w - 1, by omega⟩
  simp only [Nat.add_sub_cancel] at hlo hhi
  unfold wrapInt
  simp only [Nat.add_sub_cancel]
  have h2 : (2 : Int) ^ (k + 1) = 2 * 2 ^ k := by rw [pow_succ]; ring
  have hpos : (0 : Int) < 2 ^ k := by positivity
  rw [Int.emod_eq_of_lt (by omega) (by omega)]
  omega

theorem IntKind.Bits_range (k : IntKind) : 2 ≤ k.Bits ∧ k.Bits ≤ 64 := by
  cases k <;> simp [IntKind.Bits]

theorem decode_int_target (fl : FloatOps) (name : String) (tn tn2 : TName) (k : IntKind)
    (old : Int) (s : String) (canSet : Bool) :
    decode fl name (.str tn2 s) (.int tn k old) canSet
      = match ParseInt (if s = "" then "0" else s) 0 k.Bits with
        | (i, none) => (.int tn k (wrapInt k.Bits i), .nil)
        | (_, some err) => (.int tn k old, .error (.cannotParse name "int" err)) := by
  rw [decode]
  have hk : getKind (.int tn k old) = .Int := by cases k <;> rfl
  have hs : getKind (.str tn2 s) = .String := rfl
  simp only [hk, decodeInt, hs, Val.asString, Val.Bits]
  split <;> rename_i heq <;> simp only [heq, Val.SetInt]

/-- C7 (integer from string): decoding the string `s` into a signed integer target of
width `w` reads "" as "0"; when the text denotes, in the base-flexible syntax, an integer
`n` with `-2^(w-1) <= n < 2^(w-1)`, the target becomes exactly `n` and the error is nil;
when the text denotes no integer, or one outside that range, `decode` returns an error
and the target keeps its value (nothing wrapped or truncated is stored).  The number 42
is denoted by "42", "0x2A", "052", "0o52" and "0b101010". -/
theorem decode_int_from_string (fl : FloatOps) (name : String) (tn tn2 : TName)
    (k : IntKind) (old : Int) (s : String) (canSet : Bool) :
    (∀ n, intLiteral (if s = "" then "0" else s) = some n →
        -(2 ^ (k.Bits - 1) : Int) ≤ n → n < (2 ^ (k.Bits - 1) : Int) →
        decode fl name (.str tn2 s) (.int tn k old) canSet = (.int tn k n, .nil))
    ∧ ((intLiteral (if s = "" then "0" else s) = none
          ∨ ∃ n, intLiteral (if s = "" then "0" else s) = some n
            ∧ ¬ (-(2 ^ (k.Bits - 1) : Int) ≤ n ∧ n < (2 ^ (k.Bits - 1) : Int))) →
        ∃ e, decode fl name (.str tn2 s) (.int tn k old) canSet
          = (.int tn k old, .error (.cannotParse name "int" e)))
    ∧ intLiteral "0" = some 0 ∧ intLiteral "42" = some 42 ∧ intLiteral "-42" = some (-42)
    ∧ intLiteral "0x2A" = some 42 ∧ intLiteral "052" = some 42 ∧ intLiteral "0o52" = some 42
    ∧ intLiteral "0b101010" = some 42 ∧ intLiteral "4x" = none := by
  obtain ⟨hb1, hb2⟩ := IntKind.Bits_range k
  refine ⟨?_, ?_, by decide, by decide, by decide, by decide, by decide, by decide,
    by decide, by decide⟩
  · intro n hlit hlo hhi
    rw [decode_int_target, ParseInt_ok _ k.Bits hb1 hb2 n hlit hlo hhi]
    simp only [wrapInt_of_range k.Bits (by omega) n hlo hhi]
  · intro hlit
    obtain ⟨v, e, hv⟩ := ParseInt_err _ k.Bits hb1 hb2 hlit
    exact ⟨e, by rw [decode_int_target, hv]⟩

/-- Witness of C7 on an `int8` target: "0x7f" stores 127, while "128" and "1e3" are errors
that leave the old value 5 in place. -/
theorem decode_int_from_string_witness :
    decode noFloat "N" (.str tString "0x7f") (.int (predeclared "int8") .int8 5) true
        = (.int (predeclared "int8") .int8 127, .nil)
    ∧ (∃ e, decode noFloat "N" (.str tString "128") (.int (predeclared "int8") .int8 5) true
        = (.int (predeclared "int8") .int8 5, .error (.cannotParse "N" "int" e)))
    ∧ (∃ e, decode noFloat "N" (.str tString "1e3") (.int (predeclared "int8") .int8 5) true
        = (.int (predeclared "int8") .int8 5, .error (.cannotParse "N" "int" e))) :=
  ⟨(decode_int_from_string noFloat "N" (predeclared "int8") tString .int8 5 "0x7f" true).1
      127 (by decide) (by decide) (by decide),
    (decode_int_from_string noFloat "N" (predeclared "int8") tString .int8 5 "128" true).2.1
      (Or.inr ⟨128, by decide, by decide⟩),
    (decode_int_from_string noFloat "N" (predeclared "int8") tString .int8 5 "1e3" true).2.1
      (Or.inl (by decide))⟩

/-! ## Round trip through a map -/

theorem toDigitsCore_eq (fuel : Nat) : ∀ (n : Nat) (ds : List Char), 0 < n → n < fuel →
    Nat.toDigitsCore 10 fuel n ds = ((Nat.digits 10 n).reverse.map Nat.digitChar) ++ ds := by
  induction fuel with
  | zero => intro n ds _ h; omega
  | succ fuel ih =>
    intro n ds hn hf
    rw [Nat.toDigitsCore]
    rw [Nat.digits_def' (by omega) hn]
    by_cases h0 : n / 10 = 0
    · simp [h0]
    · simp only [h0, if_false]
      rw [ih (n / 10) _ (by omega) (by omega)]
      simp

theorem toDigits_eq (n : Nat) (hn : 0 < n) :
    Nat.toDigits 10 n = (Nat.digits 10 n).reverse.map Nat.digitChar := by
  rw [Nat.toDigits, toDigitsCore_eq (n + 1) n [] hn (by omega)]
  simp

theorem digitOf_digitChar (d : Nat) (hd : d < 10) :
    digitOf (Nat.digitChar d) = some d ∧ Nat.digitChar d ≠ '_' ∧ Nat.digitChar d ≠ '+'
      ∧ Nat.digitChar d ≠ '-' ∧ (1 ≤ d → Nat.digitChar d ≠ '0') := by
  interval_cases d <;> decide

theorem digitsValue_map_digitChar (l : List Nat) (hl : ∀ d ∈ l, d < 10) (a : Nat) :
    digitsValue 10 true (l.map Nat.digitChar) a
      = some (l.foldl (fun a d => a * 10 + d) a) := by
  induction l generalizing a with
  | nil => rfl
  | cons d l ih =>
    obtain ⟨h1, h2, _⟩ := digitOf_digitChar d (hl d (List.mem_cons_self _ _))
    have hd := hl d (List.mem_cons_self _ _)
    simp only [List.map_cons, digitsValue, h2, false_and, if_false, h1, hd, if_true,
      List.foldl_cons]
    exact ih (fun x hx => hl x (List.mem_cons_of_mem _ hx)) _

theorem foldr_ofDigits (l : List Nat) :
    l.foldr (fun d a => a * 10 + d) 0 = Nat.ofDigits 10 l := by
  induction l with
  | nil => rfl
  | cons d l ih => simp only [List.foldr_cons, ih, Nat.ofDigits_cons]; ring

theorem digitsValue_toDigits (n : Nat) (hn : 0 < n) :
    digitsValue 10 true (Nat.toDigits 10 n) 0 = some n := by
  rw [toDigits_eq n hn, digitsValue_map_digitChar _ (by
    intro d hd
    exact Nat.digits_lt_base (by omega) (List.mem_reverse.mp hd))]
  rw [List.foldl_reverse, foldr_ofDigits, Nat.ofDigits_digits]

theorem toDigits_head (n : Nat) (hn : 0 < n) :
    ∃ d tl, 1 ≤ d ∧ d < 10 ∧ Nat.toDigits 10 n = Nat.digitChar d :: tl := by
  have hne : Nat.digits 10 n ≠ [] := Nat.digits_ne_nil_iff_ne_zero.mpr (by omega)
  have hlast := Nat.getLast_digit_ne_zero 10 (m := n) (by omega)
  have hlt : (Nat.digits 10 n).getLast hne < 10 :=
    Nat.digits_lt_base (by omega) (List.getLast_mem hne)
  refine ⟨(Nat.digits 10 n).getLast hne, ((Nat.digits 10 n).dropLast.reverse.map Nat.digitChar),
    by omega, hlt, ?_⟩
  rw [toDigits_eq n hn]
  conv_lhs => rw [← List.dropLast_append_getLast hne]
  simp

theorem not_mem_toDigits (n : Nat) (hn : 0 < n) : '_' ∉ Nat.toDigits 10 n := by
  rw [toDigits_eq n hn]
  intro h
  obtain ⟨d, hd, hc⟩ := List.mem_map.mp h
  have hlt : d < 10 := Nat.digits_lt_base (by omega) (List.mem_reverse.mp hd)
  exact (digitOf_digitChar d hlt).2.1 hc

theorem basePrefix_toDigits (n : Nat) (hn : 0 < n) :
    basePrefix (Nat.toDigits 10 n) = (10, Nat.toDigits 10 n) := by
  obtain ⟨d, tl, hd1, hd2, h⟩ := toDigits_head n hn
  have h0 := (digitOf_digitChar d hd2).2.2.2.2 hd1
  rw [h]
  simp [basePrefix, h0]

theorem intLiteral_digits (neg : Bool) (n : Nat) (hn : 0 < n) (s : String)
    (hs : leadingSign s = (neg, Nat.toDigits 10 n)) :
    intLiteral s = some (if neg then -(n : Int) else (n : Int)) := by
  obtain ⟨d, tl, _, _, h⟩ := toDigits_head n hn
  have hne : Nat.toDigits 10 n ≠ [] := by rw [h]; simp
  have hu := not_mem_toDigits n hn
  simp only [intLiteral, hs, hne, if_false, basePrefix_toDigits n hn,
    digitsValue_toDigits n hn, hu, false_and]

theorem intLiteral_FormatInt (i : Int) : intLiteral (FormatInt i 10) = some i := by
  unfold FormatInt
  by_cases hneg : i < 0
  · simp only [hneg, if_true]
    have hn : 0 < (-i).toNat := by omega
    have := intLiteral_digits true (-i).toNat hn (String.mk ('-' :: Nat.toDigits 10 (-i).toNat))
      (by simp [leadingSign])
    rw [this]
    simp only [if_true, Option.some.injEq]
    omega
  · simp only [hneg, if_false]
    by_cases h0 : i.toNat = 0
    · have hi : i = 0 := by omega
      subst hi
      decide
    · have hn : 0 < i.toNat := by omega
      obtain ⟨d, tl, hd1, hd2, h⟩ := toDigits_head i.toNat hn
      obtain ⟨_, _, hp, hm, _⟩ := digitOf_digitChar d hd2
      have := intLiteral_digits false i.toNat hn (String.mk (Nat.toDigits 10 i.toNat))
        (by rw [h]; simp [leadingSign, hp, hm])
      rw [this]
      simp only [Bool.false_eq_true, if_false, Option.some.injEq]
      omega

theorem ParseInt_FormatInt (i : Int) (w : Nat) (hw1 : 2 ≤ w) (hw2 : w ≤ 64)
    (hlo : -(2 ^ (w - 1) : Int) ≤ i) (hhi : i < (2 ^ (w - 1) : Int)) :
    ParseInt (FormatInt i 10) 0 w = (i, none) :=
  ParseInt_ok _ w hw1 hw2 i (intLiteral_FormatInt i) hlo hhi

theorem FormatInt_ne_empty (i : Int) : FormatInt i 10 ≠ "" := by
  intro h
  have := intLiteral_FormatInt i
  rw [h] at this
  have hnone : intLiteral "" = none := by decide
  rw [hnone] at this
  cases this

theorem FieldByName_setField_ne (r : Record) (name name2 : String) (v : Val)
    (hne : name2 ≠ name) :
    (r.setField name v).FieldByName name2 = r.FieldByName name2 := by
  obtain ⟨l⟩ := r
  unfold Record.setField Record.FieldByName
  simp only
  induction l with
  | nil => rfl
  | cons a l ih =>
    unfold setFieldIn
    by_cases ha : a.1.Name = name
    · have hn : ¬ name = name2 := fun h => hne h.symm
      simp only [ha, if_true, List.find?, hn, decide_False]
    · simp only [ha, if_false, List.find?]
      by_cases ha2 : a.1.Name = name2
      · simp only [ha2, decide_True]
      · simp only [ha2, decide_False]
        exact ih

theorem FieldByName_setField_self (r : Record) (name : String) (v : Val)
    (hex : r.FieldByName name ≠ .invalid) :
    (r.setField name v).FieldByName name = v := by
  obtain ⟨l⟩ := r
  unfold Record.setField Record.FieldByName at *
  simp only at *
  induction l with
  | nil => simp [List.find?] at hex
  | cons a l ih =>
    unfold setFieldIn
    by_cases ha : a.1.Name = name
    · simp only [ha, if_true, List.find?, decide_True]
    · simp only [ha, if_false, List.find?, decide_False] at hex ⊢
      exact ih hex

theorem type_eq_str (cur : Val) (n : TName) (h : cur.Type = some (.string n)) :
    ∃ s, cur = .str n s := by
  cases cur with
  | str n2 s => simp only [Val.Type, Option.some.injEq, Ty.string.injEq] at h; exact ⟨s, by rw [h]⟩
  | ptr e => cases h2 : Val.Type e <;> simp [Val.Type, h2] at h
  | _ => simp [Val.Type] at h

theorem type_eq_bool (cur : Val) (n : TName) (h : cur.Type = some (.bool n)) :
    ∃ b, cur = .bool n b := by
  cases cur with
  | bool n2 b => simp only [Val.Type, Option.some.injEq, Ty.bool.injEq] at h; exact ⟨b, by rw [h]⟩
  | ptr e => cases h2 : Val.Type e <;> simp [Val.Type, h2] at h
  | _ => simp [Val.Type] at h

theorem type_eq_int (cur : Val) (n : TName) (k : IntKind) (h : cur.Type = some (.int n k)) :
    ∃ i, cur = .int n k i := by
  cases cur with
  | int n2 k2 i =>
    simp only [Val.Type, Option.some.injEq, Ty.int.injEq] at h
    exact ⟨i, by rw [h.1, h.2]⟩
  | ptr e => cases h2 : Val.Type e <;> simp [Val.Type, h2] at h
  | _ => simp [Val.Type] at h

theorem roundTrips_step (fl : FloatOps) (name : String) (v cur : Val)
    (hv : v.roundTrips = true) (ht : cur.Type = v.Type) :
    ((Val.str tString (render v)).kind = cur.kind →
        cur.Set (.str tString (render v)) = .ok v)
    ∧ ((Val.str tString (render v)).kind ≠ cur.kind →
        decode fl name (.str tString (render v)) cur true = (v, .nil)) := by
  cases v with
  | invalid => simp [Val.roundTrips] at hv
  | float _ _ _ => simp [Val.roundTrips] at hv
  | nilptr _ => simp [Val.roundTrips] at hv
  | ptr _ => simp [Val.roundTrips] at hv
  | iface _ _ => simp [Val.roundTrips] at hv
  | other _ _ _ _ _ => simp [Val.roundTrips] at hv
  | str n s =>
    simp only [Val.roundTrips, decide_eq_true_eq] at hv
    subst hv
    obtain ⟨s2, rfl⟩ := type_eq_str cur tString ht
    constructor
    · intro _
      simp [Val.Set, Val.Type, render]
    · intro h
      exact absurd rfl h
  | bool n b =>
    obtain ⟨b2, rfl⟩ := type_eq_bool cur n ht
    constructor
    · intro h; simp [Val.kind] at h
    · intro _
      rw [decode]
      cases b <;> simp [getKind, Val.kind, kindNum, decodeBool, ParseBool, Val.asString,
        Val.SetBool, render]
  | int n k i =>
    simp only [Val.roundTrips, decide_eq_true_eq] at hv
    obtain ⟨i2, rfl⟩ := type_eq_int cur n k ht
    constructor
    · intro h
      cases k <;> simp [Val.kind, IntKind.toKind] at h
    · intro _
      obtain ⟨hb1, hb2⟩ := IntKind.Bits_range k
      rw [decode_int_target]
      have hne : render (.int n k i) ≠ "" := by
        simp only [render, ← FormatInt_ten]; exact FormatInt_ne_empty i
      simp only [hne, if_false]
      simp only [render, ← FormatInt_ten,
        ParseInt_FormatInt i k.Bits hb1 hb2 hv.1 hv.2,
        wrapInt_of_range k.Bits (by omega) i hv.1 hv.2]

theorem roundTrips_valid (v cur : Val) (hv : v.roundTrips = true) (ht : cur.Type = v.Type) :
    cur ≠ .invalid := by
  intro h
  subst h
  cases v <;> simp [Val.roundTrips] at hv <;> simp [Val.Type] at ht

theorem fillStructLoop_roundTrip (fl : FloatOps) (m : GoMap String)
    (tags : GoMap (GoMap String)) (want : String → Val) :
    ∀ (fields : List StructField) (toVal : Record),
      (∀ f ∈ fields, GoMap.lookup m f.Name = some (render (want f.Name))
        ∧ (want f.Name).roundTrips = true
        ∧ (toVal.FieldByName f.Name).Type = (want f.Name).Type) →
      ∃ r', fillStructLoop fl m tags none fields toVal = (r', .nil)
        ∧ (∀ f ∈ fields, r'.FieldByName f.Name = want f.Name)
        ∧ (∀ name, name ∉ fields.map (fun f => f.Name) →
            r'.FieldByName name = toVal.FieldByName name) := by
  intro fields
  induction fields with
  | nil =>
    intro toVal _
    exact ⟨toVal, rfl, fun f hf => absurd hf (List.not_mem_nil f), fun _ _ => rfl⟩
  | cons field rest ih =>
    intro toVal h
    obtain ⟨hlook, hrt, hty⟩ := h field (List.mem_cons_self _ _)
    obtain ⟨hsame, hdiff⟩ := roundTrips_step fl field.Name (want field.Name)
      (toVal.FieldByName field.Name) hrt hty
    have hvalid := roundTrips_valid _ _ hrt hty
    have hself := FieldByName_setField_self toVal field.Name (want field.Name) hvalid
    have hinv : ∀ f ∈ rest, GoMap.lookup m f.Name = some (render (want f.Name))
        ∧ (want f.Name).roundTrips = true
        ∧ ((toVal.setField field.Name (want field.Name)).FieldByName f.Name).Type
          = (want f.Name).Type := by
      intro f hf
      obtain ⟨h1, h2, h3⟩ := h f (List.mem_cons_of_mem _ hf)
      refine ⟨h1, h2, ?_⟩
      by_cases hn : f.Name = field.Name
      · rw [hn, hself]
      · rw [FieldByName_setField_ne _ _ _ _ hn]; exact h3
    obtain ⟨r', hr', hmine, hother⟩ := ih (toVal.setField field.Name (want field.Name)) hinv
    have hloop : fillStructLoop fl m tags none (field :: rest) toVal = (r', .nil) := by
      unfold fillStructLoop
      simp only [hlook]
      by_cases hk : (Val.str tString (render (want field.Name))).kind
          = (toVal.FieldByName field.Name).kind
      · simp only [hk, if_true, hsame hk]
        exact hr'
      · simp only [hk, if_false, hdiff hk]
        exact hr'
    refine ⟨r', hloop, ?_, ?_⟩
    · intro f hf
      by_cases hin : f.Name ∈ rest.map (fun f => f.Name)
      · obtain ⟨g, hg, hgn⟩ := List.mem_map.mp hin
        have := hmine g hg
        rw [hgn] at this
        exact this
      · rcases List.mem_cons.mp hf with rfl | hf'
        · rw [hother _ hin, hself]
        · exact absurd (List.mem_map_of_mem (fun f => f.Name) hf') hin
    · intro name hname
      simp only [List.map_cons, List.mem_cons, not_or] at hname
      rw [hother name hname.2, FieldByName_setField_ne _ _ _ _ hname.1]

theorem FieldByName_type_of_same {l1 l2 : List (StructField × Val)}
    (h : List.Forall₂ (fun a b => a.1 = b.1 ∧ a.2.Type = b.2.Type) l1 l2) (name : String) :
    ((Record.mk l2).FieldByName name).Type = ((Record.mk l1).FieldByName name).Type := by
  induction h with
  | nil => rfl
  | @cons a b l1 l2 hab _ ih =>
    unfold Record.FieldByName at ih ⊢
    by_cases hn : a.1.Name = name
    · have hb : b.1.Name = name := by rw [← hab.1]; exact hn
      simp only [List.find?, hn, hb, decide_True]
      exact hab.2.symm
    · have hb : ¬ b.1.Name = name := by rw [← hab.1]; exact hn
      simp only [List.find?, hn, hb, decide_False]
      exact ih

theorem map_fst_of_same {l1 l2 : List (StructField × Val)}
    (h : List.Forall₂ (fun a b => a.1 = b.1 ∧ a.2.Type = b.2.Type) l1 l2) :
    l2.map (fun fv => fv.1) = l1.map (fun fv => fv.1) := by
  induction h with
  | nil => rfl
  | @cons a b l1 l2 hab _ ih => simp only [List.map_cons, ih, hab.1]

theorem isBSI_of_roundTrips (v : Val) (h : v.roundTrips = true) : v.isBSI = true := by
  cases v <;> simp [Val.roundTrips] at h <;> rfl

/-- Round trip on the records for which it holds: when every exported field is a Bool, a
string of the predeclared type `string` or a signed integer within its width, and no
padding tag is present, `FillMap` on an empty map returns nil, `FillStruct` of that map
into any record of the same type returns nil, and afterwards every exported field of the
target equals the field of the source. -/
theorem round_trip_scalar_records (fl : FloatOps) (r r2 : Record) (tagName : String)
    (hnodup : (r.fields.map (fun fv => fv.1.Name)).Nodup)
    (hsame : List.Forall₂ (fun a b => a.1 = b.1 ∧ a.2.Type = b.2.Type) r.fields r2.fields)
    (hkind : ∀ fv ∈ r.fields, fv.1.PkgPath = "" → fv.2.roundTrips = true)
    (hnopad : ∀ tags, Tags (.struct r) tagName = .ok tags → ∀ name t,
      GoMap.lookup tags name = some t →
        GoMap.lookup t "padleft" = none ∧ GoMap.lookup t "padright" = none) :
    ∃ m r2', FillMap fl (.struct r) [] tagName none = (m, .nil)
      ∧ FillStruct fl m (.ptr (.struct r2)) tagName none = (.ptr (.struct r2'), .nil)
      ∧ ∀ fv ∈ r.fields, fv.1.PkgPath = "" → r2'.FieldByName fv.1.Name = fv.2 := by
  obtain ⟨fields, hfields, hmem⟩ := mem_Fields (.struct r) r rfl
  have htags : Tags (.struct r) tagName = .ok (tagsLoop tagName [] fields) := by
    simp only [Tags, hfields]
  have hwant : ∀ f ∈ fields, (r.FieldByName f.Name).roundTrips = true := by
    intro f hf
    obtain ⟨hp, v, hv⟩ := (hmem f).mp hf
    have hF := FieldByName_of_mem r (f, v) hv hnodup
    simp only at hF
    rw [hF]; exact hkind (f, v) hv hp
  have hpre : ∀ f ∈ fields, (r.FieldByName f.Name).isBSI = true
      ∧ GoMap.lookup ((GoMap.lookup (tagsLoop tagName [] fields) f.Name).getD []) "padleft"
          = none
      ∧ GoMap.lookup ((GoMap.lookup (tagsLoop tagName [] fields) f.Name).getD []) "padright"
          = none := by
    intro f hf
    refine ⟨isBSI_of_roundTrips _ (hwant f hf), ?_⟩
    cases ht : GoMap.lookup (tagsLoop tagName [] fields) f.Name with
    | none => exact ⟨rfl, rfl⟩
    | some t => exact hnopad _ htags f.Name t ht
  obtain ⟨m, hm, _, hmine⟩ := fillMapLoop_scalars fl _ r fields [] hpre
  have hfields2 : Fields (.ptr (.struct r2)) = .ok fields := by
    have h1 : Fields (.struct r) = .ok
        ((r.fields.map (fun fv => fv.1)).filter (fun field => field.PkgPath = "")) := rfl
    rw [h1] at hfields
    cases hfields
    simp only [Fields, Value, map_fst_of_same hsame]
  obtain ⟨r2', hr2', hall, _⟩ := fillStructLoop_roundTrip fl m
    (tagsLoop tagName [] fields) r.FieldByName fields r2 (by
      intro f hf
      exact ⟨hmine f hf, hwant f hf, FieldByName_type_of_same hsame f.Name⟩)
  refine ⟨m, r2', ?_, ?_, ?_⟩
  · simp only [FillMap, if_false, htags, hfields, Value]
    exact hm
  · simp only [FillStruct, isPtr, Tags, hfields2, Value, hr2', Arg.withStruct]
  · intro fv hfv hp
    have hf : fv.1 ∈ fields := (hmem fv.1).mpr ⟨hp, fv.2, hfv⟩
    rw [hall fv.1 hf, FieldByName_of_mem r fv hfv hnodup]

/-- C1 (round trip, evaluated on a named string type): for `type MyStr string` and the
record `struct { S MyStr }` holding "abc", `FillMap` succeeds and writes {"S": "abc"}, and
`FillStruct` of that map into an empty record of the same type does not return: the kinds
of the map string and of the field are equal, the code takes the branch "same type", and
`reflect.Value.Set` panics because `string` is not assignable to `MyStr`. -/
theorem round_trip_named_string_panics :
    FillMap noFloat (.struct ⟨[(exported "S" [], .str ⟨"MyStr", []⟩ "abc")]⟩) [] "tag_name"
        none = ([("S", "abc")], .nil)
    ∧ FillStruct noFloat [("S", "abc")]
        (.ptr (.struct ⟨[(exported "S" [], .str ⟨"MyStr", []⟩ "")]⟩)) "tag_name" none
      = (.ptr (.struct ⟨[(exported "S" [], .str ⟨"MyStr", []⟩ "")]⟩),
          .panic "reflect.Set: value is not assignable") := by
  constructor
  · simp [FillMap, Tags, Fields, Value, exported, tagsLoop, StructField.TagGet,
      fillMapLoop, GoMap.lookup, GoMap.insert, Record.FieldByName, format, decodeString,
      getKind, Val.kind, kindNum, Val.asString, Val.SetString, Val.Interface, decode,
      decodePtr, Indirect, Val.Elem]
  · simp [FillStruct, isPtr, Tags, Fields, Value, exported, tagsLoop, StructField.TagGet,
      fillStructLoop, GoMap.lookup, Record.FieldByName, Val.kind, Val.Set, Val.Type,
      assignable, tString, predeclared, Arg.withStruct]

/-! ## Atomicity of decode on error -/

theorem SetBool_error (to_ : Val) (x : Bool) (to' : Val) (e : GoError)
    (h : to_.SetBool x = (to', .error e)) : to' = to_ := by
  cases to_ <;> simp [Val.SetBool] at h

theorem SetInt_error (to_ : Val) (x : Int) (to' : Val) (e : GoError)
    (h : to_.SetInt x = (to', .error e)) : to' = to_ := by
  cases to_ <;> simp [Val.SetInt] at h

theorem SetString_error (to_ : Val) (x : String) (to' : Val) (e : GoError)
    (h : to_.SetString x = (to', .error e)) : to' = to_ := by
  cases to_ <;> simp [Val.SetString] at h

theorem SetFloat_error (fl : FloatOps) (to_ : Val) (x : Nat) (to' : Val) (e : GoError)
    (h : to_.SetFloat fl x = (to', .error e)) : to' = to_ := by
  cases to_ <;> simp [Val.SetFloat] at h

theorem pair_error_fst {to_ to' : Val} {out : Outcome} {e : GoError}
    (h : (to_, out) = (to', Outcome.error e)) : to' = to_ := by
  cases h; rfl

theorem decodeBool_error (name : String) (from_ to_ to' : Val) (e : GoError)
    (h : decodeBool name from_ to_ = (to', .error e)) : to' = to_ := by
  unfold decodeBool at h
  split at h
  · exact SetBool_error _ _ _ _ h
  · exact SetBool_error _ _ _ _ h
  · split at h
    · exact SetBool_error _ _ _ _ h
    · split at h
      · exact SetBool_error _ _ _ _ h
      · exact pair_error_fst h
  · exact pair_error_fst h

theorem decodeString_error (fl : FloatOps) (name : String) (from_ to_ to' : Val)
    (e : GoError) (h : decodeString fl name from_ to_ = (to', .error e)) : to' = to_ := by
  unfold decodeString at h
  split at h
  · exact SetString_error _ _ _ _ h
  · split at h <;> exact SetString_error _ _ _ _ h
  · exact SetString_error _ _ _ _ h
  · exact SetString_error _ _ _ _ h
  · exact pair_error_fst h

theorem decodeInt_error (name : String) (from_ to_ to' : Val) (e : GoError)
    (h : decodeInt name from_ to_ = (to', .error e)) : to' = to_ := by
  unfold decodeInt at h
  split at h
  · exact SetInt_error _ _ _ _ h
  · split at h <;> exact SetInt_error _ _ _ _ h
  · simp only at h
    split at h
    · exact SetInt_error _ _ _ _ h
    · exact pair_error_fst h
  · exact pair_error_fst h

theorem decodeFloat_error (fl : FloatOps) (name : String) (from_ to_ to' : Val)
    (e : GoError) (h : decodeFloat fl name from_ to_ = (to', .error e)) : to' = to_ := by
  unfold decodeFloat at h
  split at h
  · exact SetFloat_error _ _ _ _ _ h
  · exact SetFloat_error _ _ _ _ _ h
  · split at h <;> exact SetFloat_error _ _ _ _ _ h
  · simp only at h
    split at h
    · exact SetFloat_error _ _ _ _ _ h
    · exact pair_error_fst h
  · exact pair_error_fst h

theorem decodeBasic_eq (fl : FloatOps) (name : String) (from_ to_ : Val) :
    decodeBasic fl name from_ to_ =
      match from_.Interface with
      | .panic msg => (to_, .panic msg)
      | .error e => (to_, .error e)
      | .ok data =>
        match to_ with
        | .iface n held =>
          if held ≠ .invalid then
            match decode fl name from_ (.ptr held) false with
            | (copy, .nil) =>
              match (Val.iface n held).Set copy.Elem with
              | .ok v => (v, .nil)
              | .error e => (to_, .error e)
              | .panic msg => (to_, .panic msg)
            | (_, out) => (to_, out)
          else
            let dataVal := data
            let dataVal :=
              if dataVal.kind = .Ptr ∧ dataVal.Type = some (.ptr (.iface n)) then
                Indirect dataVal
              else dataVal
            let dataVal := if ¬ dataVal.IsValid then Zero (.iface n) else dataVal
            match dataVal.Type with
            | some dataValType =>
              if ¬ assignable (.iface n) dataValType then
                (to_, .error (.expectedType name (.iface n) dataValType))
              else
                match (Val.iface n held).Set dataVal with
                | .ok v => (v, .nil)
                | .error e => (to_, .error e)
                | .panic msg => (to_, .panic msg)
            | none => (to_, .panic "reflect: call of reflect.Value.Type on zero Value")
        | _ => (to_, .panic "reflect: call of reflect.Value.Elem on a non-interface Value") := by
  delta decodeBasic decode decode._mutual
  rw [WellFounded.fix_eq]
  generalize WellFounded.fix _ _ = F
  cases to_ <;> cases from_.Interface <;> rfl

theorem decodeBasic_error (fl : FloatOps) (name : String) (from_ to_ to' : Val)
    (e : GoError) (h : decodeBasic fl name from_ to_ = (to', .error e)) : to' = to_ := by
  rw [decodeBasic_eq] at h
  simp only at h
  repeat' split at h
  all_goals first
    | exact pair_error_fst h
    | simp at h

theorem decodePtr_error (fl : FloatOps) (name : String) (from_ to_ : Val) (canSet : Bool)
    (to' : Val) (e : GoError)
    (ih : ∀ elem, to_ = .ptr elem → ∀ to2 e2,
      decode fl name from_ elem true = (to2, .error e2) → to2 = elem)
    (h : decodePtr fl name from_ to_ canSet = (to', .error e)) : to' = to_ := by
  cases to_ with
  | ptr elem =>
    rw [decodePtr] at h
    cases hI : from_.Interface with
    | panic m => rw [hI] at h; simp at h
    | error e1 => rw [hI] at h; exact pair_error_fst h
    | ok data =>
      rw [hI] at h
      simp only at h
      generalize (if data = Val.invalid then true else _) = b at h
      cases b with
      | true =>
        simp only [if_true] at h
        split at h
        · split at h
          · simp at h
          · simp at h
        · simp at h
      | false =>
        simp only [Bool.false_eq_true, if_false] at h
        rcases hd : decode fl name from_ elem true with ⟨e1, out⟩
        rw [hd] at h
        simp only [Prod.mk.injEq] at h
        rcases h with ⟨h1, h2⟩
        subst h2
        rw [ih elem rfl e1 e hd] at h1
        exact h1.symm
  | nilptr t =>
    rw [decodePtr] at h
    cases hI : from_.Interface with
    | panic m => rw [hI] at h; simp at h
    | error e1 => rw [hI] at h; exact pair_error_fst h
    | ok data =>
      rw [hI] at h
      simp only at h
      generalize (if data = Val.invalid then true else _) = b at h
      cases b with
      | true =>
        simp only [if_true] at h
        split at h
        · split at h
          · simp at h
          · simp at h
        · simp at h
      | false =>
        simp only [Bool.false_eq_true, if_false] at h
        split at h
        · split at h
          · simp at h
          · exact pair_error_fst h
        · exact pair_error_fst h
  | _ =>
    rw [decodePtr] at h
    case x_1 => intro _ hh; cases hh
    case x_2 => intro _ hh; cases hh
    cases hI : from_.Interface with
    | panic m => rw [hI] at h; simp at h
    | error e1 => rw [hI] at h; exact pair_error_fst h
    | ok data =>
      rw [hI] at h
      simp only at h
      generalize (if data = Val.invalid then true else _) = b at h
      cases b with
      | true =>
        simp only [if_true] at h
        split at h
        · split at h
          · simp at h
          · simp at h
        · simp at h
      | false => simp at h

theorem decode_error_unchanged (fl : FloatOps) (name : String) (from_ : Val) :
    ∀ (to_ : Val) (canSet : Bool) (to' : Val) (e : GoError),
      decode fl name from_ to_ canSet = (to', .error e) → to' = to_ := by
  intro to_
  induction to_ with
  | ptr elem ih =>
    intro canSet to' e h
    rw [decode] at h
    simp only [getKind, Val.kind, kindNum] at h
    simp at h
    exact decodePtr_error fl name from_ _ canSet to' e
      (fun elem2 heq to2 e2 hd => by cases heq; exact ih true to2 e2 hd) h
  | _ =>
    intro canSet to' e h
    rw [decode] at h
    split at h
    · exact decodeBool_error _ _ _ _ _ h
    · exact decodeBasic_error _ _ _ _ _ _ h
    · exact decodeString_error _ _ _ _ _ _ h
    · exact decodeInt_error _ _ _ _ _ h
    · exact decodeFloat_error _ _ _ _ _ _ h
    · exact decodePtr_error fl name from_ _ canSet to' e
        (fun elem2 heq => by cases heq) h
    · exact pair_error_fst h

/-- C19 (per-field atomicity of decode): whenever `decode` returns an error, for any field
name, source and target (of any kind, at any nesting of pointers and interfaces), the
target holds exactly the value it held before the call; in particular a nil pointer target
is still nil and a non-nil pointer target still has its pointee. -/
theorem decode_error_atomic (fl : FloatOps) (name : String) (from_ to_ to' : Val)
    (canSet : Bool) (e : GoError)
    (h : decode fl name from_ to_ canSet = (to', .error e)) :
    to' = to_
    ∧ (∀ t, to_ = .nilptr t → to' = .nilptr t)
    ∧ (∀ p, to_ = .ptr p → to' = .ptr p) := by
  have hu : to' = to_ := decode_error_unchanged fl name from_ to_ canSet to' e h
  subst hu
  exact ⟨rfl, fun _ ht => ht, fun _ hp => hp⟩

/-- Witness of C19: the string "x" does not parse as a bool; decoding it into a pointer to
a pointer to the bool true returns the parse error and the pointers and the pointee are as
before. -/
theorem decode_error_atomic_witness :
    decode noFloat "B" (.str tString "x") (.ptr (.ptr (.bool tBool true))) true
        = (.ptr (.ptr (.bool tBool true)), .error (.cannotParse "B" "bool" .ErrSyntax))
    ∧ (.ptr (.ptr (.bool tBool true)) : Val) = .ptr (.ptr (.bool tBool true)) :=
  have h : decode noFloat "B" (.str tString "x") (.ptr (.ptr (.bool tBool true))) true
      = (.ptr (.ptr (.bool tBool true)), .error (.cannotParse "B" "bool" .ErrSyntax)) := by
    simp [decode, decodePtr, getKind, kindNum, Val.kind, decodeBool, ParseBool,
      Val.asString, Val.SetBool, Val.Interface, Indirect, Val.IsNil, tString, tBool,
      predeclared]
  ⟨h, (decode_error_atomic noFloat "B" (.str tString "x") (.ptr (.ptr (.bool tBool true)))
    (.ptr (.ptr (.bool tBool true))) true (.cannotParse "B" "bool" .ErrSyntax) h).1⟩

/-! ## Zero-padded integers -/

/-- C18 (zero-padded integers do not round-trip): for the record of `TestFormatting` with
the int64 field 10, `FillMap` writes "0000000010" under `PadLeftInt`, and `FillStruct` of
that map into a record of the same type sets the field to 8, since `ParseInt` with base 0
reads a leading 0 as octal; for the value 9 `FillMap` writes "0000000009" and `FillStruct`
returns the parse error for `PadLeftInt`. -/
theorem zero_padded_int_no_round_trip :
    FillMap noFloat (.struct (testFormatting "abc" 10)) [] "mytag" none
      = ([("PadLeft", "       abc"), ("PadLeftCustom", "0000000abc"),
          ("PadRight", "abc       "), ("PadRightCustom", "abc0000000"),
          ("PadLeftInt", "0000000010")], .nil)
    ∧ FillStruct noFloat [("PadLeft", "       abc"), ("PadLeftCustom", "0000000abc"),
          ("PadRight", "abc       "), ("PadRightCustom", "abc0000000"),
          ("PadLeftInt", "0000000010")]
        (.ptr (.struct (testFormatting "" 0))) "mytag" none
      = (.ptr (.struct ⟨[
          (exported "PadLeft" [("mytag", "start=0,end=9,padleft")], .str tString "       abc"),
          (exported "PadLeftCustom" [("mytag", "start=0,end=9,padleft=0")],
            .str tString "0000000abc"),
          (exported "PadRight" [("mytag", "start=0,end=9,padright")], .str tString "abc       "),
          (exported "PadRightCustom" [("mytag", "start=0,end=9,padright=0")],
            .str tString "abc0000000"),
          (exported "PadLeftInt" [("mytag", "start=0,end=9,padleft=0")],
            .int (predeclared "int64") .int64 8)]⟩), .nil)
    ∧ ParseInt "0000000010" 0 64 = (8, none)
    ∧ FillMap noFloat (.struct (testFormatting "abc" 9)) [] "mytag" none
      = ([("PadLeft", "       abc"), ("PadLeftCustom", "0000000abc"),
          ("PadRight", "abc       "), ("PadRightCustom", "abc0000000"),
          ("PadLeftInt", "0000000009")], .nil)
    ∧ (FillStruct noFloat [("PadLeft", "       abc"), ("PadLeftCustom", "0000000abc"),
          ("PadRight", "abc       "), ("PadRightCustom", "abc0000000"),
          ("PadLeftInt", "0000000009")]
        (.ptr (.struct (testFormatting "" 0))) "mytag" none).2
      = .error (.cannotParse "PadLeftInt" "int" .ErrSyntax) := by
  refine ⟨?_, ?_, by decide, ?_, ?_⟩
  · simp [FillMap, Tags, Fields, Value, testFormatting, exported, tagsLoop,
      StructField.TagGet, GoMap.lookup, GoMap.insert, fillMapLoop, decode, decodePtr]
    decide
  · simp [FillStruct, isPtr, Tags, Fields, Value, testFormatting, exported, tagsLoop,
      StructField.TagGet, fillStructLoop, GoMap.lookup, GoMap.insert, Record.FieldByName,
      Val.kind, Val.Set, Val.Type, Record.setField, setFieldIn, decode, getKind, kindNum,
      decodeInt, IntKind.toKind, Val.asString, Val.SetInt, Val.Bits, IntKind.Bits,
      Arg.withStruct]
    decide
  · simp [FillMap, Tags, Fields, Value, testFormatting, exported, tagsLoop,
      StructField.TagGet, GoMap.lookup, GoMap.insert, fillMapLoop, decode, decodePtr]
    decide
  · simp [FillStruct, isPtr, Tags, Fields, Value, testFormatting, exported, tagsLoop,
      StructField.TagGet, fillStructLoop, GoMap.lookup, GoMap.insert, Record.FieldByName,
      Val.kind, Val.Set, Val.Type, Record.setField, setFieldIn, decode, getKind, kindNum,
      decodeInt, IntKind.toKind, Val.asString, Val.SetInt, Val.Bits, IntKind.Bits,
      Arg.withStruct]
    decide

/-! ## FillStruct: the precondition -/

theorem Value_ok_or_panic (a : Arg) :
    (∃ r, Value a = .ok r) ∨ Value a = .panic "not a struct" := by
  induction a with
  | ptr a ih => simpa [Value] using ih
  | struct r => exact Or.inl ⟨r, rfl⟩
  | _ => exact Or.inr rfl

/-- C15 (FillStruct precondition): when the target argument is not a pointer that leads to
a record, `FillStruct` fails for every source map, tag name and hook: with the returned
error "must be a pointer" when the argument is not a non-nil pointer, with the panic
"not a struct" when it is a pointer to something that is not a record.  The target is
returned as it was, and the hook is not called. -/
theorem FillStruct_precondition (fl : FloatOps) (from_ : GoMap String) (to_ : Arg)
    (tagName : String) (decoder : Option Hook) (d : Hook)
    (hbad : ∀ a r, to_ = .ptr a → Value a ≠ .ok r) :
    FillStruct fl from_ to_ tagName decoder
      = (to_, match to_ with
          | .ptr _ => .panic "not a struct"
          | _ => .error .mustBePointer)
    ∧ FillStructT fl from_ to_ tagName d
      = ((to_, match to_ with
          | .ptr _ => .panic "not a struct"
          | _ => .error .mustBePointer), []) := by
  cases to_ with
  | ptr a =>
    have hv : Value a = .panic "not a struct" := by
      rcases Value_ok_or_panic a with ⟨r, hr⟩ | hp
      · exact absurd hr (hbad a r rfl)
      · exact hp
    simp [FillStruct, FillStructT, isPtr, Tags, Fields, Value, hv]
  | _ => simp [FillStruct, FillStructT, isPtr]

/-- Witness of C15: a record passed by value is refused with the error, a pointer to a
string with the panic; the hook, which would panic, is not called. -/
theorem FillStruct_precondition_witness :
    FillStruct noFloat [("A", "1")] (.struct ⟨[(exported "A" [], .bool tBool false)]⟩) "t"
        (some (fun _ _ _ => .panic "hook called"))
      = (.struct ⟨[(exported "A" [], .bool tBool false)]⟩, .error .mustBePointer)
    ∧ FillStructT noFloat [("A", "1")] (.ptr (.scalar (.str tString "x"))) "t"
        (fun _ _ _ => .panic "hook called")
      = ((.ptr (.scalar (.str tString "x")), .panic "not a struct"), []) :=
  ⟨(FillStruct_precondition noFloat [("A", "1")]
      (.struct ⟨[(exported "A" [], .bool tBool false)]⟩) "t"
      (some (fun _ _ _ => .panic "hook called")) (fun _ _ _ => .panic "hook called")
      (fun a r h => by cases h)).1,
   (FillStruct_precondition noFloat [("A", "1")] (.ptr (.scalar (.str tString "x"))) "t"
      none (fun _ _ _ => .panic "hook called")
      (fun a r h => by cases h; simp [Value])).2⟩

/-! ## FillStruct: pointer fields -/

theorem setField_FieldByName (r : Record) (name : String) :
    r.setField name (r.FieldByName name) = r := by
  obtain ⟨l⟩ := r
  unfold Record.setField Record.FieldByName
  simp only [Record.mk.injEq]
  induction l with
  | nil => rfl
  | cons a l ih =>
    unfold setFieldIn
    by_cases ha : a.1.Name = name
    · simp [ha, List.find?]
    · simp only [ha, if_false, List.find?, decide_False]
      rw [ih]

theorem getKind_str (tn : TName) (s : String) : getKind (.str tn s) = .String := by
  simp [getKind, Val.kind, kindNum]

theorem getKind_bool (n : TName) (b : Bool) : getKind (.bool n b) = .Bool := by
  simp [getKind, Val.kind, kindNum]

theorem getKind_int (n : TName) (k : IntKind) (i : Int) : getKind (.int n k i) = .Int := by
  cases k <;> simp [getKind, Val.kind, kindNum, IntKind.toKind]

theorem decode_str_no_panic (fl : FloatOps) (name : String) (tn : TName) (s : String)
    (e : Val) (canSet : Bool) (he : e.isBSI = true) (msg : String) :
    (decode fl name (.str tn s) e canSet).2 ≠ .panic msg := by
  cases e <;> simp [Val.isBSI] at he
  · rw [decode]
    simp only [getKind_bool, decodeBool, getKind_str]
    split
    · simp [Val.SetBool]
    · split <;> simp [Val.SetBool]
  · rw [decode]
    simp only [getKind_int, decodeInt, getKind_str]
    split <;> simp [Val.SetInt]
  · rw [decode]
    simp [getKind_str, decodeString, Val.asString, Val.SetString]

theorem decode_str_ptr (fl : FloatOps) (name : String) (tn : TName) (s : String)
    (e : Val) (canSet : Bool) :
    decode fl name (.str tn s) (.ptr e) canSet
      = ((.ptr (decode fl name (.str tn s) e true).1),
          (decode fl name (.str tn s) e true).2) := by
  rw [decode]
  simp only [getKind, Val.kind, kindNum]
  rw [decodePtr]
  simp [Val.Interface, Indirect, Val.kind]

theorem decode_str_nilptr (fl : FloatOps) (name : String) (tn : TName) (s : String)
    (t : Ty) :
    decode fl name (.str tn s) (.nilptr t) true
      = match decode fl name (.str tn s) (Zero t) true with
        | (e', .nil) => (.ptr e', .nil)
        | (_, out) => (.nilptr t, out) := by
  rw [decode]
  simp only [getKind, Val.kind, kindNum]
  rw [decodePtr]
  simp [Val.Interface, Indirect, Val.kind]

theorem fillStructLoop_append (fl : FloatOps) (from_ : GoMap String)
    (tags : GoMap (GoMap String)) (decoder : Option Hook) :
    ∀ (pre post : List StructField) (toVal : Record),
      fillStructLoop fl from_ tags decoder (pre ++ post) toVal
        = match fillStructLoop fl from_ tags decoder pre toVal with
          | (r1, .nil) => fillStructLoop fl from_ tags decoder post r1
          | res => res := by
  intro pre
  induction pre with
  | nil => intro post toVal; simp [fillStructLoop]
  | cons field rest ih =>
    intro post toVal
    simp only [List.cons_append, fillStructLoop]
    split
    · exact ih post toVal
    · split
      · split
        · exact ih post _
        · rfl
        · rfl
      · split
        · rfl
        · rfl
        · split
          · exact ih post _
          · rename_i f out hne heq
            cases out with
            | nil => exact absurd rfl hne
            | error e => rfl
            | panic m => rfl

theorem fillStructLoop_pointer_step (fl : FloatOps) (from_ : GoMap String)
    (tags : GoMap (GoMap String)) (field : StructField) (rest : List StructField)
    (toVal : Record) (s : String)
    (hs : GoMap.lookup from_ field.Name = some s)
    (hp : (toVal.FieldByName field.Name).isPtrToBSI = true) :
    fillStructLoop fl from_ tags none (field :: rest) toVal
      = match decode fl field.Name (.str tString s) (toVal.FieldByName field.Name).slot
            true with
        | (v, .nil) =>
          fillStructLoop fl from_ tags none rest (toVal.setField field.Name (.ptr v))
        | (_, out) => (toVal, out) := by
  simp only [fillStructLoop, hs]
  have hself := setField_FieldByName toVal field.Name
  generalize toVal.FieldByName field.Name = p at hp hself ⊢
  cases p <;> simp [Val.isPtrToBSI] at hp
  · rename_i t
    have hz : (Zero t).isBSI = true := by cases t <;> simp [Ty.isBSI] at hp <;> rfl
    have hnp := decode_str_no_panic fl field.Name tString s (Zero t) true hz
    simp only [Val.kind, Val.slot, decode_str_nilptr]
    simp only [reduceCtorEq, if_false]
    rcases hd : decode fl field.Name (.str tString s) (Zero t) true with ⟨v, out⟩
    rw [hd] at hnp
    cases out with
    | nil => rfl
    | error e => simp [hself]
    | panic m => exact absurd rfl (hnp m)
  · rename_i e
    have hnp := decode_str_no_panic fl field.Name tString s e true hp
    simp only [Val.kind, Val.slot, decode_str_ptr]
    simp only [reduceCtorEq, if_false]
    rcases hd : decode fl field.Name (.str tString s) e true with ⟨v, out⟩
    rw [hd] at hnp
    cases out with
    | nil => rfl
    | error err =>
      have hv := decode_error_unchanged fl field.Name (.str tString s) e true v err hd
      subst hv
      simp [hself]
    | panic m => exact absurd rfl (hnp m)

theorem fillStructLoop_frame (fl : FloatOps) (from_ : GoMap String)
    (tags : GoMap (GoMap String)) (decoder : Option Hook) (name : String) :
    ∀ (fields : List StructField) (toVal : Record),
      name ∉ fields.map (fun f => f.Name) →
      (fillStructLoop fl from_ tags decoder fields toVal).1.FieldByName name
        = toVal.FieldByName name := by
  intro fields
  induction fields with
  | nil => intro toVal _; rfl
  | cons field rest ih =>
    intro toVal hn
    simp only [List.map_cons, List.mem_cons, not_or] at hn
    obtain ⟨hne, hrest⟩ := hn
    simp only [fillStructLoop]
    split
    · exact ih toVal hrest
    · split
      · split
        · rw [ih _ hrest, FieldByName_setField_ne _ _ _ _ hne]
        · rfl
        · rfl
      · split
        · rfl
        · rfl
        · split
          · rw [ih _ hrest, FieldByName_setField_ne _ _ _ _ hne]
          · exact FieldByName_setField_ne _ _ _ _ hne

theorem FillStruct_ptr_struct (fl : FloatOps) (from_ : GoMap String) (r : Record)
    (tagName : String) (decoder : Option Hook) :
    FillStruct fl from_ (.ptr (.struct r)) tagName decoder
      = (.ptr (.struct (fillStructLoop fl from_ (tagsLoop tagName [] (exportedFields r))
            decoder (exportedFields r) r).1),
          (fillStructLoop fl from_ (tagsLoop tagName [] (exportedFields r))
            decoder (exportedFields r) r).2) := by
  simp [FillStruct, isPtr, Tags, Fields, Value, Arg.withStruct, exportedFields]

theorem isPtrToBSI_ne_invalid (p : Val) (hp : p.isPtrToBSI = true) : p ≠ .invalid := by
  intro h; rw [h] at hp; simp [Val.isPtrToBSI] at hp

theorem decode_str_pointer (fl : FloatOps) (name : String) (s : String) (p : Val)
    (hp : p.isPtrToBSI = true) :
    decode fl name (.str tString s) p true
      = match decode fl name (.str tString s) p.slot true with
        | (v, .nil) => (.ptr v, .nil)
        | (_, out) => (p, out) := by
  cases p <;> simp [Val.isPtrToBSI] at hp
  · rw [decode_str_nilptr]; rfl
  · rename_i e
    rw [decode_str_ptr]
    simp only [Val.slot]
    rcases hd : decode fl name (.str tString s) e true with ⟨v, out⟩
    cases out with
    | nil => rfl
    | error err =>
      have hv := decode_error_unchanged fl name (.str tString s) e true v err hd
      subst hv; rfl
    | panic m =>
      have hnp := decode_str_no_panic fl name tString s e true hp m
      rw [hd] at hnp
      exact absurd rfl hnp

/-- C11 (optional target): let a record have the exported field `field`, a pointer (nil or
not) to a Bool, a signed integer or a String, and let the source map hold the string `s`
under its name.  Decoding `s` into the pointer gives a non-nil pointer to `v` when decoding
`s` into the pointee (a fresh zero value when the pointer is nil) yields `v`, and returns
the same error, target unchanged, when that fails.  When `FillStruct` without a hook
returns nil, the field points to that `v`.  When decoding `s` into the pointee fails with
an error, `FillStruct` does not return nil, the field is as before, and the returned error
is that error when the rounds of the fields before it end without error. -/
theorem FillStruct_pointer_field (fl : FloatOps) (from_ : GoMap String) (r : Record)
    (tagName : String) (pre post : List StructField) (field : StructField) (s : String)
    (hsplit : exportedFields r = pre ++ field :: post)
    (hnd : (exportedNames r).Nodup)
    (hs : GoMap.lookup from_ field.Name = some s)
    (hp : (r.FieldByName field.Name).isPtrToBSI = true) :
    decode fl field.Name (.str tString s) (r.FieldByName field.Name) true
      = (match decode fl field.Name (.str tString s) (r.FieldByName field.Name).slot
            true with
        | (v, .nil) => (.ptr v, .nil)
        | (_, out) => (r.FieldByName field.Name, out))
    ∧ (∀ r', FillStruct fl from_ (.ptr (.struct r)) tagName none
          = (.ptr (.struct r'), .nil) →
        ∃ v, decode fl field.Name (.str tString s) (r.FieldByName field.Name).slot true
            = (v, .nil)
          ∧ r'.FieldByName field.Name = .ptr v)
    ∧ (∀ x e, decode fl field.Name (.str tString s) (r.FieldByName field.Name).slot true
          = (x, .error e) →
        (FillStruct fl from_ (.ptr (.struct r)) tagName none).2 ≠ .nil
        ∧ (∀ r', (FillStruct fl from_ (.ptr (.struct r)) tagName none).1
              = .ptr (.struct r') →
            r'.FieldByName field.Name = r.FieldByName field.Name)
        ∧ ((fillStructLoop fl from_ (tagsLoop tagName [] (exportedFields r)) none pre r).2
              = .nil →
            (FillStruct fl from_ (.ptr (.struct r)) tagName none).2 = .error e)) := by
  have hnd2 : ((pre ++ field :: post).map (fun f => f.Name)).Nodup := by
    rw [← hsplit]; exact hnd
  rw [List.map_append, List.map_cons, List.nodup_append] at hnd2
  obtain ⟨_, hnd3, hdisj⟩ := hnd2
  have hpre : field.Name ∉ pre.map (fun f => f.Name) := fun h =>
    hdisj h (List.mem_cons_self _ _)
  have hpost : field.Name ∉ post.map (fun f => f.Name) := (List.nodup_cons.mp hnd3).1
  rw [FillStruct_ptr_struct, hsplit, fillStructLoop_append]
  generalize tagsLoop tagName [] (pre ++ field :: post) = tags
  have hframe := fillStructLoop_frame fl from_ tags none field.Name pre r hpre
  rcases hl : fillStructLoop fl from_ tags none pre r with ⟨r1, o1⟩
  rw [hl] at hframe
  simp only at hframe
  have hp1 : (r1.FieldByName field.Name).isPtrToBSI = true := by rw [hframe]; exact hp
  have hstep := fillStructLoop_pointer_step fl from_ tags field post r1 s hs hp1
  rw [hframe] at hstep
  refine ⟨decode_str_pointer fl field.Name s _ hp, ?_, ?_⟩
  · intro r' hfs
    cases o1 with
    | nil =>
      simp only [hstep] at hfs
      rcases hd : decode fl field.Name (.str tString s) (r.FieldByName field.Name).slot
        true with ⟨v, o2⟩
      rw [hd] at hfs
      cases o2 with
      | nil =>
        simp only [Prod.mk.injEq, Val.ptr.injEq] at hfs
        refine ⟨v, rfl, ?_⟩
        have hfr := fillStructLoop_frame fl from_ tags none field.Name post
          (r1.setField field.Name (.ptr v)) hpost
        have h1 : (fillStructLoop fl from_ tags none post
            (r1.setField field.Name (.ptr v))).1 = r' := by
          have := hfs.1
          simpa using this
        rw [h1] at hfr
        rw [hfr]
        exact FieldByName_setField_self r1 field.Name (.ptr v)
          (isPtrToBSI_ne_invalid _ hp1)
      | error e => simp at hfs
      | panic m => simp at hfs
    | error e => simp at hfs
    | panic m => simp at hfs
  · intro x e hd
    cases o1 with
    | nil =>
      simp only [hstep, hd]
      refine ⟨by simp, ?_, by simp⟩
      intro r' hr'
      simp only [Arg.ptr.injEq, Arg.struct.injEq] at hr'
      rw [← hr']
      exact hframe
    | error e1 =>
      refine ⟨by simp, ?_, fun h => by simp at h⟩
      intro r' hr'
      simp only [Arg.ptr.injEq, Arg.struct.injEq] at hr'
      rw [← hr']
      exact hframe
    | panic m =>
      refine ⟨by simp, ?_, fun h => by simp at h⟩
      intro r' hr'
      simp only [Arg.ptr.injEq, Arg.struct.injEq] at hr'
      rw [← hr']
      exact hframe

/-- Witness of C11: `FillStruct` with the map of `TestFillStruct` returns nil, and the nil
`*bool` field `TestBoolPtr` ends up pointing to true, the value that decoding "1" into a
fresh bool yields. -/
theorem FillStruct_pointer_field_witness :
    ∃ v, decode noFloat "TestBoolPtr" (.str tString "1")
          ((testFillStruct "" false (.nilptr (.bool tBool))).FieldByName "TestBoolPtr").slot
          true = (v, .nil)
      ∧ (testFillStruct "abc" true (.ptr (.bool tBool true))).FieldByName "TestBoolPtr"
          = .ptr v :=
  (FillStruct_pointer_field noFloat
    [("TestString", "abc"), ("TestBool", "true"), ("TestBoolPtr", "1")]
    (testFillStruct "" false (.nilptr (.bool tBool))) "tag_name"
    [exported "TestString" [], exported "TestBool" []] [] (exported "TestBoolPtr" []) "1"
    (by decide) (by decide) (by decide) (by decide)).2.1
    (testFillStruct "abc" true (.ptr (.bool tBool true)))
    (by
      simp [FillStruct, isPtr, Tags, Fields, Value, testFillStruct, exported, tagsLoop,
        StructField.TagGet, fillStructLoop, GoMap.lookup, Record.FieldByName, Val.kind,
        Val.Set, Val.Type, Record.setField, setFieldIn, decode, decodePtr, getKind, kindNum,
        decodeBool, ParseBool, Val.asString, Val.SetBool, Val.Interface, Indirect, Zero,
        Arg.withStruct, tString, tBool, predeclared])

/-! ## FillMap: the loop, field by field -/

theorem fillMapLoop_cons (fl : FloatOps) (tags : GoMap (GoMap String)) (r : Record)
    (decoder : Option Hook) (field : StructField) (rest : List StructField)
    (m : GoMap String) :
    fillMapLoop fl tags r decoder (field :: rest) m
      = match fillMapField fl tags r decoder field.Name with
        | .ok s => fillMapLoop fl tags r decoder rest (GoMap.insert m field.Name s)
        | .error e => (m, .error e)
        | .panic msg => (m, .panic msg) := by
  simp only [fillMapLoop, fillMapField]
  split
  · rfl
  · rfl
  · split
    · rfl
    · rfl
    · generalize decode fl field.Name _ _ false = res
      obtain ⟨o, out⟩ := res
      cases out <;> rfl

theorem fillMapLoop_ok (fl : FloatOps) (tags : GoMap (GoMap String)) (r : Record)
    (decoder : Option Hook) (out : String → String) :
    ∀ (fields : List StructField) (m : GoMap String),
      (∀ f ∈ fields, fillMapField fl tags r decoder f.Name = .ok (out f.Name)) →
      fillMapLoop fl tags r decoder fields m
        = (GoMap.insertAll m (fields.map (fun f => (f.Name, out f.Name))), .nil) := by
  intro fields
  induction fields with
  | nil => intro m _; rfl
  | cons field rest ih =>
    intro m h
    rw [fillMapLoop_cons, h field (List.mem_cons_self _ _)]
    simp only [List.map_cons, GoMap.insertAll]
    exact ih _ (fun f hf => h f (List.mem_cons_of_mem _ hf))

theorem fillMapLoop_stop (fl : FloatOps) (tags : GoMap (GoMap String)) (r : Record)
    (decoder : Option Hook) (out : String → String) (field : StructField)
    (post : List StructField) :
    ∀ (pre : List StructField) (m : GoMap String),
      (∀ f ∈ pre, fillMapField fl tags r decoder f.Name = .ok (out f.Name)) →
      fillMapLoop fl tags r decoder (pre ++ field :: post) m
        = match fillMapField fl tags r decoder field.Name with
          | .ok s =>
            fillMapLoop fl tags r decoder post
              (GoMap.insert (GoMap.insertAll m (pre.map (fun f => (f.Name, out f.Name))))
                field.Name s)
          | .error e =>
            (GoMap.insertAll m (pre.map (fun f => (f.Name, out f.Name))), .error e)
          | .panic msg =>
            (GoMap.insertAll m (pre.map (fun f => (f.Name, out f.Name))), .panic msg) := by
  intro pre
  induction pre with
  | nil =>
    intro m _
    simp only [List.nil_append, List.map_nil, GoMap.insertAll]
    exact fillMapLoop_cons fl tags r decoder field post m
  | cons g rest ih =>
    intro m h
    rw [List.cons_append, fillMapLoop_cons, h g (List.mem_cons_self _ _)]
    simp only [List.map_cons, GoMap.insertAll]
    exact ih _ (fun f hf => h f (List.mem_cons_of_mem _ hf))

theorem lookup_insertAll_not_mem {α : Type} (k : String) :
    ∀ (ws : List (String × α)) (m : GoMap α), k ∉ ws.map (fun kv => kv.1) →
      GoMap.lookup (GoMap.insertAll m ws) k = GoMap.lookup m k := by
  intro ws
  induction ws with
  | nil => intro m _; rfl
  | cons kv rest ih =>
    intro m h
    obtain ⟨k1, v1⟩ := kv
    simp only [List.map_cons, List.mem_cons, not_or] at h
    simp only [GoMap.insertAll]
    rw [ih _ h.2, lookup_insert_ne _ _ _ _ h.1]

theorem lookup_insertAll_mem {α : Type} (val : String → α) (k : String) :
    ∀ (ws : List (String × α)) (m : GoMap α), (∀ kv ∈ ws, kv.2 = val kv.1) →
      k ∈ ws.map (fun kv => kv.1) →
      GoMap.lookup (GoMap.insertAll m ws) k = some (val k) := by
  intro ws
  induction ws with
  | nil => intro m _ hk; simp at hk
  | cons kv rest ih =>
    intro m hval hk
    obtain ⟨k1, v1⟩ := kv
    simp only [GoMap.insertAll]
    by_cases hrest : k ∈ rest.map (fun kv => kv.1)
    · exact ih _ (fun kv hkv => hval kv (List.mem_cons_of_mem _ hkv)) hrest
    · rw [lookup_insertAll_not_mem k rest _ hrest]
      simp only [List.map_cons, List.mem_cons] at hk
      rcases hk with hk | hk
      · subst hk
        have := hval (k, v1) (List.mem_cons_self _ _)
        simp only at this
        rw [this]
        exact lookup_insert_self _ _ _
      · exact absurd hk hrest

theorem Fields_of_Value (s : Arg) (r : Record) (hr : Value s = .ok r) :
    Fields s = .ok (exportedFields r) := by
  simp [Fields, hr, exportedFields]

theorem Tags_of_Value (s : Arg) (key : String) (r : Record) (hr : Value s = .ok r) :
    Tags s key = .ok (tagsLoop key [] (exportedFields r)) := by
  simp [Tags, Fields_of_Value s r hr]

theorem FillMap_of_Value (fl : FloatOps) (from_ : Arg) (m : GoMap String)
    (tagName : String) (decoder : Option Hook) (r : Record) (hr : Value from_ = .ok r) :
    FillMap fl from_ m tagName decoder
      = fillMapLoop fl (tagsLoop tagName [] (exportedFields r)) r decoder
          (exportedFields r) m := by
  have hne : from_ ≠ .nil := by intro h; rw [h] at hr; simp [Value] at hr
  simp [FillMap, hne, Tags_of_Value from_ tagName r hr, Fields_of_Value from_ r hr, hr]

theorem fillMapString_of_ok (fl : FloatOps) (tags : GoMap (GoMap String)) (r : Record)
    (decoder : Option Hook) (name s : String)
    (h : fillMapField fl tags r decoder name = .ok s) :
    fillMapString fl tags r decoder name = s := by
  simp [fillMapString, h]

theorem fillMapLoop_nil_inv (fl : FloatOps) (tags : GoMap (GoMap String)) (r : Record)
    (decoder : Option Hook) :
    ∀ (fields : List StructField) (m m' : GoMap String),
      fillMapLoop fl tags r decoder fields m = (m', .nil) →
      ∀ f ∈ fields, fillMapField fl tags r decoder f.Name
        = .ok (fillMapString fl tags r decoder f.Name) := by
  intro fields
  induction fields with
  | nil => intro m m' _ f hf; cases hf
  | cons field rest ih =>
    intro m m' h f hf
    rw [fillMapLoop_cons] at h
    cases hfield : fillMapField fl tags r decoder field.Name with
    | ok s =>
      rw [hfield] at h
      simp only at h
      rcases List.mem_cons.mp hf with hf | hf
      · subst hf
        rw [fillMapString_of_ok _ _ _ _ _ _ hfield]
        exact hfield
      · exact ih _ _ h f hf
    | error e => rw [hfield] at h; simp at h
    | panic msg => rw [hfield] at h; simp at h

/-! ## FillMap: key coverage and abort without rollback -/

/-- C13 (key coverage): when `FillMap` returns nil, for any record, target map and hook,
the name of every exported field of the record (tagged or not) is a key of the target map,
and the entry of every key that is not the name of an exported field is what it was before
the call; when the record argument is nil, `FillMap` returns nil and the map is as it
was. -/
theorem FillMap_key_coverage (fl : FloatOps) (from_ : Arg) (m m' : GoMap String)
    (tagName : String) (decoder : Option Hook) (r : Record)
    (hr : Value from_ = .ok r)
    (h : FillMap fl from_ m tagName decoder = (m', .nil)) :
    (∀ name ∈ exportedNames r, ∃ s, GoMap.lookup m' name = some s)
    ∧ (∀ k, k ∉ exportedNames r → GoMap.lookup m' k = GoMap.lookup m k)
    ∧ FillMap fl .nil m tagName decoder = (m, .nil) := by
  rw [FillMap_of_Value fl from_ m tagName decoder r hr] at h
  generalize tagsLoop tagName [] (exportedFields r) = tags at h
  have hall := fillMapLoop_nil_inv fl tags r decoder (exportedFields r) m m' h
  rw [fillMapLoop_ok fl tags r decoder (fillMapString fl tags r decoder)
    (exportedFields r) m hall] at h
  have hm : m' = GoMap.insertAll m ((exportedFields r).map
      (fun f => (f.Name, fillMapString fl tags r decoder f.Name))) := by
    simpa using (congrArg Prod.fst h).symm
  have hkeys : ((exportedFields r).map
      (fun f => (f.Name, fillMapString fl tags r decoder f.Name))).map (fun kv => kv.1)
      = exportedNames r := by
    simp [exportedNames, List.map_map, Function.comp_def]
  refine ⟨?_, ?_, by simp [FillMap]⟩
  · intro name hname
    refine ⟨fillMapString fl tags r decoder name, ?_⟩
    rw [hm]
    apply lookup_insertAll_mem (fillMapString fl tags r decoder) name
    · intro kv hkv
      obtain ⟨f, _, hf⟩ := List.mem_map.mp hkv
      rw [← hf]
    · rw [hkeys]; exact hname
  · intro k hk
    rw [hm]
    apply lookup_insertAll_not_mem
    rw [hkeys]; exact hk

/-- Witness of C13: `FillMap` of the record of `TestFillMapWithDecoder` into a map that
holds an entry `Other` returns nil; `TestBool` is then a key, and `Other` is as before. -/
theorem FillMap_key_coverage_witness :
    (∀ name ∈ exportedNames ⟨[(exported "TestBool" [], .bool tBool true)]⟩,
        ∃ s, GoMap.lookup [("Other", "x"), ("TestBool", "1")] name = some s)
    ∧ (∀ k, k ∉ exportedNames ⟨[(exported "TestBool" [], .bool tBool true)]⟩ →
        GoMap.lookup [("Other", "x"), ("TestBool", "1")] k
          = GoMap.lookup [("Other", "x")] k)
    ∧ FillMap noFloat .nil [("Other", "x")] "tag_name" none = ([("Other", "x")], .nil) :=
  FillMap_key_coverage noFloat (.struct ⟨[(exported "TestBool" [], .bool tBool true)]⟩)
    [("Other", "x")] [("Other", "x"), ("TestBool", "1")] "tag_name" none
    ⟨[(exported "TestBool" [], .bool tBool true)]⟩ rfl
    (by
      simp [FillMap, Tags, Fields, Value, exported, tagsLoop, StructField.TagGet,
        GoMap.lookup, GoMap.insert, fillMapLoop, decode, decodePtr]
      decide)

/-- C14 (FillMap abort without rollback): let the rounds of the exported fields before
`field` succeed and let the round of `field` end with the error `e`, of the hook or of the
coercion.  Then `FillMap` returns `e`; the map holds, for every field before `field`, the
string its round stored; and the entries of `field` and of all later fields, like those of
all other keys, are as they were before the call. -/
theorem FillMap_abort_no_rollback (fl : FloatOps) (from_ : Arg) (m : GoMap String)
    (tagName : String) (decoder : Option Hook) (r : Record) (tags : GoMap (GoMap String))
    (pre post : List StructField) (field : StructField) (e : GoError)
    (hr : Value from_ = .ok r) (htags : Tags from_ tagName = .ok tags)
    (hsplit : exportedFields r = pre ++ field :: post)
    (hnd : (exportedNames r).Nodup)
    (hpre : ∀ g ∈ pre, ∃ s, fillMapField fl tags r decoder g.Name = .ok s)
    (hfail : fillMapField fl tags r decoder field.Name = .error e) :
    (FillMap fl from_ m tagName decoder).2 = .error e
    ∧ (∀ g ∈ pre, ∀ s, fillMapField fl tags r decoder g.Name = .ok s →
        GoMap.lookup (FillMap fl from_ m tagName decoder).1 g.Name = some s)
    ∧ (∀ g ∈ field :: post,
        GoMap.lookup (FillMap fl from_ m tagName decoder).1 g.Name = GoMap.lookup m g.Name)
    ∧ (∀ k, k ∉ exportedNames r →
        GoMap.lookup (FillMap fl from_ m tagName decoder).1 k = GoMap.lookup m k) := by
  have htags2 : tags = tagsLoop tagName [] (exportedFields r) := by
    rw [Tags_of_Value from_ tagName r hr] at htags
    simpa using htags.symm
  have hnd2 : ((pre ++ field :: post).map (fun f => f.Name)).Nodup := by
    rw [← hsplit]; exact hnd
  rw [List.map_append, List.map_cons, List.nodup_append] at hnd2
  obtain ⟨_, hnd3, hdisj⟩ := hnd2
  have hpre2 : ∀ g ∈ pre, fillMapField fl tags r decoder g.Name
      = .ok (fillMapString fl tags r decoder g.Name) := by
    intro g hg
    obtain ⟨s, hs⟩ := hpre g hg
    rw [fillMapString_of_ok _ _ _ _ _ _ hs]; exact hs
  have hkeys : (pre.map (fun f => (f.Name, fillMapString fl tags r decoder f.Name))).map
      (fun kv => kv.1) = pre.map (fun f => f.Name) := by
    simp [List.map_map, Function.comp_def]
  rw [FillMap_of_Value fl from_ m tagName decoder r hr, ← htags2, hsplit,
    fillMapLoop_stop fl tags r decoder (fillMapString fl tags r decoder) field post pre m
      hpre2, hfail]
  simp only
  refine ⟨trivial, ?_, ?_, ?_⟩
  · intro g hg s hs
    rw [← fillMapString_of_ok _ _ _ _ _ _ hs]
    apply lookup_insertAll_mem (fillMapString fl tags r decoder) g.Name
    · intro kv hkv
      obtain ⟨f, _, hf⟩ := List.mem_map.mp hkv
      rw [← hf]
    · rw [hkeys]; exact List.mem_map_of_mem _ hg
  · intro g hg
    apply lookup_insertAll_not_mem
    rw [hkeys]
    intro hmem
    exact hdisj hmem (List.mem_map_of_mem (fun f => f.Name) hg)
  · intro k hk
    apply lookup_insertAll_not_mem
    rw [hkeys]
    intro hmem
    apply hk
    simp only [exportedNames, hsplit, List.map_append, List.mem_append]
    exact Or.inl hmem

/-- Witness of C14: in the record of `TestFillStruct` the rounds of `TestString` and
`TestBool` succeed and the round of the nil `*bool` field `TestBoolPtr` ends with an
error; `FillMap` returns that error. -/
theorem FillMap_abort_no_rollback_witness :
    (FillMap noFloat (.struct (testFillStruct "abc" true (.nilptr (.bool tBool))))
        [("TestBoolPtr", "old")] "tag_name" none).2
      = .error (.unconvertible "TestBoolPtr" (.string tString) (.ptr (.bool tBool))
          (.nilptr (.bool tBool))) :=
  (FillMap_abort_no_rollback noFloat
    (.struct (testFillStruct "abc" true (.nilptr (.bool tBool))))
    [("TestBoolPtr", "old")] "tag_name" none
    (testFillStruct "abc" true (.nilptr (.bool tBool))) []
    [exported "TestString" [], exported "TestBool" []] [] (exported "TestBoolPtr" [])
    (.unconvertible "TestBoolPtr" (.string tString) (.ptr (.bool tBool))
      (.nilptr (.bool tBool)))
    rfl (by decide) (by decide) (by decide)
    (by
      intro g hg
      simp only [List.mem_cons, List.mem_singleton, List.not_mem_nil, or_false] at hg
      rcases hg with hg | hg
      · subst hg
        refine ⟨"abc", ?_⟩
        simp [fillMapField, testFillStruct, exported, GoMap.lookup, Record.FieldByName,
          format, decodeString, getKind, Val.kind, kindNum, Val.asString, Val.SetString,
          Val.Interface, decode, decodePtr, Indirect, Val.Elem]
      · subst hg
        refine ⟨"1", ?_⟩
        simp [fillMapField, testFillStruct, exported, GoMap.lookup, Record.FieldByName,
          format, decodeString, getKind, Val.kind, kindNum, Val.asBool, Val.SetString,
          Val.asString, Val.Interface, decode, decodePtr, Indirect, Val.Elem])
    (by
      simp [fillMapField, testFillStruct, exported, GoMap.lookup, Record.FieldByName,
        format, decodeString, getKind, Val.kind, kindNum, getDecodeErr, Val.Type,
        Val.Interface, decode, decodePtr, Indirect, Val.Elem])).1

/-! ## FillMap with a hook -/

theorem getDecodeErr_ne_nil (name : String) (from_ to_ : Val) :
    getDecodeErr name from_ to_ ≠ .nil := by
  unfold getDecodeErr
  split <;> simp

theorem getKind_of_decodeString_nil (fl : FloatOps) (name : String) (w to_ sv : Val)
    (h : decodeString fl name w to_ = (sv, .nil)) :
    getKind w = .String ∨ getKind w = .Bool ∨ getKind w = .Int ∨ getKind w = .Float32 := by
  unfold decodeString at h
  split at h
  · rename_i hk; exact Or.inl hk
  · rename_i hk; exact Or.inr (Or.inl hk)
  · rename_i hk; exact Or.inr (Or.inr (Or.inl hk))
  · rename_i hk; exact Or.inr (Or.inr (Or.inr hk))
  · simp only [Prod.mk.injEq] at h
    exact absurd h.2 (getDecodeErr_ne_nil name w to_)

theorem plain_of_getKind (w : Val)
    (hk : getKind w = .String ∨ getKind w = .Bool ∨ getKind w = .Int
      ∨ getKind w = .Float32) :
    w.Interface = .ok w ∧ w ≠ .invalid ∧ Indirect w = w
    ∧ ¬ (w.kind = .Chan ∨ w.kind = .Func ∨ w.kind = .Interface ∨ w.kind = .Map
        ∨ w.kind = .Ptr ∨ w.kind = .Slice) := by
  cases w with
  | invalid => simp [getKind, Val.kind, kindNum] at hk
  | nilptr t => simp [getKind, Val.kind, kindNum] at hk
  | ptr e => simp [getKind, Val.kind, kindNum] at hk
  | iface n held => simp [getKind, Val.kind, kindNum] at hk
  | bool n b => simp [Val.Interface, Indirect, Val.kind]
  | int n k i => cases k <;> simp [Val.Interface, Indirect, Val.kind, IntKind.toKind]
  | float n is64 bits => cases is64 <;> simp [Val.Interface, Indirect, Val.kind]
  | str n s => simp [Val.Interface, Indirect, Val.kind]
  | other n k lit isNil id =>
    cases k <;> simp [getKind, Val.kind, kindNum] at hk <;>
      simp [Val.Interface, Indirect, Val.kind]

theorem decode_output_of_string (fl : FloatOps) (name : String) (w sv : Val)
    (h : decodeString fl name w (.str tString "") = (sv, .nil)) :
    decode fl name w (.ptr (.str tString "")) false = (.ptr sv, .nil) := by
  obtain ⟨hI, hne, hind, hk⟩ :=
    plain_of_getKind w (getKind_of_decodeString_nil fl name w _ sv h)
  rw [decode]
  simp only [getKind, Val.kind, kindNum]
  rw [decodePtr]
  simp only [hI, hne, hind, hk, if_false]
  rw [decode]
  simp [getKind_str, h]

/-! ## The calls of the hook -/

theorem fillMapLoopT_spec (fl : FloatOps) (tags : GoMap (GoMap String)) (r : Record)
    (d : Hook) :
    ∀ (fields : List StructField) (m : GoMap String),
      (fillMapLoopT fl tags r d fields m).1 = fillMapLoop fl tags r (some d) fields m
      ∧ ((fillMapLoop fl tags r (some d) fields m).2 = .nil →
          (fillMapLoopT fl tags r d fields m).2
            = fields.map (fun f => ⟨f.Name, r.FieldByName f.Name, .ptr (.str tString ""),
                (GoMap.lookup tags f.Name).getD []⟩)) := by
  intro fields
  induction fields with
  | nil => intro m; exact ⟨rfl, fun _ => rfl⟩
  | cons field rest ih =>
    intro m
    simp only [fillMapLoopT, fillMapLoop, List.map_cons]
    split
    · exact ⟨rfl, fun h => by simp at h⟩
    · exact ⟨rfl, fun h => by simp at h⟩
    · split
      · exact ⟨rfl, fun h => by simp at h⟩
      · exact ⟨rfl, fun h => by simp at h⟩
      · generalize decode fl field.Name _ _ false = res
        obtain ⟨o, out⟩ := res
        cases out with
        | nil =>
          simp only
          obtain ⟨h1, h2⟩ := ih (GoMap.insert m field.Name o.Elem.asString)
          refine ⟨h1, fun h => ?_⟩
          rw [h2 h]
        | error e => exact ⟨rfl, fun h => by simp at h⟩
        | panic msg => exact ⟨rfl, fun h => by simp at h⟩

theorem FillMapT_of_Value (fl : FloatOps) (from_ : Arg) (m : GoMap String)
    (tagName : String) (d : Hook) (r : Record) (hr : Value from_ = .ok r) :
    FillMapT fl from_ m tagName d
      = fillMapLoopT fl (tagsLoop tagName [] (exportedFields r)) r d
          (exportedFields r) m := by
  have hne : from_ ≠ .nil := by intro h; rw [h] at hr; simp [Value] at hr
  simp [FillMapT, hne, Tags_of_Value from_ tagName r hr, Fields_of_Value from_ r hr, hr]

/-- C12 (FillMap hook): `FillMap` with a hook `h` calls `h`, for every exported field in
turn, on the value of the field, the output slot and the parsed tags of the field.  When
every call returns a value, `format` of it returns a value, and the String rule turns that
into a string, `FillMap` returns nil and stores that string under the name of the field.
When the call for a field returns an error and the rounds of the fields before it succeed,
`FillMap` returns that error. -/
theorem FillMap_hook (fl : FloatOps) (from_ : Arg) (m : GoMap String) (tagName : String)
    (h : Hook) (r : Record) (tags : GoMap (GoMap String))
    (hr : Value from_ = .ok r) (htags : Tags from_ tagName = .ok tags) :
    (∀ (v w : String → Val) (out : String → String),
      (∀ f ∈ exportedFields r,
        h (r.FieldByName f.Name) (.ptr (.str tString ""))
            ((GoMap.lookup tags f.Name).getD []) = .ok (v f.Name)
        ∧ format fl f.Name (v f.Name) (.ptr (.str tString ""))
            ((GoMap.lookup tags f.Name).getD []) = .ok (w f.Name)
        ∧ decodeString fl f.Name (w f.Name) (.str tString "")
            = (.str tString (out f.Name), .nil)) →
      (FillMap fl from_ m tagName (some h)).2 = .nil
      ∧ (∀ f ∈ exportedFields r,
          GoMap.lookup (FillMap fl from_ m tagName (some h)).1 f.Name = some (out f.Name))
      ∧ (FillMapT fl from_ m tagName h).1 = FillMap fl from_ m tagName (some h)
      ∧ (FillMapT fl from_ m tagName h).2
          = (exportedFields r).map (fun f => ⟨f.Name, r.FieldByName f.Name,
              .ptr (.str tString ""), (GoMap.lookup tags f.Name).getD []⟩))
    ∧ (∀ (pre post : List StructField) (field : StructField) (e : GoError),
        exportedFields r = pre ++ field :: post →
        (∀ g ∈ pre, ∃ s, fillMapField fl tags r (some h) g.Name = .ok s) →
        h (r.FieldByName field.Name) (.ptr (.str tString ""))
            ((GoMap.lookup tags field.Name).getD []) = .error e →
        (FillMap fl from_ m tagName (some h)).2 = .error e) := by
  have htags2 : tags = tagsLoop tagName [] (exportedFields r) := by
    rw [Tags_of_Value from_ tagName r hr] at htags
    simpa using htags.symm
  rw [FillMap_of_Value fl from_ m tagName (some h) r hr,
    FillMapT_of_Value fl from_ m tagName h r hr, ← htags2]
  constructor
  · intro v w out hall
    have hok : ∀ f ∈ exportedFields r,
        fillMapField fl tags r (some h) f.Name = .ok (out f.Name) := by
      intro f hf
      obtain ⟨h1, h2, h3⟩ := hall f hf
      simp [fillMapField, h1, h2, decode_output_of_string fl f.Name _ _ h3, Val.Elem,
        Val.asString]
    have hloop := fillMapLoop_ok fl tags r (some h) out (exportedFields r) m hok
    obtain ⟨ht1, ht2⟩ := fillMapLoopT_spec fl tags r h (exportedFields r) m
    rw [hloop] at ht2 ⊢
    refine ⟨rfl, ?_, by rw [ht1, hloop], ht2 rfl⟩
    intro f hf
    apply lookup_insertAll_mem out f.Name
    · intro kv hkv
      obtain ⟨g, _, hg⟩ := List.mem_map.mp hkv
      rw [← hg]
    · simp only [List.map_map, Function.comp_def]
      exact List.mem_map_of_mem (fun f => f.Name) hf
  · intro pre post field e hsplit hpre hfail
    have hpre2 : ∀ g ∈ pre, fillMapField fl tags r (some h) g.Name
        = .ok (fillMapString fl tags r (some h) g.Name) := by
      intro g hg
      obtain ⟨s, hs⟩ := hpre g hg
      rw [fillMapString_of_ok _ _ _ _ _ _ hs]; exact hs
    have hfield : fillMapField fl tags r (some h) field.Name = .error e := by
      simp [fillMapField, hfail]
    rw [hsplit, fillMapLoop_stop fl tags r (some h) (fillMapString fl tags r (some h))
      field post pre m hpre2, hfield]

/-- Witness of C12: with the hook of `TestFillMapWithDecoder`, which maps true to the
string "1", `FillMap` returns nil and stores "1" under `TestBool`. -/
theorem FillMap_hook_witness :
    (FillMap noFloat (.struct ⟨[(exported "TestBool" [], .bool tBool true)]⟩) []
        "tag_name" (some boolToStringHook)).2 = .nil
    ∧ ∀ f ∈ exportedFields ⟨[(exported "TestBool" [], .bool tBool true)]⟩,
        GoMap.lookup (FillMap noFloat
          (.struct ⟨[(exported "TestBool" [], .bool tBool true)]⟩) []
          "tag_name" (some boolToStringHook)).1 f.Name = some "1" :=
  have hw := (FillMap_hook noFloat
    (.struct ⟨[(exported "TestBool" [], .bool tBool true)]⟩) [] "tag_name"
    boolToStringHook ⟨[(exported "TestBool" [], .bool tBool true)]⟩ [] rfl
    (by decide)).1 (fun _ => .str tString "1") (fun _ => .str tString "1") (fun _ => "1")
    (by
      intro f hf
      simp only [exportedFields, exported, List.map_cons, List.map_nil, List.filter,
        decide_True, List.mem_singleton] at hf
      subst hf
      simp [boolToStringHook, Record.FieldByName, exported, Val.kind, Val.asBool, format,
        decodeString, getKind, kindNum, Val.asString, Val.SetString, GoMap.lookup,
        Val.Interface])
  ⟨hw.1, hw.2.1⟩

/-! ## Values that have no string form -/

theorem decodeString_unconvertible (fl : FloatOps) (name : String) (w d : Val) (T : Ty)
    (n : TName) (old : String)
    (hk : ¬ (getKind w = .String ∨ getKind w = .Bool ∨ getKind w = .Int
      ∨ getKind w = .Float32))
    (hT : w.Type = some T) (hI : w.Interface = .ok d) :
    decodeString fl name w (.str n old)
      = (.str n old, .error (.unconvertible name (.string n) T d)) := by
  simp only [not_or] at hk
  obtain ⟨h1, h2, h3, h4⟩ := hk
  unfold decodeString
  split
  · rename_i h; exact absurd h h1
  · rename_i h; exact absurd h h2
  · rename_i h; exact absurd h h3
  · rename_i h; exact absurd h h4
  · simp [getDecodeErr, hT, hI, Val.Type]

theorem format_passthrough (fl : FloatOps) (name : String) (w to_ : Val)
    (tags : GoMap String) (e : GoError)
    (h : (decodeString fl name w (.str tString "")).2 = .error e) :
    format fl name w to_ tags = w.Interface := by
  unfold format
  rcases hd : decodeString fl name w (.str tString "") with ⟨sv, out⟩
  rw [hd] at h
  simp only at h
  subst h
  rfl

theorem decode_output_plain (fl : FloatOps) (name : String) (w d : Val)
    (hI : w.Interface = .ok d) (hd : d ≠ .invalid)
    (hnn : (Indirect w).isNilRef = false) :
    decode fl name w (.ptr (.str tString "")) false
      = (.ptr (decodeString fl name w (.str tString "")).1,
          (decodeString fl name w (.str tString "")).2) := by
  rw [decode]
  simp only [getKind, Val.kind, kindNum]
  rw [decodePtr]
  simp only [Val.isNilRef, Bool.decide_and, Bool.and_eq_false_imp, decide_eq_true_eq]
    at hnn
  have hif : (if (Indirect w).kind = .Chan ∨ (Indirect w).kind = .Func
      ∨ (Indirect w).kind = .Interface ∨ (Indirect w).kind = .Map
      ∨ (Indirect w).kind = .Ptr ∨ (Indirect w).kind = .Slice then (Indirect w).IsNil
      else false) = false := by
    split
    · rename_i hc; simpa using hnn hc
    · rfl
  simp only [hI, hd, if_false, hif]
  rw [decode]
  simp [getKind_str]

theorem decode_output_nilref (fl : FloatOps) (name : String) (w d : Val)
    (hI : w.Interface = .ok d)
    (hnil : (Indirect w).isNilRef = true) :
    decode fl name w (.ptr (.str tString "")) false = (.ptr (.str tString ""), .nil) := by
  rw [decode]
  simp only [getKind, Val.kind, kindNum]
  rw [decodePtr]
  simp only [Val.isNilRef, Bool.decide_and, Bool.and_eq_true, decide_eq_true_eq] at hnil
  have hif : (if d = .invalid then true else
      if (Indirect w).kind = .Chan ∨ (Indirect w).kind = .Func
      ∨ (Indirect w).kind = .Interface ∨ (Indirect w).kind = .Map
      ∨ (Indirect w).kind = .Ptr ∨ (Indirect w).kind = .Slice then (Indirect w).IsNil
      else false) = true := by
    split
    · rfl
    · rw [if_pos hnil.1]; exact hnil.2
  simp only [hI]
  simp only [hif, if_true]
  simp [Val.IsNil]

theorem Interface_of_Type (w : Val) (T : Ty) (hT : w.Type = some T) :
    w ≠ .invalid
    ∧ (w.Interface = .ok w ∨ ∃ n held, w = .iface n held ∧ w.Interface = .ok held) := by
  cases w with
  | invalid => simp [Val.Type] at hT
  | iface n held => exact ⟨by simp, Or.inr ⟨n, held, rfl, rfl⟩⟩
  | _ => exact ⟨by simp, Or.inl rfl⟩

theorem decodeString_no_panic (fl : FloatOps) (name : String) (w : Val) (T : Ty)
    (hT : w.Type = some T) (msg : String) :
    (decodeString fl name w (.str tString "")).2 ≠ .panic msg := by
  obtain ⟨_, hI⟩ := Interface_of_Type w T hT
  have hI2 : ∃ d, w.Interface = .ok d := by
    rcases hI with h | ⟨_, held, _, h⟩
    · exact ⟨w, h⟩
    · exact ⟨held, h⟩
  obtain ⟨d, hd⟩ := hI2
  unfold decodeString
  split
  · simp [Val.SetString]
  · split <;> simp [Val.SetString]
  · simp [Val.SetString]
  · simp [Val.SetString]
  · simp [getDecodeErr, hT, hd, Val.Type]

theorem format_no_padding (fl : FloatOps) (name : String) (w to_ : Val) (T : Ty)
    (tags : GoMap String) (hT : w.Type = some T)
    (hl : GoMap.lookup tags "padleft" = none) (hr : GoMap.lookup tags "padright" = none) :
    format fl name w to_ tags = w.Interface := by
  have hnp := decodeString_no_panic fl name w T hT
  unfold format
  rcases hd : decodeString fl name w (.str tString "") with ⟨sv, out⟩
  rw [hd] at hnp
  cases out with
  | nil => simp [hl, hr]
  | error e => rfl
  | panic msg => exact absurd rfl (hnp msg)

theorem fillMapField_no_string (fl : FloatOps) (tags : GoMap (GoMap String)) (r : Record)
    (name : String) (e : GoError)
    (hI : (r.FieldByName name).Interface = .ok (r.FieldByName name))
    (hne : r.FieldByName name ≠ .invalid)
    (he : (decodeString fl name (r.FieldByName name) (.str tString "")).2 = .error e) :
    fillMapField fl tags r none name
      = if (Indirect (r.FieldByName name)).isNilRef then .ok "" else .error e := by
  unfold fillMapField
  simp only [format_passthrough fl name _ _ _ e he, hI]
  by_cases hnil : (Indirect (r.FieldByName name)).isNilRef = true
  · rw [decode_output_nilref fl name _ _ hI hnil]
    simp [hnil, Val.Elem, Val.asString]
  · have hnil2 : (Indirect (r.FieldByName name)).isNilRef = false := by simpa using hnil
    rw [decode_output_plain fl name _ _ hI hne hnil2]
    simp only [he, hnil2, Bool.false_eq_true, if_false]

/-- C17, as amended (formatter passthrough): for every value other than the zero Value,
`format` returns the value unchanged (the value held, for a value of interface type) and
no error or panic (a) under every tag set with neither `padleft` nor `padright`, and
(b) under every tag set, also one with a padding tag and no `len`, `start` or `end`, when
the String rule returns an error for the value.  In case (b) the round of `FillMap`
without a hook for a field holding such a value, not of interface type, ends with that
coercion error, unless `reflect.Indirect` of the value is nil, that is, unless the value
is a nil chan, func, map or slice or a non-nil pointer to a nil chan, func, interface,
map, pointer or slice: then the round stores the empty string and does not fail. -/
theorem format_passthrough_valid (fl : FloatOps) (name : String) (from_ to_ : Val)
    (T : Ty) (hT : from_.Type = some T) :
    (from_.Interface = .ok from_
      ∨ ∃ n held, from_ = .iface n held ∧ from_.Interface = .ok held)
    ∧ (∀ tags, GoMap.lookup tags "padleft" = none → GoMap.lookup tags "padright" = none →
        format fl name from_ to_ tags = from_.Interface)
    ∧ (∀ e tags, (decodeString fl name from_ (.str tString "")).2 = .error e →
        format fl name from_ to_ tags = from_.Interface)
    ∧ (∀ e (r : Record) (tags : GoMap (GoMap String)),
        (decodeString fl name from_ (.str tString "")).2 = .error e →
        r.FieldByName name = from_ → from_.Interface = .ok from_ →
        fillMapField fl tags r none name
          = if (Indirect from_).isNilRef then .ok "" else .error e) := by
  obtain ⟨hne, hI⟩ := Interface_of_Type from_ T hT
  refine ⟨hI, ?_, ?_, ?_⟩
  · intro tags hl hr
    exact format_no_padding fl name from_ to_ T tags hT hl hr
  · intro e tags he
    exact format_passthrough fl name from_ to_ tags e he
  · intro e r tags he hr hI2
    subst hr
    exact fillMapField_no_string fl tags r name e hI2 hne he

/-- Witness of C17, as amended: a `uint8` field under the tag `padleft` without a length. -/
theorem format_passthrough_valid_witness :
    format noFloat "N" (.other (predeclared "uint8") .Uint8 "" false 3)
        (.ptr (.str tString "")) [("padleft", "true")]
      = .ok (.other (predeclared "uint8") .Uint8 "" false 3) :=
  (format_passthrough_valid noFloat "N" (.other (predeclared "uint8") .Uint8 "" false 3)
    (.ptr (.str tString "")) (.other (predeclared "uint8") .Uint8 "") rfl).2.2.1
    (.unconvertible "N" (.string tString) (.other (predeclared "uint8") .Uint8 "")
      (.other (predeclared "uint8") .Uint8 "" false 3))
    [("padleft", "true")]
    (by simp [decodeString, getKind, Val.kind, kindNum, getDecodeErr, Val.Type,
      Val.Interface])

/-- C17, as stated, fails on the code: `format` of the zero Value (what `FillMap` passes
when the hook returns nil) panics, also without a padding tag; and for a nil slice under
the tag `padleft` without a length `format` does pass the value through, but the String
rule error never surfaces: `FillMap` stores the empty string and returns nil. -/
theorem format_passthrough_counterexample :
    format noFloat "X" .invalid (.ptr (.str tString "")) []
      = .panic "reflect: call of reflect.Value.Type on zero Value"
    ∧ format noFloat "X" nilSlice (.ptr (.str tString "")) [("padleft", "true")]
      = .ok nilSlice
    ∧ (decodeString noFloat "X" nilSlice (.str tString "")).2
      = .error (.unconvertible "X" (.string tString) (.other ⟨"", []⟩ .Slice "[]int")
          nilSlice)
    ∧ FillMap noFloat (.struct ⟨[(exported "X" [("mytag", "padleft")], nilSlice)]⟩) []
        "mytag" none
      = ([("X", "")], .nil) := by
  refine ⟨?_, ?_, ?_, ?_⟩
  · simp [format, decodeString, getKind, Val.kind, kindNum, getDecodeErr, Val.Type]
  · simp [format, decodeString, getKind, Val.kind, kindNum, getDecodeErr, Val.Type,
      nilSlice, Val.Interface]
  · simp [decodeString, getKind, Val.kind, kindNum, getDecodeErr, Val.Type,
      nilSlice, Val.Interface]
  · simp [FillMap, Tags, Fields, Value, exported, tagsLoop, StructField.TagGet,
      GoMap.lookup, GoMap.insert, fillMapLoop, Record.FieldByName, format, decodeString,
      getKind, Val.kind, kindNum, getDecodeErr, Val.Type, nilSlice, Val.Interface,
      decode, decodePtr, Indirect, Val.IsNil, Val.Elem, Val.asString]

/-! ## FillMap: pointer fields -/

theorem pointer_of_Type (p : Val) (T : Ty) (hp : p.Type = some (.ptr T)) :
    p ≠ .invalid ∧ p.Interface = .ok p ∧ getKind p = .Ptr := by
  cases p with
  | nilptr t => exact ⟨by simp, rfl, by simp [getKind, Val.kind, kindNum]⟩
  | ptr e => exact ⟨by simp, rfl, by simp [getKind, Val.kind, kindNum]⟩
  | _ => simp [Val.Type] at hp

theorem fillMapLoop_lookup_unwritten (fl : FloatOps) (tags : GoMap (GoMap String))
    (r : Record) (decoder : Option Hook) (name : String)
    (hno : ∀ s, fillMapField fl tags r decoder name ≠ .ok s) :
    ∀ (fields : List StructField) (m : GoMap String),
      GoMap.lookup (fillMapLoop fl tags r decoder fields m).1 name = GoMap.lookup m name := by
  intro fields
  induction fields with
  | nil => intro m; rfl
  | cons field rest ih =>
    intro m
    rw [fillMapLoop_cons]
    cases hfield : fillMapField fl tags r decoder field.Name with
    | ok s =>
      simp only
      have hne : name ≠ field.Name := by
        intro h; rw [← h] at hfield; exact hno s hfield
      rw [ih, lookup_insert_ne _ _ _ _ hne]
    | error e => rfl
    | panic msg => rfl

/-- C20, as amended (FillMap does not dereference a pointer source): let a record have an
exported field of a pointer type that is nil or whose pointee is not a nil chan, func,
interface, map, pointer or slice (so every `*bool`, nil or not).  Without a hook, the
round of `FillMap` for that field ends with the error of an unconvertible type; `FillMap`
does not return nil and the entry of the field in the map is what it was before the call;
when the rounds of the fields before it succeed, `FillMap` returns that error. -/
theorem FillMap_pointer_field (fl : FloatOps) (from_ : Arg) (m : GoMap String)
    (tagName : String) (r : Record) (tags : GoMap (GoMap String)) (field : StructField)
    (T : Ty)
    (hr : Value from_ = .ok r) (htags : Tags from_ tagName = .ok tags)
    (hf : field ∈ exportedFields r)
    (hp : (r.FieldByName field.Name).Type = some (.ptr T))
    (hnn : (Indirect (r.FieldByName field.Name)).isNilRef = false) :
    fillMapField fl tags r none field.Name
      = .error (.unconvertible field.Name (.string tString) (.ptr T)
          (r.FieldByName field.Name))
    ∧ (FillMap fl from_ m tagName none).2 ≠ .nil
    ∧ GoMap.lookup (FillMap fl from_ m tagName none).1 field.Name
        = GoMap.lookup m field.Name
    ∧ (∀ (pre post : List StructField), exportedFields r = pre ++ field :: post →
        (∀ g ∈ pre, ∃ s, fillMapField fl tags r none g.Name = .ok s) →
        (FillMap fl from_ m tagName none).2
          = .error (.unconvertible field.Name (.string tString) (.ptr T)
              (r.FieldByName field.Name))) := by
  have htags2 : tags = tagsLoop tagName [] (exportedFields r) := by
    rw [Tags_of_Value from_ tagName r hr] at htags
    simpa using htags.symm
  obtain ⟨hne, hI, hk⟩ := pointer_of_Type _ T hp
  have hds := decodeString_unconvertible fl field.Name (r.FieldByName field.Name)
    (r.FieldByName field.Name) (.ptr T) tString "" (by simp [hk]) hp hI
  have hfield : fillMapField fl tags r none field.Name
      = .error (.unconvertible field.Name (.string tString) (.ptr T)
          (r.FieldByName field.Name)) := by
    rw [fillMapField_no_string fl tags r field.Name _ hI hne (by rw [hds])]
    simp [hnn]
  rw [FillMap_of_Value fl from_ m tagName none r hr, ← htags2]
  refine ⟨hfield, ?_, ?_, ?_⟩
  · intro hnil
    rcases hl : fillMapLoop fl tags r none (exportedFields r) m with ⟨m', out⟩
    rw [hl] at hnil
    simp only at hnil
    subst hnil
    have := fillMapLoop_nil_inv fl tags r none (exportedFields r) m m' hl field hf
    rw [hfield] at this
    simp at this
  · apply fillMapLoop_lookup_unwritten
    intro s hs
    rw [hfield] at hs
    simp at hs
  · intro pre post hsplit hpre
    have hpre2 : ∀ g ∈ pre, fillMapField fl tags r none g.Name
        = .ok (fillMapString fl tags r none g.Name) := by
      intro g hg
      obtain ⟨s, hs⟩ := hpre g hg
      rw [fillMapString_of_ok _ _ _ _ _ _ hs]; exact hs
    rw [hsplit, fillMapLoop_stop fl tags r none (fillMapString fl tags r none)
      field post pre m hpre2, hfield]

/-- Witness of C20, as amended: the record of `TestFillStruct` after `FillStruct`, with
`TestBoolPtr` pointing to true, is not projected to a map: the round of `TestBoolPtr`
ends with the error of an unconvertible type. -/
theorem FillMap_pointer_field_witness :
    fillMapField noFloat [] (testFillStruct "abc" true (.ptr (.bool tBool true))) none
        "TestBoolPtr"
      = .error (.unconvertible "TestBoolPtr" (.string tString) (.ptr (.bool tBool))
          (.ptr (.bool tBool true))) :=
  (FillMap_pointer_field noFloat
    (.struct (testFillStruct "abc" true (.ptr (.bool tBool true)))) [] "tag_name"
    (testFillStruct "abc" true (.ptr (.bool tBool true))) [] (exported "TestBoolPtr" [])
    (.bool tBool) rfl (by decide) (by decide) (by decide) (by decide)).1

/-- C20, as stated, fails on the code: for a field of type `**bool` that points to a nil
`*bool`, `FillMap` without a hook returns nil and stores the empty string under the name
of the field. -/
theorem FillMap_pointer_field_counterexample :
    (Val.ptr (.nilptr (.bool tBool))).Type = some (.ptr (.ptr (.bool tBool)))
    ∧ FillMap noFloat (.struct ⟨[(exported "P" [], .ptr (.nilptr (.bool tBool)))]⟩) []
        "tag_name" none
      = ([("P", "")], .nil) := by
  refine ⟨rfl, ?_⟩
  simp [FillMap, Tags, Fields, Value, exported, tagsLoop, StructField.TagGet,
    GoMap.lookup, GoMap.insert, fillMapLoop, Record.FieldByName, format, decodeString,
    getKind, Val.kind, kindNum, getDecodeErr, Val.Type, Val.Interface,
    decode, decodePtr, Indirect, Val.IsNil, Val.Elem, Val.asString]

theorem hookField_setField (from_ : GoMap String) (toVal : Record) (name : String)
    (v : Val) (rest : List StructField) (hn : name ∉ rest.map (fun f => f.Name)) :
    rest.filter (hookField from_ (toVal.setField name v))
      = rest.filter (hookField from_ toVal) := by
  apply List.filter_congr
  intro g hg
  have hne : g.Name ≠ name := by
    intro h
    exact hn (h ▸ List.mem_map_of_mem (fun f => f.Name) hg)
  simp only [hookField, FieldByName_setField_ne toVal name g.Name v hne]

theorem fillStructLoopT_spec (fl : FloatOps) (from_ : GoMap String)
    (tags : GoMap (GoMap String)) (d : Hook) :
    ∀ (fields : List StructField) (toVal : Record),
      (fillStructLoopT fl from_ tags d fields toVal).1
        = fillStructLoop fl from_ tags (some d) fields toVal
      ∧ ((fields.map (fun f => f.Name)).Nodup →
          (fillStructLoop fl from_ tags (some d) fields toVal).2 = .nil →
          (fillStructLoopT fl from_ tags d fields toVal).2.map (fun c => c.field)
            = (fields.filter (hookField from_ toVal)).map (fun f => f.Name)) := by
  intro fields
  induction fields with
  | nil => intro toVal; exact ⟨rfl, fun _ _ => rfl⟩
  | cons field rest ih =>
    intro toVal
    simp only [fillStructLoopT, fillStructLoop, List.map_cons, List.nodup_cons]
    cases hl : GoMap.lookup from_ field.Name with
    | none =>
      simp only
      obtain ⟨h1, h2⟩ := ih toVal
      refine ⟨h1, fun hnd hnil => ?_⟩
      rw [h2 hnd.2 hnil, List.filter_cons_of_neg (by simp [hookField, hl])]
    | some v =>
      simp only
      by_cases hk : (Val.str tString v).kind = (toVal.FieldByName field.Name).kind
      · simp only [hk, if_true]
        have hks : (toVal.FieldByName field.Name).kind = .String := by
          rw [← hk]; rfl
        cases hset : (toVal.FieldByName field.Name).Set (Val.str tString v) with
        | ok f =>
          simp only
          obtain ⟨h1, h2⟩ := ih (toVal.setField field.Name f)
          refine ⟨h1, fun hnd hnil => ?_⟩
          rw [h2 hnd.2 hnil, hookField_setField from_ toVal field.Name f rest hnd.1,
            List.filter_cons_of_neg (by simp [hookField, hks])]
        | error e => exact ⟨rfl, fun _ h => by simp at h⟩
        | panic msg => exact ⟨rfl, fun _ h => by simp at h⟩
      · simp only [hk, if_false]
        have hks : (toVal.FieldByName field.Name).kind ≠ .String := by
          intro h; apply hk; rw [h]; rfl
        split
        · exact ⟨rfl, fun _ h => by simp at h⟩
        · exact ⟨rfl, fun _ h => by simp at h⟩
        · generalize decode fl field.Name _ _ true = res
          obtain ⟨f, out⟩ := res
          cases out with
          | nil =>
            simp only
            obtain ⟨h1, h2⟩ := ih (toVal.setField field.Name f)
            refine ⟨h1, fun hnd hnil => ?_⟩
            rw [List.map_cons, h2 hnd.2 hnil,
              hookField_setField from_ toVal field.Name f rest hnd.1,
              List.filter_cons_of_pos (by simp [hookField, hl, hks])]
            rfl
          | error e => exact ⟨rfl, fun _ h => by simp at h⟩
          | panic msg => exact ⟨rfl, fun _ h => by simp at h⟩

theorem FillStruct_of_Value (fl : FloatOps) (from_ : GoMap String) (a : Arg)
    (tagName : String) (decoder : Option Hook) (r : Record) (hr : Value a = .ok r) :
    FillStruct fl from_ (.ptr a) tagName decoder
      = ((Arg.ptr a).withStruct (fillStructLoop fl from_
            (tagsLoop tagName [] (exportedFields r)) decoder (exportedFields r) r).1,
          (fillStructLoop fl from_ (tagsLoop tagName [] (exportedFields r)) decoder
            (exportedFields r) r).2) := by
  have hr2 : Value (.ptr a) = .ok r := by simpa [Value] using hr
  simp [FillStruct, isPtr, Tags_of_Value _ tagName r hr2, Fields_of_Value _ r hr2, hr2]

theorem FillStructT_of_Value (fl : FloatOps) (from_ : GoMap String) (a : Arg)
    (tagName : String) (d : Hook) (r : Record) (hr : Value a = .ok r) :
    FillStructT fl from_ (.ptr a) tagName d
      = (((Arg.ptr a).withStruct (fillStructLoopT fl from_
            (tagsLoop tagName [] (exportedFields r)) d (exportedFields r) r).1.1,
          (fillStructLoopT fl from_ (tagsLoop tagName [] (exportedFields r)) d
            (exportedFields r) r).1.2),
          (fillStructLoopT fl from_ (tagsLoop tagName [] (exportedFields r)) d
            (exportedFields r) r).2) := by
  have hr2 : Value (.ptr a) = .ok r := by simpa [Value] using hr
  simp [FillStructT, isPtr, Tags_of_Value _ tagName r hr2, Fields_of_Value _ r hr2, hr2]

/-- C16, as amended (hook invocation count): when a hook is supplied and no error occurs,
`FillMap` invokes it exactly once for every exported field of the record, in declaration
order; `FillStruct` invokes it exactly once, in declaration order, for every exported
field whose name is a key of the source map and which is not of String kind, and for no
other field.  The marshallers with the calls recorded return what `FillMap` and
`FillStruct` return. -/
theorem hook_calls (fl : FloatOps) (a : Arg) (m : GoMap String) (from_ : GoMap String)
    (tagName : String) (d : Hook) (r : Record)
    (hr : Value a = .ok r) (hnd : (exportedNames r).Nodup) :
    (FillMapT fl a m tagName d).1 = FillMap fl a m tagName (some d)
    ∧ ((FillMap fl a m tagName (some d)).2 = .nil →
        (FillMapT fl a m tagName d).2.map (fun c => c.field) = exportedNames r)
    ∧ (FillStructT fl from_ (.ptr a) tagName d).1
        = FillStruct fl from_ (.ptr a) tagName (some d)
    ∧ ((FillStruct fl from_ (.ptr a) tagName (some d)).2 = .nil →
        (FillStructT fl from_ (.ptr a) tagName d).2.map (fun c => c.field)
          = ((exportedFields r).filter (hookField from_ r)).map (fun f => f.Name)) := by
  rw [FillMapT_of_Value fl a m tagName d r hr, FillMap_of_Value fl a m tagName (some d) r hr,
    FillStructT_of_Value fl from_ a tagName d r hr,
    FillStruct_of_Value fl from_ a tagName (some d) r hr]
  generalize tagsLoop tagName [] (exportedFields r) = tags
  obtain ⟨hm1, hm2⟩ := fillMapLoopT_spec fl tags r d (exportedFields r) m
  obtain ⟨hs1, hs2⟩ := fillStructLoopT_spec fl from_ tags d (exportedFields r) r
  refine ⟨hm1, ?_, ?_, ?_⟩
  · intro hnil
    rw [hm2 hnil]
    simp [exportedNames, List.map_map, Function.comp_def]
  · rw [← hs1]
  · intro hnil
    exact hs2 hnd hnil

/-- Witness of C16, as amended: `FillStruct` with the map of `TestFillStruct` and a hook
that returns the current value of the field invokes the hook for `TestBool` and for
`TestBoolPtr`, in this order, and not for the string field `TestString`. -/
theorem hook_calls_witness :
    (FillStructT noFloat [("TestString", "abc"), ("TestBool", "true"), ("TestBoolPtr", "1")]
        (.ptr (.struct (testFillStruct "" false (.nilptr (.bool tBool))))) "tag_name"
        keepHook).2.map (fun c => c.field)
      = ["TestBool", "TestBoolPtr"] :=
  (hook_calls noFloat (.struct (testFillStruct "" false (.nilptr (.bool tBool)))) []
    [("TestString", "abc"), ("TestBool", "true"), ("TestBoolPtr", "1")] "tag_name"
    keepHook (testFillStruct "" false (.nilptr (.bool tBool))) rfl (by decide)).2.2.2
    (by
      simp [FillStruct, isPtr, Tags, Fields, Value, testFillStruct, exported, tagsLoop,
        StructField.TagGet, fillStructLoop, GoMap.lookup, Record.FieldByName, Val.kind,
        Val.Set, Val.Type, Record.setField, setFieldIn, decode, decodePtr, getKind, kindNum,
        decodeBool, ParseBool, Val.asString, Val.SetBool, Val.Interface, Indirect, Zero,
        Arg.withStruct, keepHook, tString, tBool, predeclared])

/-- C16, as stated, fails on the code: `FillStruct` with the keys `TestString` and
`TestBoolPtr` and a hook returns nil for the record of `TestFillStruct` and sets both
fields, but it invokes the hook once, for `TestBoolPtr`: not for `TestString`, a field
of String kind, and not for `TestBool`, whose name is not a key of the source map. -/
theorem hook_calls_counterexample :
    exportedNames (testFillStruct "" false (.nilptr (.bool tBool)))
      = ["TestString", "TestBool", "TestBoolPtr"]
    ∧ FillStructT noFloat [("TestString", "abc"), ("TestBoolPtr", "1")]
        (.ptr (.struct (testFillStruct "" false (.nilptr (.bool tBool))))) "tag_name"
        keepHook
      = ((.ptr (.struct (testFillStruct "abc" false (.ptr (.bool tBool true)))), .nil),
          [⟨"TestBoolPtr", .str tString "1", .nilptr (.bool tBool), []⟩]) := by
  refine ⟨by decide, ?_⟩
  simp [FillStructT, isPtr, Tags, Fields, Value, testFillStruct, exported, tagsLoop,
    StructField.TagGet, fillStructLoopT, GoMap.lookup, Record.FieldByName, Val.kind,
    Val.Set, Val.Type, Record.setField, setFieldIn, decode, decodePtr, getKind, kindNum,
    decodeBool, ParseBool, Val.asString, Val.SetBool, Val.Interface, Indirect, Zero,
    Arg.withStruct, keepHook, tString, tBool, predeclared]

end Structs
